import Mathlib

/-!
# arriba: fusion aggregation, strand prediction and transcript-start prediction

A shallow embedding of `fusions.cpp` (`predict_fusion_strands`,
`predict_transcript_start`, `find_fusions`) together with theorems about it.

Conventions of the embedding:

* `position_t` is `Int` and every `unsigned int` counter is `Nat`; genomic
  coordinates and the number of reads are far below `2^31`, so no wrap-around
  is modelled for them. The parameter `max_mate_gap` is a free `const int`:
  the two expressions that add it to a coordinate or subtract it from one
  (lines 387-388) are reduced to 32 bits, see `int_wrap`.
* A pointer to a gene record is the record itself (`gene_t`), the field `id`
  standing for the address; `NULL` filters are `none`.
* The hash maps `fusions_t` and `discordant_mates_by_gene_pair_t` are
  association lists in insertion order. The source iterates them in an
  unspecified order; every pass after the aggregation treats the fusions one
  by one and independently, so only the order of the resulting list depends on
  this choice.
* The lists of pointers kept in a fusion (`split_read1_list`, ...) hold the
  groups pointed to; the groups are not modified by `find_fusions`.
* What the translation unit takes from headers that are not part of the
  sources at hand is a field of `externals` or is marked as modelled.
-/

namespace Arriba

/-! ## Data model -/

inductive strand_t where
  | FORWARD
  | REVERSE
deriving DecidableEq, Repr, Inhabited

inductive direction_t where
  | UPSTREAM
  | DOWNSTREAM
deriving DecidableEq, Repr, Inhabited

inductive transcript_start_t where
  | TRANSCRIPT_START_GENE1
  | TRANSCRIPT_START_GENE2
deriving DecidableEq, Repr, Inhabited

export strand_t (FORWARD REVERSE)
export direction_t (UPSTREAM DOWNSTREAM)
export transcript_start_t (TRANSCRIPT_START_GENE1 TRANSCRIPT_START_GENE2)

abbrev contig_t := Nat

abbrev position_t := Int

/-- The type `const string*` of a filter: `none` is `NULL`, `some n` the
address of the filter named `n`. -/
abbrev filter_t := Option String

/-- Modelled from the spec: the entry `FILTERS.at("hairpin")` of the global
filter table (declared in common.hpp), the identity of the upstream-assigned
"hairpin" filter reason. -/
def hairpin : filter_t := some "hairpin"

/-- The record a `gene_t` points to; `id` stands for its address. -/
structure gene_t where
  id : Nat
  strand : strand_t
deriving DecidableEq, Repr, Inhabited

/-- A `std::set<gene_t>`, as the list of its elements in iteration order. -/
abbrev gene_set_t := List gene_t

/-- The fields of `alignment_t` read by this translation unit
(`end_` is the field `end`). -/
structure alignment_t where
  contig : contig_t
  start : position_t
  end_ : position_t
  strand : strand_t
  predicted_strand : strand_t
  predicted_strand_ambiguous : Bool
  genes : gene_set_t
  exonic : Bool
deriving DecidableEq, Repr, Inhabited

/-- A chimeric alignment group `mates_t`: a vector of alignments with a
filter. -/
structure mates_t where
  alignments : List alignment_t
  filter : filter_t
deriving DecidableEq, Repr, Inhabited

/-- The element access `mates[i]`. It is only defined inside the vector in the
source; the embedding yields a default record outside. -/
def mates_t.at (m : mates_t) (i : Nat) : alignment_t :=
  m.alignments.getD i default

def mates_t.size (m : mates_t) : Nat :=
  m.alignments.length

/-- The collection `chimeric_alignments_t`, as the list of its groups
(`i->second`) in iteration order; the read names are not used. -/
abbrev chimeric_alignments_t := List mates_t

structure fusion_t where
  gene1 : gene_t
  gene2 : gene_t
  contig1 : contig_t
  contig2 : contig_t
  breakpoint1 : position_t
  breakpoint2 : position_t
  direction1 : direction_t
  direction2 : direction_t
  exonic1 : Bool
  exonic2 : Bool
  overlap_duplicate1 : Bool
  overlap_duplicate2 : Bool
  split_reads1 : Nat
  split_reads2 : Nat
  discordant_mates : Nat
  anchor_start1 : position_t
  anchor_start2 : position_t
  filter : filter_t
  split_read1_list : List mates_t
  split_read2_list : List mates_t
  discordant_mate_list : List mates_t
  predicted_strand1 : strand_t
  predicted_strand2 : strand_t
  predicted_strands_ambiguous : Bool
  spliced1 : Bool
  spliced2 : Bool
  transcript_start : transcript_start_t
  transcript_start_ambiguous : Bool
deriving DecidableEq, Repr

/-- Modelled from the spec: the default constructor of `fusion_t` (declared in
fusions.hpp), which `fusions[key]` runs for a key that is not in the map. The
evidence counters are zero, the anchors hold the sentinel 0 for "unset", the
evidence lists are empty and no filter is set; the remaining fields are
overwritten before they are read. -/
def fusion_t.init : fusion_t where
  gene1 := default
  gene2 := default
  contig1 := 0
  contig2 := 0
  breakpoint1 := 0
  breakpoint2 := 0
  direction1 := UPSTREAM
  direction2 := UPSTREAM
  exonic1 := false
  exonic2 := false
  overlap_duplicate1 := false
  overlap_duplicate2 := false
  split_reads1 := 0
  split_reads2 := 0
  discordant_mates := 0
  anchor_start1 := 0
  anchor_start2 := 0
  filter := none
  split_read1_list := []
  split_read2_list := []
  discordant_mate_list := []
  predicted_strand1 := FORWARD
  predicted_strand2 := FORWARD
  predicted_strands_ambiguous := false
  spliced1 := false
  spliced2 := false
  transcript_start := TRANSCRIPT_START_GENE1
  transcript_start_ambiguous := false

instance : Inhabited fusion_t := ⟨fusion_t.init⟩

/-- The declarations the translation unit uses from headers outside the
sources at hand: the role indices into a group (common.hpp), the method
`fusion_t::is_read_through` (fusions.hpp) and the splice-site predicate
`is_breakpoint_spliced` of the exon index, applied to the index that
`find_fusions` is given. -/
structure externals where
  MATE1 : Nat
  MATE2 : Nat
  SPLIT_READ : Nat
  SUPPLEMENTARY : Nat
  is_read_through : fusion_t → Bool
  is_breakpoint_spliced : gene_t → direction_t → contig_t → position_t → Bool

/-- Modelled from the spec: `complement_strand_if` (declared in common.hpp),
the complement rule of the strand predictor: the strand itself if the
condition is false, else the opposite strand. -/
def complement_strand_if (strand : strand_t) (condition : Bool) : strand_t :=
  if condition then
    (match strand with
     | FORWARD => REVERSE
     | REVERSE => FORWARD)
  else strand

/-! ## predict_fusion_strands -/

/-- The pair of counters `(strand1_forward, strand1_reverse)` after one vote
`if (s == FORWARD) ++strand1_forward; else ++strand1_reverse;`. -/
def count_vote (s : strand_t) (c : Nat × Nat) : Nat × Nat :=
  if s = FORWARD then (c.1 + 1, c.2) else (c.1, c.2 + 1)

/-- The loops of lines 22-30 and 32-40 over a split-read list, reading the
alignment with index `role` of every group. -/
def split_read_votes (role : Nat) (l : List mates_t) (c : Nat × Nat) : Nat × Nat :=
  l.foldl (fun c g =>
    if (g.at role).predicted_strand_ambiguous = false then
      count_vote (g.at role).predicted_strand c
    else c) c

/-- The body of the loop of lines 42-79 for one discordant-mate group: the vote
it casts, `none` if it is skipped (ambiguous read strand, hairpin filter) or
left by `continue` on a tie of the distances. -/
def discordant_mate_vote (E : externals) (fusion : fusion_t) (dm : mates_t) :
    Option strand_t :=
  if (dm.at E.MATE1).predicted_strand_ambiguous = false ∧ dm.filter ≠ hairpin then
    let mate1 := dm.at E.MATE1
    let mate2 := dm.at E.MATE2
    if mate1.contig ≠ fusion.contig1 ∨
        (decide (mate1.strand = FORWARD) ≠ decide (fusion.direction1 = DOWNSTREAM)) then
      -- swap(mate1, mate2)
      some mate2.predicted_strand
    else if mate1.strand = mate2.strand then
      let mate1_end := if fusion.direction1 = DOWNSTREAM then mate1.end_ else mate1.start
      let mate2_end := if fusion.direction1 = DOWNSTREAM then mate2.end_ else mate2.start
      let distance1 :=
        (fusion.breakpoint1 - mate1_end).natAbs + (fusion.breakpoint2 - mate2_end).natAbs
      let distance2 :=
        (fusion.breakpoint2 - mate1_end).natAbs + (fusion.breakpoint1 - mate2_end).natAbs
      if distance1 = distance2 then
        none
      else if distance2 < distance1 then
        some mate2.predicted_strand
      else
        some mate1.predicted_strand
    else
      some mate1.predicted_strand
  else none

/-- The loop of lines 42-79. -/
def discordant_mate_votes (E : externals) (fusion : fusion_t) (l : List mates_t)
    (c : Nat × Nat) : Nat × Nat :=
  l.foldl (fun c dm =>
    match discordant_mate_vote E fusion dm with
    | some s => count_vote s c
    | none => c) c

/-- The counters `(strand1_forward, strand1_reverse)` at line 81. -/
def strand1_votes (E : externals) (fusion : fusion_t) : Nat × Nat :=
  discordant_mate_votes E fusion fusion.discordant_mate_list
    (split_read_votes E.SUPPLEMENTARY fusion.split_read2_list
      (split_read_votes E.SPLIT_READ fusion.split_read1_list (0, 0)))

def predict_fusion_strands (E : externals) (fusion : fusion_t) : fusion_t :=
  let strand1_forward := (strand1_votes E fusion).1
  let strand1_reverse := (strand1_votes E fusion).2
  if strand1_forward = strand1_reverse then
    { fusion with predicted_strands_ambiguous := true }
  else
    let predicted_strand1 := if strand1_forward > strand1_reverse then FORWARD else REVERSE
    { fusion with
      predicted_strands_ambiguous := false
      predicted_strand1 := predicted_strand1
      predicted_strand2 :=
        complement_strand_if predicted_strand1 (decide (fusion.direction1 = fusion.direction2)) }

/-! ## predict_transcript_start -/

/-- Lines 100-108: the transcript start follows from the strand of gene 1 and
the direction of breakpoint 1. -/
def start_from_gene1 (fusion : fusion_t) : fusion_t :=
  if fusion.gene1.strand = FORWARD ∧ fusion.direction1 = DOWNSTREAM then
    { fusion with transcript_start := TRANSCRIPT_START_GENE1 }
  else if fusion.gene1.strand = FORWARD ∧ fusion.direction1 = UPSTREAM then
    { fusion with transcript_start := TRANSCRIPT_START_GENE2 }
  else if fusion.gene1.strand = REVERSE ∧ fusion.direction1 = UPSTREAM then
    { fusion with transcript_start := TRANSCRIPT_START_GENE1 }
  else
    { fusion with transcript_start := TRANSCRIPT_START_GENE2 }

/-- Lines 113-121: the transcript start follows from the strand of gene 2 and
the direction of breakpoint 2. -/
def start_from_gene2 (fusion : fusion_t) : fusion_t :=
  if fusion.gene2.strand = FORWARD ∧ fusion.direction2 = DOWNSTREAM then
    { fusion with transcript_start := TRANSCRIPT_START_GENE2 }
  else if fusion.gene2.strand = FORWARD ∧ fusion.direction2 = UPSTREAM then
    { fusion with transcript_start := TRANSCRIPT_START_GENE1 }
  else if fusion.gene2.strand = REVERSE ∧ fusion.direction2 = UPSTREAM then
    { fusion with transcript_start := TRANSCRIPT_START_GENE2 }
  else
    { fusion with transcript_start := TRANSCRIPT_START_GENE1 }

/-- Lines 131-142: breakpoint 1 is intronic or intergenic, gene 2 has
priority. -/
def start_gene2_priority (E : externals) (fusion : fusion_t) : fusion_t :=
  if fusion.gene2.strand = FORWARD ∧ fusion.direction2 = DOWNSTREAM then
    { fusion with transcript_start := TRANSCRIPT_START_GENE2 }
  else if fusion.gene2.strand = REVERSE ∧ fusion.direction2 = UPSTREAM then
    { fusion with transcript_start := TRANSCRIPT_START_GENE2 }
  else if fusion.split_reads1 + fusion.split_reads2 = 0 ∧
      E.is_read_through fusion = true ∧
      ((fusion.gene2.strand = FORWARD ∧ fusion.direction2 = UPSTREAM) ∨
        (fusion.gene2.strand = REVERSE ∧ fusion.direction2 = DOWNSTREAM)) then
    { fusion with transcript_start := TRANSCRIPT_START_GENE1 }
  else
    { fusion with transcript_start_ambiguous := true }

/-- Lines 146-157: breakpoint 2 is intronic or intergenic, gene 1 has
priority. -/
def start_gene1_priority (E : externals) (fusion : fusion_t) : fusion_t :=
  if fusion.gene1.strand = FORWARD ∧ fusion.direction1 = DOWNSTREAM then
    { fusion with transcript_start := TRANSCRIPT_START_GENE1 }
  else if fusion.gene1.strand = REVERSE ∧ fusion.direction1 = UPSTREAM then
    { fusion with transcript_start := TRANSCRIPT_START_GENE1 }
  else if fusion.split_reads1 + fusion.split_reads2 = 0 ∧
      E.is_read_through fusion = true ∧
      ((fusion.gene1.strand = FORWARD ∧ fusion.direction1 = UPSTREAM) ∨
        (fusion.gene1.strand = REVERSE ∧ fusion.direction1 = DOWNSTREAM)) then
    { fusion with transcript_start := TRANSCRIPT_START_GENE1 }
  else
    { fusion with transcript_start_ambiguous := true }

/-- Lines 161-169: in all other cases gene 1 has priority. -/
def start_other_cases (fusion : fusion_t) : fusion_t :=
  if (fusion.gene1.strand = FORWARD ∧ fusion.direction1 = DOWNSTREAM) ∨
      (fusion.gene1.strand = REVERSE ∧ fusion.direction1 = UPSTREAM) then
    { fusion with transcript_start := TRANSCRIPT_START_GENE1 }
  else if (fusion.gene2.strand = FORWARD ∧ fusion.direction2 = DOWNSTREAM) ∨
      (fusion.gene2.strand = REVERSE ∧ fusion.direction2 = UPSTREAM) then
    { fusion with transcript_start := TRANSCRIPT_START_GENE2 }
  else
    { fusion with transcript_start_ambiguous := true }

/-- Lines 97-171: the cascade that sets `transcript_start` or marks it
ambiguous, entered with the fusion as line 95 leaves it. -/
def transcript_start_cascade (E : externals) (fusion : fusion_t) : fusion_t :=
  if fusion.spliced1 = true ∨
      (fusion.predicted_strands_ambiguous = false ∧
        fusion.predicted_strand1 = fusion.gene1.strand) then
    start_from_gene1 fusion
  else if fusion.spliced2 = true ∨
      (fusion.predicted_strands_ambiguous = false ∧
        fusion.predicted_strand2 = fusion.gene2.strand) then
    start_from_gene2 fusion
  else if (fusion.exonic1 = false ∧ fusion.exonic2 = false) ∨
      fusion.predicted_strands_ambiguous = false then
    { fusion with transcript_start_ambiguous := true }
  else if fusion.exonic1 = false ∧ fusion.exonic2 = true then
    start_gene2_priority E fusion
  else if fusion.exonic2 = false ∧ fusion.exonic1 = true then
    start_gene1_priority E fusion
  else
    start_other_cases fusion

/-- Lines 173-175: an ambiguous transcript start is reported as gene 1. -/
def transcript_start_default (fusion : fusion_t) : fusion_t :=
  if fusion.transcript_start_ambiguous = true then
    { fusion with transcript_start := TRANSCRIPT_START_GENE1 }
  else fusion

/-- Lines 177-187: the strands are predicted from the gene orientations if the
reads did not predict them. -/
def backfill_strands (fusion : fusion_t) : fusion_t :=
  if fusion.transcript_start_ambiguous = false ∧ fusion.predicted_strands_ambiguous = true then
    if fusion.transcript_start = TRANSCRIPT_START_GENE1 then
      { fusion with
        predicted_strands_ambiguous := false
        predicted_strand1 := fusion.gene1.strand
        predicted_strand2 :=
          complement_strand_if fusion.gene1.strand
            (decide (fusion.direction1 = fusion.direction2)) }
    else
      { fusion with
        predicted_strands_ambiguous := false
        predicted_strand2 := fusion.gene2.strand
        predicted_strand1 :=
          complement_strand_if fusion.gene2.strand
            (decide (fusion.direction1 = fusion.direction2)) }
  else fusion

def predict_transcript_start (E : externals) (fusion : fusion_t) : fusion_t :=
  backfill_strands
    (transcript_start_default
      (transcript_start_cascade E { fusion with transcript_start_ambiguous := false }))

/-! ## find_fusions: aggregation -/

/-- The local variables of the body of the aggregation loop (lines 198-203) and
the flag `swapped` of line 223. -/
structure locals where
  contig1 : contig_t
  contig2 : contig_t
  breakpoint1 : position_t
  breakpoint2 : position_t
  direction1 : direction_t
  direction2 : direction_t
  genes1 : gene_set_t
  genes2 : gene_set_t
  exonic1 : Bool
  exonic2 : Bool
  anchor_start1 : position_t
  anchor_start2 : position_t
  swapped : Bool
deriving DecidableEq, Repr

/-- Lines 208-219 and 223: what a split read says about the fusion. -/
def split_read_locals (E : externals) (g : mates_t) : locals where
  contig1 := (g.at E.SPLIT_READ).contig
  contig2 := (g.at E.SUPPLEMENTARY).contig
  breakpoint1 :=
    if (g.at E.SPLIT_READ).strand = FORWARD then (g.at E.SPLIT_READ).start
    else (g.at E.SPLIT_READ).end_
  breakpoint2 :=
    if (g.at E.SUPPLEMENTARY).strand = FORWARD then (g.at E.SUPPLEMENTARY).end_
    else (g.at E.SUPPLEMENTARY).start
  genes1 := (g.at E.SPLIT_READ).genes
  genes2 := (g.at E.SUPPLEMENTARY).genes
  direction1 := if (g.at E.SPLIT_READ).strand = FORWARD then UPSTREAM else DOWNSTREAM
  direction2 := if (g.at E.SUPPLEMENTARY).strand = FORWARD then DOWNSTREAM else UPSTREAM
  exonic1 := (g.at E.SPLIT_READ).exonic
  exonic2 := (g.at E.SUPPLEMENTARY).exonic
  anchor_start1 :=
    if (g.at E.MATE1).strand = FORWARD then (g.at E.MATE1).start else (g.at E.MATE1).end_
  anchor_start2 :=
    if (g.at E.SUPPLEMENTARY).strand = FORWARD then (g.at E.SUPPLEMENTARY).start
    else (g.at E.SUPPLEMENTARY).end_
  swapped := false

/-- Lines 290-301: what a pair of discordant mates says about the fusion
(`swapped` is not a variable of this branch and stays unused). -/
def discordant_mate_locals (E : externals) (g : mates_t) : locals where
  contig1 := (g.at E.MATE1).contig
  contig2 := (g.at E.MATE2).contig
  breakpoint1 :=
    if (g.at E.MATE1).strand = FORWARD then (g.at E.MATE1).end_ else (g.at E.MATE1).start
  breakpoint2 :=
    if (g.at E.MATE2).strand = FORWARD then (g.at E.MATE2).end_ else (g.at E.MATE2).start
  genes1 := (g.at E.MATE1).genes
  genes2 := (g.at E.MATE2).genes
  direction1 := if (g.at E.MATE1).strand = FORWARD then DOWNSTREAM else UPSTREAM
  direction2 := if (g.at E.MATE2).strand = FORWARD then DOWNSTREAM else UPSTREAM
  exonic1 := (g.at E.MATE1).exonic
  exonic2 := (g.at E.MATE2).exonic
  anchor_start1 :=
    if (g.at E.MATE1).strand = FORWARD then (g.at E.MATE1).start else (g.at E.MATE1).end_
  anchor_start2 :=
    if (g.at E.MATE2).strand = FORWARD then (g.at E.MATE2).start else (g.at E.MATE2).end_
  swapped := false

/-- Lines 224-232 and 305-312: the breakpoint with the lower coordinate comes
first. -/
def canonicalize (v : locals) : locals :=
  if v.contig1 > v.contig2 ∨ (v.contig1 = v.contig2 ∧ v.breakpoint1 > v.breakpoint2) then
    { contig1 := v.contig2
      contig2 := v.contig1
      breakpoint1 := v.breakpoint2
      breakpoint2 := v.breakpoint1
      genes1 := v.genes2
      genes2 := v.genes1
      direction1 := v.direction2
      direction2 := v.direction1
      exonic1 := v.exonic2
      exonic2 := v.exonic1
      anchor_start1 := v.anchor_start2
      anchor_start2 := v.anchor_start1
      swapped := true }
  else v

/-- The key type of `fusions_t`, the tuple `tuple<gene_t, gene_t, contig_t,
contig_t, position_t, position_t, direction_t, direction_t>`. -/
structure fusion_key_t where
  gene1 : gene_t
  gene2 : gene_t
  contig1 : contig_t
  contig2 : contig_t
  breakpoint1 : position_t
  breakpoint2 : position_t
  direction1 : direction_t
  direction2 : direction_t
deriving DecidableEq, Repr

/-- The tuple `make_tuple(*gene1, *gene2, contig1, contig2, breakpoint1,
breakpoint2, direction1, direction2)`. -/
def make_key (v : locals) (gene1 gene2 : gene_t) : fusion_key_t :=
  ⟨gene1, gene2, v.contig1, v.contig2, v.breakpoint1, v.breakpoint2, v.direction1, v.direction2⟩

abbrev fusions_t := List (fusion_key_t × fusion_t)

/-- The lookup `fusions.find(key)`; `none` is `fusions.end()`. -/
def fusions_find : fusions_t → fusion_key_t → Option fusion_t
  | [], _ => none
  | (k, f) :: rest, key => if k = key then some f else fusions_find rest key

/-- The access `fusion_t& fusion = fusions[key]` followed by the assignments
`update` to `fusion`: a missing key is entered with a default-constructed
fusion first. -/
def fusions_at : fusions_t → fusion_key_t → (fusion_t → fusion_t) → fusions_t
  | [], key, update => [(key, update fusion_t.init)]
  | (k, f) :: rest, key, update =>
    if k = key then (k, update f) :: rest else (k, f) :: fusions_at rest key update

/-- Lines 255-265 and 335-345: the anchors grow away from the breakpoint. -/
def expand_anchor (fusion : fusion_t) (anchor_start1 anchor_start2 : position_t) : fusion_t :=
  let fusion :=
    if fusion.direction1 = DOWNSTREAM ∧
        (anchor_start1 < fusion.anchor_start1 ∨ fusion.anchor_start1 = 0) then
      { fusion with anchor_start1 := anchor_start1 }
    else if fusion.direction1 = UPSTREAM ∧
        (anchor_start1 > fusion.anchor_start1 ∨ fusion.anchor_start1 = 0) then
      { fusion with anchor_start1 := anchor_start1 }
    else fusion
  if fusion.direction2 = DOWNSTREAM ∧
      (anchor_start2 < fusion.anchor_start2 ∨ fusion.anchor_start2 = 0) then
    { fusion with anchor_start2 := anchor_start2 }
  else if fusion.direction2 = UPSTREAM ∧
      (anchor_start2 > fusion.anchor_start2 ∨ fusion.anchor_start2 = 0) then
    { fusion with anchor_start2 := anchor_start2 }
  else fusion

/-- Lines 242-246 and 323-327: the key fields and the exonic flags are copied
to the fusion. -/
def copy_properties (v : locals) (gene1 gene2 : gene_t) (fusion : fusion_t) : fusion_t :=
  { fusion with
    gene1 := gene1
    gene2 := gene2
    direction1 := v.direction1
    direction2 := v.direction2
    contig1 := v.contig1
    contig2 := v.contig2
    breakpoint1 := v.breakpoint1
    breakpoint2 := v.breakpoint2
    exonic1 := v.exonic1
    exonic2 := v.exonic2 }

/-- Lines 242-282: the assignments to `fusion` in the body of the gene loops of
the split-read branch, for the group `g`. -/
def split_read_fusion (v : locals) (gene1 gene2 : gene_t)
    (overlap_duplicate1 overlap_duplicate2 : Bool) (g : mates_t) (fusion0 : fusion_t) :
    fusion_t :=
  let fusion := copy_properties v gene1 gene2 fusion0
  let fusion :=
    if fusion.split_reads1 + fusion.split_reads2 + fusion.discordant_mates = 0 then
      if g.filter = none then { fusion with filter := none }
      else { fusion with filter := g.filter }
    else fusion
  let fusion := expand_anchor fusion v.anchor_start1 v.anchor_start2
  let fusion :=
    { fusion with
      overlap_duplicate1 := overlap_duplicate1
      overlap_duplicate2 := overlap_duplicate2 }
  if v.swapped = true then
    let fusion := { fusion with split_read2_list := fusion.split_read2_list ++ [g] }
    if g.filter = none then { fusion with split_reads2 := fusion.split_reads2 + 1 } else fusion
  else
    let fusion := { fusion with split_read1_list := fusion.split_read1_list ++ [g] }
    if g.filter = none then { fusion with split_reads1 := fusion.split_reads1 + 1 } else fusion

/-- Lines 238-283: the loop over `genes2`, started with the value
`overlap_duplicate2` of the flag. -/
def split_read_gene2_loop (v : locals) (g : mates_t) (gene1 : gene_t)
    (overlap_duplicate1 : Bool) : List gene_t → Bool → fusions_t → fusions_t
  | [], _, fusions => fusions
  | gene2 :: rest, overlap_duplicate2, fusions =>
    split_read_gene2_loop v g gene1 overlap_duplicate1 rest true
      (fusions_at fusions (make_key v gene1 gene2)
        (split_read_fusion v gene1 gene2 overlap_duplicate1 overlap_duplicate2 g))

/-- Lines 236-285: the loop over `genes1`, started with the value
`overlap_duplicate1` of the flag. -/
def split_read_gene1_loop (v : locals) (g : mates_t) :
    List gene_t → Bool → fusions_t → fusions_t
  | [], _, fusions => fusions
  | gene1 :: rest, overlap_duplicate1, fusions =>
    split_read_gene1_loop v g rest true
      (split_read_gene2_loop v g gene1 overlap_duplicate1 v.genes2 false fusions)

/-- Lines 323-351: the assignments to `fusion` in the body of the gene loops of
the discordant-mate branch. -/
def discordant_mate_fusion (v : locals) (gene1 gene2 : gene_t)
    (overlap_duplicate1 overlap_duplicate2 : Bool) (g : mates_t) (is_new_fusion : Bool)
    (fusion0 : fusion_t) : fusion_t :=
  let fusion := copy_properties v gene1 gene2 fusion0
  let fusion :=
    if g.filter = none then { fusion with filter := none }
    else if is_new_fusion = true ∨ fusion.filter ≠ none then { fusion with filter := g.filter }
    else fusion
  let fusion := expand_anchor fusion v.anchor_start1 v.anchor_start2
  { fusion with
    overlap_duplicate1 := overlap_duplicate1
    overlap_duplicate2 := overlap_duplicate2 }

abbrev discordant_mates_by_gene_pair_t := List ((gene_t × gene_t) × List mates_t)

/-- The lookup `discordant_mates_by_gene_pair.find(key)`. -/
def gene_pair_find : discordant_mates_by_gene_pair_t → gene_t × gene_t → Option (List mates_t)
  | [], _ => none
  | (k, l) :: rest, key => if k = key then some l else gene_pair_find rest key

/-- The statement `discordant_mates_by_gene_pair[key].push_back(i)`. -/
def gene_pair_push_back :
    discordant_mates_by_gene_pair_t → gene_t × gene_t → mates_t → discordant_mates_by_gene_pair_t
  | [], key, g => [(key, [g])]
  | (k, l) :: rest, key, g =>
    if k = key then (k, l ++ [g]) :: rest else (k, l) :: gene_pair_push_back rest key g

/-- The two maps that the aggregation loop fills. -/
structure aggregation_t where
  fusions : fusions_t
  discordant_mates_by_gene_pair : discordant_mates_by_gene_pair_t
deriving DecidableEq, Repr

/-- Lines 318-356: the loop over `genes2` of the discordant-mate branch. -/
def discordant_mate_gene2_loop (v : locals) (g : mates_t) (gene1 : gene_t)
    (overlap_duplicate1 : Bool) : List gene_t → Bool → aggregation_t → aggregation_t
  | [], _, st => st
  | gene2 :: rest, overlap_duplicate2, st =>
    let is_new_fusion := (fusions_find st.fusions (make_key v gene1 gene2)).isNone
    discordant_mate_gene2_loop v g gene1 overlap_duplicate1 rest true
      { fusions :=
          fusions_at st.fusions (make_key v gene1 gene2)
            (discordant_mate_fusion v gene1 gene2 overlap_duplicate1 overlap_duplicate2 g
              is_new_fusion)
        discordant_mates_by_gene_pair :=
          gene_pair_push_back st.discordant_mates_by_gene_pair (gene1, gene2) g }

/-- Lines 316-358: the loop over `genes1` of the discordant-mate branch. -/
def discordant_mate_gene1_loop (v : locals) (g : mates_t) :
    List gene_t → Bool → aggregation_t → aggregation_t
  | [], _, st => st
  | gene1 :: rest, overlap_duplicate1, st =>
    discordant_mate_gene1_loop v g rest true
      (discordant_mate_gene2_loop v g gene1 overlap_duplicate1 v.genes2 false st)

/-- Lines 196-360, the body of the aggregation loop for the group `g`. -/
def aggregate_group (E : externals) (st : aggregation_t) (g : mates_t) : aggregation_t :=
  if g.size = 3 then
    let v := canonicalize (split_read_locals E g)
    { st with fusions := split_read_gene1_loop v g v.genes1 false st.fusions }
  else if g.size = 2 then
    let v := canonicalize (discordant_mate_locals E g)
    discordant_mate_gene1_loop v g v.genes1 false st
  else st

/-- Lines 193-360: the aggregation loop over all groups, from the fusions that
`find_fusions` is given and an empty gene-pair table. -/
def aggregate (E : externals) (chimeric_alignments : chimeric_alignments_t)
    (fusions : fusions_t) : aggregation_t :=
  chimeric_alignments.foldl (aggregate_group E)
    { fusions := fusions, discordant_mates_by_gene_pair := [] }

/-! ## find_fusions: discordant mates supporting a fusion -/

/-- Lines 377-385: the aliases `mate1`, `mate2` after the mate with the lower
coordinate has been made `mate1`. -/
def reorder_mates (E : externals) (dm : mates_t) : alignment_t × alignment_t :=
  let mate1 := dm.at E.MATE1
  let mate2 := dm.at E.MATE2
  let mate1_breakpoint := if mate1.strand = FORWARD then mate1.end_ else mate1.start
  let mate2_breakpoint := if mate2.strand = FORWARD then mate2.end_ else mate2.start
  if mate1.contig > mate2.contig ∨
      (mate1.contig = mate2.contig ∧ mate1_breakpoint > mate2_breakpoint) then
    (mate2, mate1)
  else (mate1, mate2)

/-- The value of an `int` expression whose mathematical result is `x`: the
result reduced to 32 bits in two's complement. (Signed overflow is undefined
in C++; the reduced value is what the compiled code computes.) -/
def int_wrap (x : Int) : Int :=
  (x + 2147483648) % 4294967296 - 2147483648

/-- One conjunct of the condition of lines 387-388, for the side with the given
direction and breakpoint; `split_reads` is `split_reads1 + split_reads2`. The
expressions `mate->end-max_mate_gap` and `mate->start+max_mate_gap` are `int`
expressions in the parameter `max_mate_gap` (`const int`, line 191) and are
reduced to 32 bits; the offsets of 2 are exact for coordinates that are not
within 2 of the limits of `int`. -/
def side_consistent (direction : direction_t) (breakpoint : position_t) (split_reads : Nat)
    (max_mate_gap : Int) (mate : alignment_t) : Bool :=
  decide
    ((direction = DOWNSTREAM ∧ mate.strand = FORWARD ∧
        ((mate.end_ - 2 ≤ breakpoint ∧ split_reads > 0) ∨
          (int_wrap (mate.end_ - max_mate_gap) ≤ breakpoint ∧ split_reads = 0))) ∨
      (direction = UPSTREAM ∧ mate.strand = REVERSE ∧
        ((mate.start + 2 ≥ breakpoint ∧ split_reads > 0) ∨
          (int_wrap (mate.start + max_mate_gap) ≥ breakpoint ∧ split_reads = 0))))

/-- The condition of lines 387-388 on the reordered mates of the group `dm`. -/
def discordant_mate_consistent (E : externals) (max_mate_gap : Int) (fusion : fusion_t)
    (dm : mates_t) : Bool :=
  side_consistent fusion.direction1 fusion.breakpoint1
      (fusion.split_reads1 + fusion.split_reads2) max_mate_gap (reorder_mates E dm).1 &&
    side_consistent fusion.direction2 fusion.breakpoint2
      (fusion.split_reads1 + fusion.split_reads2) max_mate_gap (reorder_mates E dm).2

/-- Lines 390-395: the group `dm` is appended to the list of the fusion and
counted if it is not filtered. -/
def push_discordant_mate (fusion0 : fusion_t) (dm : mates_t) : fusion_t :=
  let fusion := { fusion0 with discordant_mate_list := fusion0.discordant_mate_list ++ [dm] }
  if dm.filter = none then { fusion with discordant_mates := fusion.discordant_mates + 1 }
  else if fusion.filter ≠ none then { fusion with filter := dm.filter }
  else fusion

/-- Lines 398-402: the anchor of breakpoint 1 grows to the far end of
`mate1`. -/
def expand_anchor1_to_mate (fusion : fusion_t) (mate1 : alignment_t) : fusion_t :=
  if fusion.direction1 = DOWNSTREAM ∧
      (mate1.start < fusion.anchor_start1 ∨ fusion.anchor_start1 = 0) then
    { fusion with anchor_start1 := mate1.start }
  else if fusion.direction1 = UPSTREAM ∧
      (mate1.end_ > fusion.anchor_start1 ∨ fusion.anchor_start1 = 0) then
    { fusion with anchor_start1 := mate1.end_ }
  else fusion

/-- Lines 403-407: the anchor of breakpoint 2 grows to the far end of
`mate2`. -/
def expand_anchor2_to_mate (fusion : fusion_t) (mate2 : alignment_t) : fusion_t :=
  if fusion.direction2 = DOWNSTREAM ∧
      (mate2.start < fusion.anchor_start2 ∨ fusion.anchor_start2 = 0) then
    { fusion with anchor_start2 := mate2.start }
  else if fusion.direction2 = UPSTREAM ∧
      (mate2.end_ > fusion.anchor_start2 ∨ fusion.anchor_start2 = 0) then
    { fusion with anchor_start2 := mate2.end_ }
  else fusion

/-- Lines 390-407: the group `dm` with reordered mates `mate1`, `mate2` is
attached to the fusion. -/
def attach_discordant_mate (fusion : fusion_t) (dm : mates_t) (mate1 mate2 : alignment_t) :
    fusion_t :=
  expand_anchor2_to_mate (expand_anchor1_to_mate (push_discordant_mate fusion dm) mate1) mate2

/-- Lines 375-414: the loop over the discordant mates of the gene pair of a
fusion. The second component tells whether the loop was left by the `break`
of line 411, which is when `subsampled_fusions` is incremented. -/
def scan_discordant_mates (E : externals) (max_mate_gap : Int) :
    List mates_t → fusion_t → fusion_t × Bool
  | [], fusion => (fusion, false)
  | dm :: rest, fusion =>
    if discordant_mate_consistent E max_mate_gap fusion dm = true then
      let fusion1 :=
        attach_discordant_mate fusion dm (reorder_mates E dm).1 (reorder_mates E dm).2
      if fusion1.discordant_mates ≥ 1000 then (fusion1, true)
      else scan_discordant_mates E max_mate_gap rest fusion1
    else scan_discordant_mates E max_mate_gap rest fusion

/-- Lines 367-415: the body of the loop over the fusions. -/
def count_discordant_mates (E : externals) (max_mate_gap : Int)
    (discordant_mates_by_gene_pair : discordant_mates_by_gene_pair_t) (fusion : fusion_t) :
    fusion_t × Bool :=
  if fusion.filter ≠ none then (fusion, false)
  else
    match gene_pair_find discordant_mates_by_gene_pair (fusion.gene1, fusion.gene2) with
    | none => (fusion, false)
    | some discordant_mates => scan_discordant_mates E max_mate_gap discordant_mates fusion

/-- Lines 364-416: the loop over the fusions; the second component is
`subsampled_fusions`. -/
def reconcile (E : externals) (max_mate_gap : Int)
    (discordant_mates_by_gene_pair : discordant_mates_by_gene_pair_t) :
    fusions_t → fusions_t × Nat
  | [] => ([], 0)
  | (key, fusion) :: rest =>
    let r := count_discordant_mates E max_mate_gap discordant_mates_by_gene_pair fusion
    let rs := reconcile E max_mate_gap discordant_mates_by_gene_pair rest
    ((key, r.1) :: rs.1, (if r.2 = true then 1 else 0) + rs.2)

/-! ## find_fusions: predictions and result -/

/-- Lines 429-440: the check whether the breakpoints are at splice sites. -/
def splice_site_check (E : externals) (fusion : fusion_t) : fusion_t :=
  if fusion.split_read1_list.length + fusion.split_read2_list.length = 0 ∨
      fusion.predicted_strands_ambiguous = true then
    { fusion with spliced1 := false, spliced2 := false }
  else
    { fusion with
      spliced1 :=
        fusion.exonic1 && decide (fusion.gene1.strand = fusion.predicted_strand1) &&
          E.is_breakpoint_spliced fusion.gene1 fusion.direction1 fusion.contig1
            fusion.breakpoint1
      spliced2 :=
        fusion.exonic2 && decide (fusion.gene2.strand = fusion.predicted_strand2) &&
          E.is_breakpoint_spliced fusion.gene2 fusion.direction2 fusion.contig2
            fusion.breakpoint2 }

/-- Lines 425-444: the three steps applied to one fusion. -/
def predict_fusion (E : externals) (fusion : fusion_t) : fusion_t :=
  predict_transcript_start E (splice_site_check E (predict_fusion_strands E fusion))

/-- Lines 421-449: the loop over the fusions; the second component is
`remaining`. -/
def predict_all (E : externals) : fusions_t → fusions_t × Nat
  | [] => ([], 0)
  | (key, fusion) :: rest =>
    let fusion1 := predict_fusion E fusion
    let rs := predict_all E rest
    ((key, fusion1) :: rs.1, (if fusion1.filter = none then 1 else 0) + rs.2)

/-- The line written to `cerr` at lines 418-419, if any. -/
def subsampling_warning (subsampled_fusions : Nat) : List String :=
  if subsampled_fusions > 0 then
    ["WARNING: " ++ toString subsampled_fusions ++
      " fusions were subsampled, because they have more than 1000 discordant mates"]
  else []

/-- What a call of `find_fusions` leaves: the map `fusions`, the value
returned and the lines written to `cerr`. -/
structure find_fusions_result where
  fusions : fusions_t
  remaining : Nat
  cerr : List String
deriving DecidableEq, Repr

def find_fusions (E : externals) (chimeric_alignments : chimeric_alignments_t)
    (fusions : fusions_t) (max_mate_gap : Int) : find_fusions_result :=
  let st := aggregate E chimeric_alignments fusions
  let counted := reconcile E max_mate_gap st.discordant_mates_by_gene_pair st.fusions
  let predicted := predict_all E counted.1
  { fusions := predicted.1
    remaining := predicted.2
    cerr := subsampling_warning counted.2 }

/-! ## Auxiliary definitions for the statements -/

/-- The key under which the aggregation files a fusion with these fields. -/
def fusion_t.key (f : fusion_t) : fusion_key_t :=
  ⟨f.gene1, f.gene2, f.contig1, f.contig2, f.breakpoint1, f.breakpoint2, f.direction1,
    f.direction2⟩

/-- What `find_fusions` does to a fusion after the aggregation: the discordant
mates are counted (lines 367-415) and the predictions are made (lines 425-444). -/
def finish_fusion (E : externals) (max_mate_gap : Int)
    (discordant_mates_by_gene_pair : discordant_mates_by_gene_pair_t) (fusion : fusion_t) :
    fusion_t :=
  predict_fusion E (count_discordant_mates E max_mate_gap discordant_mates_by_gene_pair fusion).1

/-! ## Sample data -/

/-- The role indices of arriba: the mates are 0 and 1, the split read is the
second mate and its supplementary alignment comes last; nothing is spliced
and nothing is a read-through. -/
def E0 : externals where
  MATE1 := 0
  MATE2 := 1
  SPLIT_READ := 1
  SUPPLEMENTARY := 2
  is_read_through := fun _ => false
  is_breakpoint_spliced := fun _ _ _ _ => false

def gene_a : gene_t := ⟨1, FORWARD⟩

def gene_b : gene_t := ⟨2, FORWARD⟩

/-- An exonic alignment with an unambiguous predicted strand. -/
def sample_alignment (contig : contig_t) (start end_ : position_t)
    (strand predicted_strand : strand_t) (genes : gene_set_t) : alignment_t :=
  ⟨contig, start, end_, strand, predicted_strand, false, genes, true⟩

/-- A pair of discordant mates: the first mate ends at 100 in gene a, the second
one starts at 200 in gene b. -/
def sample_dm : mates_t :=
  ⟨[sample_alignment 1 50 100 FORWARD FORWARD [gene_a],
    sample_alignment 1 200 250 REVERSE FORWARD [gene_b]], none⟩

/-- A split read with the breakpoints 100 in gene a and 200 in gene b. -/
def sample_sr : mates_t :=
  ⟨[sample_alignment 1 10 40 FORWARD FORWARD [gene_a],
    sample_alignment 1 60 100 REVERSE FORWARD [gene_a],
    sample_alignment 1 200 240 REVERSE FORWARD [gene_b]], none⟩

/-- The vote of a split-read group in the loops of lines 22-40, `none` if the
predicted strand of its alignment `role` is ambiguous. -/
def split_read_vote (role : Nat) (g : mates_t) : Option strand_t :=
  if (g.at role).predicted_strand_ambiguous = false then some (g.at role).predicted_strand
  else none

/-- The votes on the strand of breakpoint 1 that the three loops of
`predict_fusion_strands` count, in the order of the loops. -/
def strand1_vote_list (E : externals) (fusion : fusion_t) : List strand_t :=
  fusion.split_read1_list.filterMap (split_read_vote E.SPLIT_READ) ++
    fusion.split_read2_list.filterMap (split_read_vote E.SUPPLEMENTARY) ++
    fusion.discordant_mate_list.filterMap (discordant_mate_vote E fusion)

/-- A fusion with a single split read that votes for the forward strand. -/
def sample_fusion : fusion_t :=
  { fusion_t.init with
    gene1 := gene_a
    gene2 := gene_b
    direction1 := DOWNSTREAM
    direction2 := UPSTREAM
    split_read1_list := [sample_sr]
    split_reads1 := 1 }

/-- A fusion without evidence for the strands, both breakpoints exonic. -/
def sample_fusion_unvoted : fusion_t :=
  { fusion_t.init with
    gene1 := gene_a
    gene2 := gene_b
    direction1 := DOWNSTREAM
    direction2 := UPSTREAM
    exonic1 := true
    exonic2 := true }

/-- A pair of discordant mates whose first mate ends at 97, three bases before
the breakpoint 100 of `sample_sr`, and whose second mate starts at 200. -/
def sample_dm_short : mates_t :=
  ⟨[sample_alignment 1 50 97 FORWARD FORWARD [gene_a],
    sample_alignment 1 200 250 REVERSE FORWARD [gene_b]], none⟩

/-- The first fusion of the map that `find_fusions` leaves. -/
def first_fusion (r : find_fusions_result) : fusion_key_t × fusion_t :=
  r.fusions.headD (fusion_t.init.key, fusion_t.init)

/-- The split read `sample_sr` with a filter. -/
def sample_sr_filtered : mates_t :=
  { sample_sr with filter := some "low_support" }

/-- A pair of discordant mates around the breakpoints of `sample_sr`: the first
mate ends at 90, the second one starts at 210. -/
def sample_dm_wide : mates_t :=
  ⟨[sample_alignment 1 50 90 FORWARD FORWARD [gene_a],
    sample_alignment 1 210 250 REVERSE FORWARD [gene_b]], none⟩

/-- A filtered split read followed by 1000 copies of a pair of discordant mates
of the same gene pair. -/
def sample_cap_input : chimeric_alignments_t :=
  sample_sr_filtered :: List.replicate 1000 sample_dm_wide

/-- The entry with index `i` of the fusion map after the aggregation of
`[sample_sr_filtered, sample_dm_wide]`: 0 is the fusion of the filtered split
read, 1 the fusion of the discordant mates. -/
def sample_cap_entry (i : Nat) : fusion_key_t × fusion_t :=
  (aggregate E0 [sample_sr_filtered, sample_dm_wide] []).fusions.getD i
    (fusion_t.init.key, fusion_t.init)

/-- The canonicalized values that the aggregation loop derives from a group of
size 3 (split read) or 2 (discordant mates). -/
def group_locals (E : externals) (g : mates_t) : locals :=
  if g.size = 3 then canonicalize (split_read_locals E g)
  else canonicalize (discordant_mate_locals E g)

def gene_c : gene_t := ⟨3, REVERSE⟩

/-- A split read whose split segment overlaps the two genes a and c and whose
supplementary segment overlaps the gene b. -/
def sample_sr_overlap : mates_t :=
  ⟨[sample_alignment 1 10 40 FORWARD FORWARD [gene_a],
    sample_alignment 1 60 100 REVERSE FORWARD [gene_a, gene_c],
    sample_alignment 1 200 240 REVERSE FORWARD [gene_b]], none⟩

/-- A pair of discordant mates with the same inward coordinate 100: the first
mate ends there, the second one starts there. -/
def sample_dm_tie : mates_t :=
  ⟨[sample_alignment 1 50 100 FORWARD FORWARD [gene_a],
    sample_alignment 1 100 150 REVERSE FORWARD [gene_a]], none⟩

/-- The group `sample_dm_tie` with its two mates in swapped order. -/
def sample_dm_tie_swapped : mates_t :=
  ⟨[sample_alignment 1 100 150 REVERSE FORWARD [gene_a],
    sample_alignment 1 50 100 FORWARD FORWARD [gene_a]], none⟩

/-- The group `sample_dm` with its two mates in swapped order. -/
def sample_dm_swapped : mates_t :=
  ⟨[sample_alignment 1 200 250 REVERSE FORWARD [gene_b],
    sample_alignment 1 50 100 FORWARD FORWARD [gene_a]], none⟩

/-- A fusion whose strands are predicted and agree with the forward gene 1. -/
def sample_fusion_voted : fusion_t :=
  { sample_fusion_unvoted with
    predicted_strands_ambiguous := false
    predicted_strand1 := FORWARD
    predicted_strand2 := FORWARD }

/-- The fusion with the two sides exchanged: gene, direction and exonic flag of
side 1 with those of side 2. -/
def mirror_fusion (f : fusion_t) : fusion_t :=
  { f with
    gene1 := f.gene2
    gene2 := f.gene1
    direction1 := f.direction2
    direction2 := f.direction1
    exonic1 := f.exonic2
    exonic2 := f.exonic1 }

/-- The externals `E0` with `is_read_through` true for every fusion. -/
def E_read_through : externals :=
  { E0 with is_read_through := fun _ => true }

/-- A fusion without split reads and with ambiguous strands, whose breakpoint 1
is exonic in the reverse gene c with direction DOWNSTREAM and whose
breakpoint 2 is not exonic. -/
def sample_fusion_exonic1 : fusion_t :=
  { fusion_t.init with
    gene1 := gene_c
    gene2 := gene_b
    direction1 := DOWNSTREAM
    direction2 := UPSTREAM
    exonic1 := true
    exonic2 := false
    predicted_strands_ambiguous := true }

/-- A pair of discordant mates on the contigs 1 and 2, both forward and both
ending at 100. -/
def sample_dm_two_contigs : mates_t :=
  ⟨[sample_alignment 1 50 100 FORWARD FORWARD [gene_a],
    sample_alignment 2 50 100 FORWARD FORWARD [gene_b]], none⟩

/-- A pair of discordant mates on the contigs 1 and 2, both forward, ending at
300 and at 110. -/
def sample_dm_contigs_a : mates_t :=
  ⟨[sample_alignment 1 250 300 FORWARD FORWARD [gene_a],
    sample_alignment 2 60 110 FORWARD FORWARD [gene_b]], none⟩

/-- A pair of discordant mates on the contigs 1 and 2, both forward, ending at
100 and at 290; the read strand of the first mate is predicted as forward,
that of the second one as reverse. -/
def sample_dm_contigs_b : mates_t :=
  ⟨[sample_alignment 1 50 100 FORWARD FORWARD [gene_a],
    sample_alignment 2 240 290 FORWARD REVERSE [gene_b]], none⟩

/-- A fusion on contig 1 with the breakpoints 100 and 300, both directions
DOWNSTREAM. -/
def sample_fusion_same_contig : fusion_t :=
  { fusion_t.init with
    gene1 := gene_a
    gene2 := gene_b
    contig1 := 1
    contig2 := 1
    breakpoint1 := 100
    breakpoint2 := 300
    direction1 := DOWNSTREAM
    direction2 := DOWNSTREAM }

/-- A pair of discordant mates on contig 1, both forward: the first mate ends
at 290, near breakpoint 2 of `sample_fusion_same_contig`, the second one at
110, near its breakpoint 1. -/
def sample_dm_crossed : mates_t :=
  ⟨[sample_alignment 1 240 290 FORWARD FORWARD [gene_b],
    sample_alignment 1 60 110 FORWARD REVERSE [gene_a]], none⟩

/-- A split read at the breakpoints of `sample_sr` whose read strand could not
be predicted. -/
def sample_sr_ambiguous : mates_t :=
  ⟨[⟨1, 10, 40, FORWARD, FORWARD, true, [gene_a], true⟩,
    ⟨1, 60, 100, REVERSE, FORWARD, true, [gene_a], true⟩,
    ⟨1, 200, 240, REVERSE, FORWARD, true, [gene_b], true⟩], none⟩

/-- The pair of discordant mates `sample_dm_short` with a filter. -/
def sample_dm_filtered : mates_t :=
  { sample_dm_short with filter := some "mismatches" }

/-- The number of groups of a list that have no filter. -/
def unfiltered_groups (l : List mates_t) : Nat :=
  l.countP (fun g => decide (g.filter = none))

/-- The three evidence counters of a fusion agree with its three evidence lists,
and the two split-read lists are sorted by the swap of the canonicalization. -/
def counters_consistent (E : externals) (f : fusion_t) : Prop :=
  f.split_reads1 = unfiltered_groups f.split_read1_list ∧
    f.split_reads2 = unfiltered_groups f.split_read2_list ∧
    f.discordant_mates = unfiltered_groups f.discordant_mate_list ∧
    (∀ g ∈ f.split_read1_list, (canonicalize (split_read_locals E g)).swapped = false) ∧
    (∀ g ∈ f.split_read2_list, (canonicalize (split_read_locals E g)).swapped = true)

/-- A split read with the breakpoints of `sample_sr` whose split segment lies in
gene b, so that the canonicalization swaps its sides. -/
def sample_sr_swapped : mates_t :=
  ⟨[sample_alignment 1 250 280 REVERSE FORWARD [gene_b],
    sample_alignment 1 200 240 FORWARD FORWARD [gene_b],
    sample_alignment 1 60 100 FORWARD FORWARD [gene_a]], none⟩

/-- Three split reads with the same breakpoints, the second one with a filter and
the third one with swapped sides, and a pair of discordant mates. -/
def sample_counter_input : chimeric_alignments_t :=
  [sample_sr, sample_sr_filtered, sample_sr_swapped, sample_dm_wide]

/-- The fusion with the two splice flags replaced by the given values. -/
def set_splice_flags (spliced1 spliced2 : Bool) (fusion : fusion_t) : fusion_t :=
  { fusion with spliced1 := spliced1, spliced2 := spliced2 }

/-- The three steps of lines 425-444 with the outcome of the splice-site check
thrown away: `predict_transcript_start` is called with `spliced1` and
`spliced2` both false. -/
def predict_fusion_without_splice_flags (E : externals) (fusion : fusion_t) : fusion_t :=
  predict_transcript_start E
    (set_splice_flags false false (splice_site_check E (predict_fusion_strands E fusion)))

/-- The externals of `E0` with every breakpoint at a splice site. -/
def E_spliced : externals :=
  { E0 with is_breakpoint_spliced := fun _ _ _ _ => true }

/-- The fusion `sample_fusion` with both breakpoints in exons. -/
def sample_fusion_exonic : fusion_t :=
  { sample_fusion with exonic1 := true, exonic2 := true }

/-- The inward coordinate of a mate, `mate1_breakpoint` of lines 381-382. -/
def mate_breakpoint (mate : alignment_t) : position_t :=
  if mate.strand = FORWARD then mate.end_ else mate.start

/-- The direction in which a discordant mate sees the breakpoint (lines 296-297). -/
def mate_direction (mate : alignment_t) : direction_t :=
  if mate.strand = FORWARD then DOWNSTREAM else UPSTREAM

/-- The expressions `mate->end-max_mate_gap` and `mate->start+max_mate_gap` of
lines 387-388 have values in the range of `int` for the mate. -/
def gap_fits (max_mate_gap : Int) (mate : alignment_t) : Bool :=
  decide (-2147483648 ≤ mate.end_ - max_mate_gap ∧ mate.end_ - max_mate_gap ≤ 2147483647 ∧
    -2147483648 ≤ mate.start + max_mate_gap ∧ mate.start + max_mate_gap ≤ 2147483647)

/-- The group `g` is recorded under the pair of genes `p` in the table of the
discordant mates, and the fusion map has the key `key`. -/
def recorded (key : fusion_key_t) (p : gene_t × gene_t) (g : mates_t) (st : aggregation_t) :
    Prop :=
  key ∈ st.fusions.map Prod.fst ∧
    ∃ c, gene_pair_find st.discordant_mates_by_gene_pair p = some c ∧ g ∈ c

/-- The rule of lines 255-265 for one anchor: the new value of `anchor_start`
on the side with the given direction when a group with the anchor `value` is
merged. -/
def anchor_step (direction : direction_t) (anchor_start value : position_t) : position_t :=
  if direction = DOWNSTREAM ∧ (value < anchor_start ∨ anchor_start = 0) then value
  else if direction = UPSTREAM ∧ (value > anchor_start ∨ anchor_start = 0) then value
  else anchor_start

/-- The value of a field of `fusions[key]`, read from a default-constructed
fusion if the key is missing. -/
def field_at (field : fusion_t → position_t) (fusions : fusions_t) (key : fusion_key_t) :
    position_t :=
  field ((fusions_find fusions key).getD fusion_t.init)

/-- The group `g` is merged into the fusion with the given key: it has size 3 or
2 and the loops over its genes reach the key. -/
def merged_into (E : externals) (key : fusion_key_t) (g : mates_t) : Bool :=
  decide (g.size = 3 ∨ g.size = 2) &&
    (group_locals E g).genes1.any (fun gene1 =>
      (group_locals E g).genes2.any (fun gene2 =>
        decide (make_key (group_locals E g) gene1 gene2 = key)))

/-- The canonicalized values `anchor_start1` of the groups of the input that are
merged into the fusion with the given key. -/
def merged_anchors1 (E : externals) (chimeric_alignments : chimeric_alignments_t)
    (key : fusion_key_t) : List position_t :=
  (chimeric_alignments.filter (merged_into E key)).map
    (fun g => (group_locals E g).anchor_start1)

/-- The canonicalized values `anchor_start2` of the groups of the input that are
merged into the fusion with the given key. -/
def merged_anchors2 (E : externals) (chimeric_alignments : chimeric_alignments_t)
    (key : fusion_key_t) : List position_t :=
  (chimeric_alignments.filter (merged_into E key)).map
    (fun g => (group_locals E g).anchor_start2)

/-- A split read with the breakpoints of `sample_sr` whose mate and whose
supplementary segment reach further away from the breakpoints: its anchors
are 5 and 260, those of `sample_sr` are 10 and 240. -/
def sample_sr_far : mates_t :=
  ⟨[sample_alignment 1 5 40 FORWARD FORWARD [gene_a],
    sample_alignment 1 60 100 REVERSE FORWARD [gene_a],
    sample_alignment 1 200 260 REVERSE FORWARD [gene_b]], none⟩

/-- A pair of discordant mates around the breakpoints of `sample_sr` with the
anchors 1 and 300. -/
def sample_dm_outer : mates_t :=
  ⟨[sample_alignment 1 1 90 FORWARD FORWARD [gene_a],
    sample_alignment 1 210 300 REVERSE FORWARD [gene_b]], none⟩

/-- Two split reads of one fusion and a pair of discordant mates that supports
it. -/
def sample_anchor_input : chimeric_alignments_t :=
  [sample_sr, sample_sr_far, sample_dm_outer]

/-- The first fusion of the map after the aggregation of `sample_anchor_input`. -/
def sample_anchor_entry : fusion_key_t × fusion_t :=
  (aggregate E0 sample_anchor_input []).fusions.headD (fusion_t.init.key, fusion_t.init)

/-! # Theorems -/

/-! ## Frames: the fields a step may change -/

theorem expand_anchor_frame (f : fusion_t) (a1 a2 : position_t) :
    ∃ x y, expand_anchor f a1 a2 = { f with anchor_start1 := x, anchor_start2 := y } := by
  unfold expand_anchor
  simp only
  split_ifs <;> exact ⟨_, _, rfl⟩

theorem expand_anchor_key (f : fusion_t) (a1 a2 : position_t) :
    (expand_anchor f a1 a2).key = f.key := by
  obtain ⟨x, y, h⟩ := expand_anchor_frame f a1 a2
  rw [h]
  rfl

theorem predict_fusion_strands_frame (E : externals) (f : fusion_t) :
    ∃ a s1 s2, predict_fusion_strands E f =
      { f with predicted_strands_ambiguous := a, predicted_strand1 := s1,
               predicted_strand2 := s2 } := by
  unfold predict_fusion_strands
  simp only
  split_ifs <;> exact ⟨_, _, _, rfl⟩

theorem splice_site_check_frame (E : externals) (f : fusion_t) :
    ∃ a b, splice_site_check E f = { f with spliced1 := a, spliced2 := b } := by
  unfold splice_site_check
  split_ifs <;> exact ⟨_, _, rfl⟩

theorem start_from_gene1_frame (f : fusion_t) :
    ∃ t a, start_from_gene1 f =
      { f with transcript_start := t, transcript_start_ambiguous := a } := by
  unfold start_from_gene1
  split_ifs <;> exact ⟨_, _, rfl⟩

theorem start_from_gene2_frame (f : fusion_t) :
    ∃ t a, start_from_gene2 f =
      { f with transcript_start := t, transcript_start_ambiguous := a } := by
  unfold start_from_gene2
  split_ifs <;> exact ⟨_, _, rfl⟩

theorem start_gene2_priority_frame (E : externals) (f : fusion_t) :
    ∃ t a, start_gene2_priority E f =
      { f with transcript_start := t, transcript_start_ambiguous := a } := by
  unfold start_gene2_priority
  split_ifs <;> exact ⟨_, _, rfl⟩

theorem start_gene1_priority_frame (E : externals) (f : fusion_t) :
    ∃ t a, start_gene1_priority E f =
      { f with transcript_start := t, transcript_start_ambiguous := a } := by
  unfold start_gene1_priority
  split_ifs <;> exact ⟨_, _, rfl⟩

theorem start_other_cases_frame (f : fusion_t) :
    ∃ t a, start_other_cases f =
      { f with transcript_start := t, transcript_start_ambiguous := a } := by
  unfold start_other_cases
  split_ifs <;> exact ⟨_, _, rfl⟩

theorem transcript_start_cascade_frame (E : externals) (f : fusion_t) :
    ∃ t a, transcript_start_cascade E f =
      { f with transcript_start := t, transcript_start_ambiguous := a } := by
  unfold transcript_start_cascade
  split_ifs
  · exact start_from_gene1_frame f
  · exact start_from_gene2_frame f
  · exact ⟨_, _, rfl⟩
  · exact start_gene2_priority_frame E f
  · exact start_gene1_priority_frame E f
  · exact start_other_cases_frame f

theorem predict_transcript_start_frame (E : externals) (f : fusion_t) :
    ∃ t a b s1 s2, predict_transcript_start E f =
      { f with transcript_start := t, transcript_start_ambiguous := a,
               predicted_strands_ambiguous := b, predicted_strand1 := s1,
               predicted_strand2 := s2 } := by
  obtain ⟨t, a, h⟩ :=
    transcript_start_cascade_frame E { f with transcript_start_ambiguous := false }
  unfold predict_transcript_start
  rw [h]
  unfold backfill_strands transcript_start_default
  simp only
  split_ifs <;> exact ⟨_, _, _, _, _, rfl⟩

theorem predict_fusion_frame (E : externals) (f : fusion_t) :
    ∃ t a b s1 s2 p1 p2, predict_fusion E f =
      { f with transcript_start := t, transcript_start_ambiguous := a,
               predicted_strands_ambiguous := b, predicted_strand1 := s1,
               predicted_strand2 := s2, spliced1 := p1, spliced2 := p2 } := by
  unfold predict_fusion
  obtain ⟨a, s1, s2, h1⟩ := predict_fusion_strands_frame E f
  obtain ⟨p1, p2, h2⟩ := splice_site_check_frame E (predict_fusion_strands E f)
  obtain ⟨t, a', b', s1', s2', h3⟩ :=
    predict_transcript_start_frame E (splice_site_check E (predict_fusion_strands E f))
  rw [h3, h2, h1]
  exact ⟨_, _, _, _, _, _, _, rfl⟩

theorem push_discordant_mate_frame (f : fusion_t) (dm : mates_t) :
    ∃ l n fl, push_discordant_mate f dm =
      { f with discordant_mate_list := l, discordant_mates := n, filter := fl } := by
  unfold push_discordant_mate
  dsimp only
  split_ifs <;> exact ⟨_, _, _, rfl⟩

theorem expand_anchor1_to_mate_frame (f : fusion_t) (m : alignment_t) :
    ∃ a, expand_anchor1_to_mate f m = { f with anchor_start1 := a } := by
  unfold expand_anchor1_to_mate
  split_ifs <;> exact ⟨_, rfl⟩

theorem expand_anchor2_to_mate_frame (f : fusion_t) (m : alignment_t) :
    ∃ a, expand_anchor2_to_mate f m = { f with anchor_start2 := a } := by
  unfold expand_anchor2_to_mate
  split_ifs <;> exact ⟨_, rfl⟩

theorem attach_discordant_mate_frame (f : fusion_t) (dm : mates_t) (m1 m2 : alignment_t) :
    ∃ l n fl a b, attach_discordant_mate f dm m1 m2 =
      { f with discordant_mate_list := l, discordant_mates := n, filter := fl,
               anchor_start1 := a, anchor_start2 := b } := by
  unfold attach_discordant_mate
  obtain ⟨l, n, fl, h1⟩ := push_discordant_mate_frame f dm
  obtain ⟨a, h2⟩ := expand_anchor1_to_mate_frame (push_discordant_mate f dm) m1
  obtain ⟨b, h3⟩ :=
    expand_anchor2_to_mate_frame (expand_anchor1_to_mate (push_discordant_mate f dm) m1) m2
  rw [h3, h2, h1]
  exact ⟨_, _, _, _, _, rfl⟩

theorem scan_discordant_mates_frame (E : externals) (max_mate_gap : Int)
    (l : List mates_t) (f : fusion_t) :
    ∃ l' n fl a b, (scan_discordant_mates E max_mate_gap l f).1 =
      { f with discordant_mate_list := l', discordant_mates := n, filter := fl,
               anchor_start1 := a, anchor_start2 := b } := by
  induction l generalizing f with
  | nil => exact ⟨_, _, _, _, _, rfl⟩
  | cons dm rest ih =>
    unfold scan_discordant_mates
    dsimp only
    obtain ⟨l1, n1, fl1, a1, b1, h1⟩ :=
      attach_discordant_mate_frame f dm (reorder_mates E dm).1 (reorder_mates E dm).2
    split_ifs
    · rw [h1]
      exact ⟨_, _, _, _, _, rfl⟩
    · obtain ⟨l2, n2, fl2, a2, b2, h2⟩ := ih
        (attach_discordant_mate f dm (reorder_mates E dm).1 (reorder_mates E dm).2)
      rw [h2, h1]
      exact ⟨_, _, _, _, _, rfl⟩
    · exact ih f

theorem count_discordant_mates_frame (E : externals) (max_mate_gap : Int)
    (idx : discordant_mates_by_gene_pair_t) (f : fusion_t) :
    ∃ l' n fl a b, (count_discordant_mates E max_mate_gap idx f).1 =
      { f with discordant_mate_list := l', discordant_mates := n, filter := fl,
               anchor_start1 := a, anchor_start2 := b } := by
  unfold count_discordant_mates
  split_ifs
  · exact ⟨_, _, _, _, _, rfl⟩
  · split
    · exact ⟨_, _, _, _, _, rfl⟩
    · exact scan_discordant_mates_frame E max_mate_gap _ f

theorem finish_fusion_frame (E : externals) (max_mate_gap : Int)
    (idx : discordant_mates_by_gene_pair_t) (f : fusion_t) :
    ∃ l' n fl a b t ta sa s1 s2 p1 p2, finish_fusion E max_mate_gap idx f =
      { f with discordant_mate_list := l', discordant_mates := n, filter := fl,
               anchor_start1 := a, anchor_start2 := b,
               transcript_start := t, transcript_start_ambiguous := ta,
               predicted_strands_ambiguous := sa, predicted_strand1 := s1,
               predicted_strand2 := s2, spliced1 := p1, spliced2 := p2 } := by
  unfold finish_fusion
  obtain ⟨l', n, fl, a, b, h1⟩ := count_discordant_mates_frame E max_mate_gap idx f
  obtain ⟨t, ta, sa, s1, s2, p1, p2, h2⟩ :=
    predict_fusion_frame E (count_discordant_mates E max_mate_gap idx f).1
  rw [h2, h1]
  exact ⟨_, _, _, _, _, _, _, _, _, _, _, _, rfl⟩

theorem finish_fusion_key (E : externals) (max_mate_gap : Int)
    (idx : discordant_mates_by_gene_pair_t) (f : fusion_t) :
    (finish_fusion E max_mate_gap idx f).key = f.key := by
  obtain ⟨l', n, fl, a, b, t, ta, sa, s1, s2, p1, p2, h⟩ :=
    finish_fusion_frame E max_mate_gap idx f
  rw [h]
  rfl

/-! ## The fusion map during the aggregation -/

theorem canonicalize_ordered (v : locals) :
    (canonicalize v).contig1 < (canonicalize v).contig2 ∨
      ((canonicalize v).contig1 = (canonicalize v).contig2 ∧
        (canonicalize v).breakpoint1 ≤ (canonicalize v).breakpoint2) := by
  unfold canonicalize
  split_ifs with h
  · rcases h with h | ⟨h1, h2⟩
    · exact Or.inl h
    · exact Or.inr ⟨h1.symm, le_of_lt h2⟩
  · rcases Nat.lt_trichotomy v.contig1 v.contig2 with h1 | h1 | h1
    · exact Or.inl h1
    · refine Or.inr ⟨h1, ?_⟩
      by_contra h2
      exact h (Or.inr ⟨h1, not_le.mp h2⟩)
    · exact absurd (Or.inl h1) h

theorem split_read_fusion_key (v : locals) (g1 g2 : gene_t) (o1 o2 : Bool) (g : mates_t)
    (f : fusion_t) : (split_read_fusion v g1 g2 o1 o2 g f).key = make_key v g1 g2 := by
  unfold split_read_fusion
  dsimp only
  split_ifs <;>
  · show (expand_anchor _ _ _).key = _
    rw [expand_anchor_key]
    rfl

theorem discordant_mate_fusion_key (v : locals) (g1 g2 : gene_t) (o1 o2 : Bool) (g : mates_t)
    (b : Bool) (f : fusion_t) :
    (discordant_mate_fusion v g1 g2 o1 o2 g b f).key = make_key v g1 g2 := by
  unfold discordant_mate_fusion
  dsimp only
  show (expand_anchor _ _ _).key = _
  rw [expand_anchor_key]
  split_ifs <;> rfl

theorem fusions_at_forall {P : fusion_key_t → fusion_t → Prop} (fusions : fusions_t)
    (key : fusion_key_t) (update : fusion_t → fusion_t)
    (h : ∀ kf ∈ fusions, P kf.1 kf.2)
    (hu : ∀ f, (f = fusion_t.init ∨ P key f) → P key (update f)) :
    ∀ kf ∈ fusions_at fusions key update, P kf.1 kf.2 := by
  induction fusions with
  | nil =>
    intro kf hkf
    simp only [fusions_at, List.mem_singleton] at hkf
    subst hkf
    exact hu _ (Or.inl rfl)
  | cons hd tl ih =>
    obtain ⟨k, f⟩ := hd
    intro kf hkf
    unfold fusions_at at hkf
    split_ifs at hkf with hk
    · rcases List.mem_cons.mp hkf with h1 | h1
      · subst h1
        subst hk
        exact hu _ (Or.inr (h (k, f) (List.mem_cons_self _ _)))
      · exact h kf (List.mem_cons_of_mem _ h1)
    · rcases List.mem_cons.mp hkf with h1 | h1
      · subst h1
        exact h (k, f) (List.mem_cons_self _ _)
      · exact ih (fun x hx => h x (List.mem_cons_of_mem _ hx)) kf h1

theorem split_read_gene2_loop_forall {P : fusion_key_t → fusion_t → Prop} (v : locals)
    (g : mates_t) (gene1 : gene_t) (od1 : Bool)
    (hu : ∀ gene1 gene2 od1 od2 f, (f = fusion_t.init ∨ P (make_key v gene1 gene2) f) →
      P (make_key v gene1 gene2) (split_read_fusion v gene1 gene2 od1 od2 g f))
    (genes2 : List gene_t) (od2 : Bool) (fusions : fusions_t)
    (h : ∀ kf ∈ fusions, P kf.1 kf.2) :
    ∀ kf ∈ split_read_gene2_loop v g gene1 od1 genes2 od2 fusions, P kf.1 kf.2 := by
  induction genes2 generalizing od2 fusions with
  | nil => exact h
  | cons gene2 rest ih =>
    unfold split_read_gene2_loop
    exact ih true _ (fusions_at_forall fusions _ _ h (hu gene1 gene2 od1 od2))

theorem split_read_gene1_loop_forall {P : fusion_key_t → fusion_t → Prop} (v : locals)
    (g : mates_t)
    (hu : ∀ gene1 gene2 od1 od2 f, (f = fusion_t.init ∨ P (make_key v gene1 gene2) f) →
      P (make_key v gene1 gene2) (split_read_fusion v gene1 gene2 od1 od2 g f))
    (genes1 : List gene_t) (od1 : Bool) (fusions : fusions_t)
    (h : ∀ kf ∈ fusions, P kf.1 kf.2) :
    ∀ kf ∈ split_read_gene1_loop v g genes1 od1 fusions, P kf.1 kf.2 := by
  induction genes1 generalizing od1 fusions with
  | nil => exact h
  | cons gene1 rest ih =>
    unfold split_read_gene1_loop
    exact ih true _ (split_read_gene2_loop_forall v g gene1 od1 hu v.genes2 false fusions h)

theorem discordant_mate_gene2_loop_forall {P : fusion_key_t → fusion_t → Prop} (v : locals)
    (g : mates_t) (gene1 : gene_t) (od1 : Bool)
    (hu : ∀ gene1 gene2 od1 od2 b f, (f = fusion_t.init ∨ P (make_key v gene1 gene2) f) →
      P (make_key v gene1 gene2) (discordant_mate_fusion v gene1 gene2 od1 od2 g b f))
    (genes2 : List gene_t) (od2 : Bool) (st : aggregation_t)
    (h : ∀ kf ∈ st.fusions, P kf.1 kf.2) :
    ∀ kf ∈ (discordant_mate_gene2_loop v g gene1 od1 genes2 od2 st).fusions, P kf.1 kf.2 := by
  induction genes2 generalizing od2 st with
  | nil => exact h
  | cons gene2 rest ih =>
    unfold discordant_mate_gene2_loop
    exact ih true _ (fusions_at_forall st.fusions _ _ h (hu gene1 gene2 od1 od2 _))

theorem discordant_mate_gene1_loop_forall {P : fusion_key_t → fusion_t → Prop} (v : locals)
    (g : mates_t)
    (hu : ∀ gene1 gene2 od1 od2 b f, (f = fusion_t.init ∨ P (make_key v gene1 gene2) f) →
      P (make_key v gene1 gene2) (discordant_mate_fusion v gene1 gene2 od1 od2 g b f))
    (genes1 : List gene_t) (od1 : Bool) (st : aggregation_t)
    (h : ∀ kf ∈ st.fusions, P kf.1 kf.2) :
    ∀ kf ∈ (discordant_mate_gene1_loop v g genes1 od1 st).fusions, P kf.1 kf.2 := by
  induction genes1 generalizing od1 st with
  | nil => exact h
  | cons gene1 rest ih =>
    unfold discordant_mate_gene1_loop
    exact ih true _ (discordant_mate_gene2_loop_forall v g gene1 od1 hu v.genes2 false st h)

/-- A property of the entries of the fusion map that every assignment block of
the aggregation establishes or keeps holds for all entries after the
aggregation. -/
theorem aggregate_forall {P : fusion_key_t → fusion_t → Prop} (E : externals)
    (hs : ∀ (g : mates_t) gene1 gene2 od1 od2 f,
      (f = fusion_t.init ∨ P (make_key (canonicalize (split_read_locals E g)) gene1 gene2) f) →
      P (make_key (canonicalize (split_read_locals E g)) gene1 gene2)
        (split_read_fusion (canonicalize (split_read_locals E g)) gene1 gene2 od1 od2 g f))
    (hd : ∀ (g : mates_t) gene1 gene2 od1 od2 b f,
      (f = fusion_t.init ∨
        P (make_key (canonicalize (discordant_mate_locals E g)) gene1 gene2) f) →
      P (make_key (canonicalize (discordant_mate_locals E g)) gene1 gene2)
        (discordant_mate_fusion (canonicalize (discordant_mate_locals E g)) gene1 gene2 od1 od2
          g b f))
    (chimeric_alignments : chimeric_alignments_t) (st : aggregation_t)
    (h : ∀ kf ∈ st.fusions, P kf.1 kf.2) :
    ∀ kf ∈ (chimeric_alignments.foldl (aggregate_group E) st).fusions, P kf.1 kf.2 := by
  induction chimeric_alignments generalizing st with
  | nil => exact h
  | cons g rest ih =>
    rw [List.foldl_cons]
    apply ih
    unfold aggregate_group
    split_ifs
    · exact split_read_gene1_loop_forall _ g (hs g) _ false st.fusions h
    · exact discordant_mate_gene1_loop_forall _ g (hd g) _ false st h
    · exact h

/-! ## The passes after the aggregation -/

theorem reconcile_fst (E : externals) (max_mate_gap : Int)
    (idx : discordant_mates_by_gene_pair_t) (fusions : fusions_t) :
    (reconcile E max_mate_gap idx fusions).1 =
      fusions.map (fun kf => (kf.1, (count_discordant_mates E max_mate_gap idx kf.2).1)) := by
  induction fusions with
  | nil => rfl
  | cons hd tl ih =>
    obtain ⟨k, f⟩ := hd
    simp only [reconcile, List.map_cons, ih]

theorem predict_all_fst (E : externals) (fusions : fusions_t) :
    (predict_all E fusions).1 = fusions.map (fun kf => (kf.1, predict_fusion E kf.2)) := by
  induction fusions with
  | nil => rfl
  | cons hd tl ih =>
    obtain ⟨k, f⟩ := hd
    simp only [predict_all, List.map_cons, ih]

theorem find_fusions_fusions (E : externals) (chimeric_alignments : chimeric_alignments_t)
    (fusions : fusions_t) (max_mate_gap : Int) :
    (find_fusions E chimeric_alignments fusions max_mate_gap).fusions =
      (aggregate E chimeric_alignments fusions).fusions.map (fun kf =>
        (kf.1, finish_fusion E max_mate_gap
          (aggregate E chimeric_alignments fusions).discordant_mates_by_gene_pair kf.2)) := by
  unfold find_fusions finish_fusion
  simp only [predict_all_fst, reconcile_fst, List.map_map]
  rfl

/-! ## C1: canonical order of the breakpoints -/

theorem aggregate_key_ordered (E : externals) (chimeric_alignments : chimeric_alignments_t) :
    ∀ kf ∈ (aggregate E chimeric_alignments []).fusions,
      kf.2.key = kf.1 ∧
        (kf.2.contig1 < kf.2.contig2 ∨
          (kf.2.contig1 = kf.2.contig2 ∧ kf.2.breakpoint1 ≤ kf.2.breakpoint2)) := by
  unfold aggregate
  apply aggregate_forall
    (P := fun k f => f.key = k ∧
      (f.contig1 < f.contig2 ∨ (f.contig1 = f.contig2 ∧ f.breakpoint1 ≤ f.breakpoint2)))
  · intro g gene1 gene2 od1 od2 f _
    have hk := split_read_fusion_key (canonicalize (split_read_locals E g)) gene1 gene2 od1 od2
      g f
    refine ⟨hk, ?_⟩
    have ho := canonicalize_ordered (split_read_locals E g)
    simp only [fusion_t.key, make_key, fusion_key_t.mk.injEq] at hk
    obtain ⟨-, -, c1, c2, b1, b2, -, -⟩ := hk
    rw [c1, c2, b1, b2]
    exact ho
  · intro g gene1 gene2 od1 od2 b f _
    have hk := discordant_mate_fusion_key (canonicalize (discordant_mate_locals E g)) gene1
      gene2 od1 od2 g b f
    refine ⟨hk, ?_⟩
    have ho := canonicalize_ordered (discordant_mate_locals E g)
    simp only [fusion_t.key, make_key, fusion_key_t.mk.injEq] at hk
    obtain ⟨-, -, c1, c2, b1, b2, -, -⟩ := hk
    rw [c1, c2, b1, b2]
    exact ho
  · intro kf hkf
    simp at hkf

/-- C1: every fusion that `find_fusions` leaves in a map that was empty on entry
is filed under the key made of its own fields, and its breakpoints are in
canonical order: `contig1 < contig2`, or `contig1 = contig2` and
`breakpoint1 ≤ breakpoint2`. This holds for the fusions made from split reads
and for those made from discordant mates. -/
theorem C1_canonical_key_invariant (E : externals)
    (chimeric_alignments : chimeric_alignments_t) (max_mate_gap : Int) :
    ∀ kf ∈ (find_fusions E chimeric_alignments [] max_mate_gap).fusions,
      kf.2.key = kf.1 ∧
        (kf.2.contig1 < kf.2.contig2 ∨
          (kf.2.contig1 = kf.2.contig2 ∧ kf.2.breakpoint1 ≤ kf.2.breakpoint2)) := by
  intro kf hkf
  rw [find_fusions_fusions, List.mem_map] at hkf
  obtain ⟨kf0, hmem, rfl⟩ := hkf
  have h0 := aggregate_key_ordered E chimeric_alignments kf0 hmem
  have hk := finish_fusion_key E max_mate_gap
    (aggregate E chimeric_alignments []).discordant_mates_by_gene_pair kf0.2
  have hk0 := hk
  simp only [fusion_t.key, fusion_key_t.mk.injEq] at hk
  obtain ⟨-, -, c1, c2, b1, b2, -, -⟩ := hk
  dsimp only
  rw [hk0, c1, c2, b1, b2]
  exact h0

/-- The statement of C1 at the first fusion made from a split read and a pair of
discordant mates. -/
theorem C1_canonical_key_invariant_witness :
    ∃ kf, kf ∈ (find_fusions E0 [sample_sr, sample_dm] [] 1000).fusions ∧
      kf.2.key = kf.1 ∧
        (kf.2.contig1 < kf.2.contig2 ∨
          (kf.2.contig1 = kf.2.contig2 ∧ kf.2.breakpoint1 ≤ kf.2.breakpoint2)) :=
  have hne : (find_fusions E0 [sample_sr, sample_dm] [] 1000).fusions ≠ [] := by decide
  ⟨_, List.head_mem hne,
    C1_canonical_key_invariant E0 [sample_sr, sample_dm] 1000 _ (List.head_mem hne)⟩

/-! ## C3: the majority vote -/

theorem count_vote_count (s : strand_t) (c : Nat × Nat) (l : List strand_t)
    (h : c = (l.count FORWARD, l.count REVERSE)) :
    count_vote s c = ((l ++ [s]).count FORWARD, (l ++ [s]).count REVERSE) := by
  subst h
  cases s <;> simp [count_vote, List.count_append]

theorem split_read_votes_count (role : Nat) (l : List mates_t) (c : Nat × Nat)
    (votes : List strand_t) (h : c = (votes.count FORWARD, votes.count REVERSE)) :
    split_read_votes role l c =
      ((votes ++ l.filterMap (split_read_vote role)).count FORWARD,
        (votes ++ l.filterMap (split_read_vote role)).count REVERSE) := by
  unfold split_read_votes
  induction l generalizing c votes with
  | nil => simpa using h
  | cons g rest ih =>
    rw [List.foldl_cons]
    by_cases hg : (g.at role).predicted_strand_ambiguous = false
    · rw [if_pos hg, ih _ (votes ++ [(g.at role).predicted_strand]) (count_vote_count _ _ _ h)]
      simp [split_read_vote, hg]
    · rw [if_neg hg, ih _ votes h]
      simp [split_read_vote, hg]

theorem discordant_mate_votes_count (E : externals) (f : fusion_t) (l : List mates_t)
    (c : Nat × Nat) (votes : List strand_t)
    (h : c = (votes.count FORWARD, votes.count REVERSE)) :
    discordant_mate_votes E f l c =
      ((votes ++ l.filterMap (discordant_mate_vote E f)).count FORWARD,
        (votes ++ l.filterMap (discordant_mate_vote E f)).count REVERSE) := by
  unfold discordant_mate_votes
  induction l generalizing c votes with
  | nil => simpa using h
  | cons g rest ih =>
    rw [List.foldl_cons]
    cases hv : discordant_mate_vote E f g with
    | none =>
      rw [ih _ votes h]
      simp [hv]
    | some s =>
      rw [ih _ (votes ++ [s]) (count_vote_count _ _ _ h)]
      simp [hv]

/-- The counters of `predict_fusion_strands` are the numbers of forward and of
reverse votes in the list of the votes cast. -/
theorem strand1_votes_count (E : externals) (f : fusion_t) :
    strand1_votes E f =
      ((strand1_vote_list E f).count FORWARD, (strand1_vote_list E f).count REVERSE) := by
  unfold strand1_votes strand1_vote_list
  rw [discordant_mate_votes_count E f _ _
    (f.split_read1_list.filterMap (split_read_vote E.SPLIT_READ) ++
      f.split_read2_list.filterMap (split_read_vote E.SUPPLEMENTARY))]
  rw [split_read_votes_count _ _ _ (f.split_read1_list.filterMap (split_read_vote E.SPLIT_READ))]
  rw [split_read_votes_count _ _ _ []]
  · simp
  · simp

/-- C3: after `predict_fusion_strands` the strands are ambiguous exactly if as
many votes say FORWARD as say REVERSE; if the numbers differ, the strand of
breakpoint 1 is FORWARD exactly if FORWARD has strictly more votes and REVERSE
exactly if REVERSE has strictly more. -/
theorem C3_vote_symmetry (E : externals) (f : fusion_t) :
    ((predict_fusion_strands E f).predicted_strands_ambiguous = true ↔
        (strand1_vote_list E f).count FORWARD = (strand1_vote_list E f).count REVERSE) ∧
      ((strand1_vote_list E f).count FORWARD ≠ (strand1_vote_list E f).count REVERSE →
        ((predict_fusion_strands E f).predicted_strand1 = FORWARD ↔
            (strand1_vote_list E f).count REVERSE < (strand1_vote_list E f).count FORWARD) ∧
          ((predict_fusion_strands E f).predicted_strand1 = REVERSE ↔
            (strand1_vote_list E f).count FORWARD < (strand1_vote_list E f).count REVERSE)) := by
  unfold predict_fusion_strands
  simp only [strand1_votes_count]
  constructor
  · split_ifs with h <;> simp [h]
  · intro hne
    rw [if_neg hne]
    dsimp only
    split_ifs with h
    · simp only [true_iff, reduceCtorEq, false_iff, not_lt]
      exact ⟨h, le_of_lt h⟩
    · simp only [reduceCtorEq, false_iff, true_iff]
      refine ⟨h, ?_⟩
      omega

/-- The statement of C3 at a fusion with one forward vote. -/
theorem C3_vote_symmetry_witness :
    (strand1_vote_list E0 sample_fusion).count FORWARD ≠
        (strand1_vote_list E0 sample_fusion).count REVERSE ∧
      (((predict_fusion_strands E0 sample_fusion).predicted_strand1 = FORWARD ↔
          (strand1_vote_list E0 sample_fusion).count REVERSE <
            (strand1_vote_list E0 sample_fusion).count FORWARD) ∧
        ((predict_fusion_strands E0 sample_fusion).predicted_strand1 = REVERSE ↔
          (strand1_vote_list E0 sample_fusion).count FORWARD <
            (strand1_vote_list E0 sample_fusion).count REVERSE)) :=
  ⟨by decide, (C3_vote_symmetry E0 sample_fusion).2 (by decide)⟩

/-! ## C4: the complement law -/

theorem complement_strand_if_eq_iff (s : strand_t) (c : Bool) :
    complement_strand_if s c = s ↔ c = false := by
  cases s <;> cases c <;> simp [complement_strand_if]

theorem eq_complement_strand_if_iff (s : strand_t) (c : Bool) :
    s = complement_strand_if s c ↔ c = false := by
  cases s <;> cases c <;> simp [complement_strand_if]

theorem predict_fusion_strands_complement (E : externals) (f : fusion_t) :
    (predict_fusion_strands E f).predicted_strands_ambiguous = false →
      ((predict_fusion_strands E f).predicted_strand2 =
          (predict_fusion_strands E f).predicted_strand1 ↔
        (predict_fusion_strands E f).direction1 ≠ (predict_fusion_strands E f).direction2) := by
  unfold predict_fusion_strands
  dsimp only
  split_ifs <;> simp [complement_strand_if_eq_iff]

theorem backfill_strands_complement (f : fusion_t)
    (h : f.predicted_strands_ambiguous = false →
      (f.predicted_strand2 = f.predicted_strand1 ↔ f.direction1 ≠ f.direction2)) :
    (backfill_strands f).predicted_strands_ambiguous = false →
      ((backfill_strands f).predicted_strand2 = (backfill_strands f).predicted_strand1 ↔
        (backfill_strands f).direction1 ≠ (backfill_strands f).direction2) := by
  unfold backfill_strands
  split_ifs with h1 h2
  · intro _
    simp [complement_strand_if_eq_iff]
  · intro _
    simp [eq_complement_strand_if_iff]
  · exact h

theorem predict_transcript_start_complement (E : externals) (f : fusion_t)
    (h : f.predicted_strands_ambiguous = false →
      (f.predicted_strand2 = f.predicted_strand1 ↔ f.direction1 ≠ f.direction2)) :
    (predict_transcript_start E f).predicted_strands_ambiguous = false →
      ((predict_transcript_start E f).predicted_strand2 =
          (predict_transcript_start E f).predicted_strand1 ↔
        (predict_transcript_start E f).direction1 ≠
          (predict_transcript_start E f).direction2) := by
  unfold predict_transcript_start
  apply backfill_strands_complement
  obtain ⟨t, a, hc⟩ :=
    transcript_start_cascade_frame E { f with transcript_start_ambiguous := false }
  rw [hc]
  unfold transcript_start_default
  split_ifs <;> exact h

/-- C4: the complement law. After `predict_fusion_strands`, if the strands are
not ambiguous, `predicted_strand2 = predicted_strand1` holds exactly if
`direction1 ≠ direction2`; and the same is true after `predict_transcript_start`
has run on the result, whatever the splice-site check has set in between, also
when the strands have been taken from the orientation of gene 1 or of gene 2. -/
theorem C4_complement_law (E : externals) (f : fusion_t) :
    ((predict_fusion_strands E f).predicted_strands_ambiguous = false →
        ((predict_fusion_strands E f).predicted_strand2 =
            (predict_fusion_strands E f).predicted_strand1 ↔
          (predict_fusion_strands E f).direction1 ≠
            (predict_fusion_strands E f).direction2)) ∧
      ∀ spliced1 spliced2 : Bool,
        (predict_transcript_start E
            { predict_fusion_strands E f with
              spliced1 := spliced1, spliced2 := spliced2 }).predicted_strands_ambiguous =
            false →
          ((predict_transcript_start E
                { predict_fusion_strands E f with
                  spliced1 := spliced1, spliced2 := spliced2 }).predicted_strand2 =
              (predict_transcript_start E
                { predict_fusion_strands E f with
                  spliced1 := spliced1, spliced2 := spliced2 }).predicted_strand1 ↔
            (predict_transcript_start E
                { predict_fusion_strands E f with
                  spliced1 := spliced1, spliced2 := spliced2 }).direction1 ≠
              (predict_transcript_start E
                { predict_fusion_strands E f with
                  spliced1 := spliced1, spliced2 := spliced2 }).direction2) := by
  refine ⟨predict_fusion_strands_complement E f, ?_⟩
  intro spliced1 spliced2
  apply predict_transcript_start_complement
  exact predict_fusion_strands_complement E f

/-- The statement of C4 at a fusion whose strands are taken from the orientation
of gene 1. -/
theorem C4_complement_law_witness :
    (predict_transcript_start E0
        { predict_fusion_strands E0 sample_fusion_unvoted with
          spliced1 := false, spliced2 := false }).predicted_strands_ambiguous = false ∧
      ((predict_transcript_start E0
            { predict_fusion_strands E0 sample_fusion_unvoted with
              spliced1 := false, spliced2 := false }).predicted_strand2 =
          (predict_transcript_start E0
            { predict_fusion_strands E0 sample_fusion_unvoted with
              spliced1 := false, spliced2 := false }).predicted_strand1 ↔
        (predict_transcript_start E0
            { predict_fusion_strands E0 sample_fusion_unvoted with
              spliced1 := false, spliced2 := false }).direction1 ≠
          (predict_transcript_start E0
            { predict_fusion_strands E0 sample_fusion_unvoted with
              spliced1 := false, spliced2 := false }).direction2) :=
  ⟨by decide, (C4_complement_law E0 sample_fusion_unvoted).2 false false (by decide)⟩

/-! ## C5: an ambiguous transcript start is reported as gene 1 -/

theorem backfill_strands_transcript_start (f : fusion_t) :
    (backfill_strands f).transcript_start = f.transcript_start ∧
      (backfill_strands f).transcript_start_ambiguous = f.transcript_start_ambiguous := by
  unfold backfill_strands
  split_ifs <;> exact ⟨rfl, rfl⟩

/-- C5: after `predict_transcript_start`, whatever the fusion was on entry, an
ambiguous transcript start is the transcript start GENE1. -/
theorem C5_ambiguous_start_is_gene1 (E : externals) (f : fusion_t) :
    (predict_transcript_start E f).transcript_start_ambiguous = true →
      (predict_transcript_start E f).transcript_start = TRANSCRIPT_START_GENE1 := by
  unfold predict_transcript_start
  rw [(backfill_strands_transcript_start _).1, (backfill_strands_transcript_start _).2]
  unfold transcript_start_default
  split_ifs with h
  · intro _
    rfl
  · intro h'
    exact absurd h' h

/-- The statement of C5 at a fusion without evidence and with intergenic
breakpoints, whose transcript start is ambiguous. -/
theorem C5_ambiguous_start_is_gene1_witness :
    (predict_transcript_start E0
        (predict_fusion_strands E0 fusion_t.init)).transcript_start_ambiguous = true ∧
      (predict_transcript_start E0 (predict_fusion_strands E0 fusion_t.init)).transcript_start =
        TRANSCRIPT_START_GENE1 :=
  ⟨by decide,
    C5_ambiguous_start_is_gene1 E0 (predict_fusion_strands E0 fusion_t.init) (by decide)⟩

/-! ## C9: the value returned -/

theorem predict_all_snd (E : externals) (fusions : fusions_t) :
    (predict_all E fusions).2 =
      ((predict_all E fusions).1.filter (fun kf => decide (kf.2.filter = none))).length := by
  induction fusions with
  | nil => rfl
  | cons hd tl ih =>
    obtain ⟨k, f⟩ := hd
    simp only [predict_all, List.filter_cons]
    rw [ih]
    split_ifs with h1 h2 h2
    · simp [Nat.add_comm]
    · simp [h1] at h2
    · simp [h1] at h2
    · simp

/-- C9: the value that `find_fusions` returns is the number of fusions of the
resulting map whose filter is null; and neither the strand prediction nor the
splice-site check nor the prediction of the transcript start changes the
filter of a fusion. -/
theorem C9_return_value (E : externals) (chimeric_alignments : chimeric_alignments_t)
    (fusions : fusions_t) (max_mate_gap : Int) :
    (find_fusions E chimeric_alignments fusions max_mate_gap).remaining =
        ((find_fusions E chimeric_alignments fusions max_mate_gap).fusions.filter
          (fun kf => decide (kf.2.filter = none))).length ∧
      ∀ f : fusion_t,
        (predict_fusion_strands E f).filter = f.filter ∧
          (splice_site_check E f).filter = f.filter ∧
          (predict_transcript_start E f).filter = f.filter := by
  refine ⟨?_, ?_⟩
  · unfold find_fusions
    exact predict_all_snd E _
  · intro f
    obtain ⟨a, s1, s2, h1⟩ := predict_fusion_strands_frame E f
    obtain ⟨p1, p2, h2⟩ := splice_site_check_frame E f
    obtain ⟨t, a', b', s1', s2', h3⟩ := predict_transcript_start_frame E f
    rw [h1, h2, h3]
    exact ⟨rfl, rfl, rfl⟩

/-! ## The scan of the discordant mates of a gene pair -/

theorem attach_discordant_mate_list (f : fusion_t) (dm : mates_t) (m1 m2 : alignment_t) :
    (attach_discordant_mate f dm m1 m2).discordant_mate_list = f.discordant_mate_list ++ [dm] := by
  unfold attach_discordant_mate
  obtain ⟨a, h2⟩ := expand_anchor1_to_mate_frame (push_discordant_mate f dm) m1
  obtain ⟨b, h3⟩ :=
    expand_anchor2_to_mate_frame (expand_anchor1_to_mate (push_discordant_mate f dm) m1) m2
  rw [h3, h2]
  unfold push_discordant_mate
  dsimp only
  split_ifs <;> rfl

theorem attach_discordant_mate_count (f : fusion_t) (dm : mates_t) (m1 m2 : alignment_t) :
    (attach_discordant_mate f dm m1 m2).discordant_mates =
      f.discordant_mates + (if dm.filter = none then 1 else 0) := by
  unfold attach_discordant_mate
  obtain ⟨a, h2⟩ := expand_anchor1_to_mate_frame (push_discordant_mate f dm) m1
  obtain ⟨b, h3⟩ :=
    expand_anchor2_to_mate_frame (expand_anchor1_to_mate (push_discordant_mate f dm) m1) m2
  rw [h3, h2]
  unfold push_discordant_mate
  dsimp only
  split_ifs <;> rfl

/-- Attaching a group to a fusion without filter leaves it without filter: the
assignment of line 395 is never reached from line 367. -/
theorem attach_discordant_mate_filter (f : fusion_t) (dm : mates_t) (m1 m2 : alignment_t)
    (h : f.filter = none) : (attach_discordant_mate f dm m1 m2).filter = none := by
  unfold attach_discordant_mate
  obtain ⟨a, h2⟩ := expand_anchor1_to_mate_frame (push_discordant_mate f dm) m1
  obtain ⟨b, h3⟩ :=
    expand_anchor2_to_mate_frame (expand_anchor1_to_mate (push_discordant_mate f dm) m1) m2
  rw [h3, h2]
  unfold push_discordant_mate
  dsimp only
  split_ifs with h4 h5
  · exact h
  · exact absurd h h5
  · exact h

theorem attach_discordant_mate_consistent (E : externals) (max_mate_gap : Int) (f : fusion_t)
    (dm : mates_t) (m1 m2 : alignment_t) (dm' : mates_t) :
    discordant_mate_consistent E max_mate_gap (attach_discordant_mate f dm m1 m2) dm' =
      discordant_mate_consistent E max_mate_gap f dm' := by
  obtain ⟨l, n, fl, a, b, h⟩ := attach_discordant_mate_frame f dm m1 m2
  rw [h]
  rfl

/-- What the loop of lines 375-414 does to a fusion with fewer than 1000
counted mates: it runs over a prefix `pre` of the candidates, attaches the
consistent groups of `pre` and counts the unfiltered ones among them; it is
left by `break` exactly after an unfiltered consistent group has brought the
count to 1000, and otherwise runs over all candidates. -/
theorem scan_discordant_mates_spec (E : externals) (max_mate_gap : Int) (l : List mates_t)
    (f : fusion_t) (hf : f.discordant_mates < 1000) :
    ∃ pre post, l = pre ++ post ∧
      (scan_discordant_mates E max_mate_gap l f).1.discordant_mate_list =
        f.discordant_mate_list ++
          pre.filter (fun dm => discordant_mate_consistent E max_mate_gap f dm) ∧
      (scan_discordant_mates E max_mate_gap l f).1.discordant_mates =
        f.discordant_mates +
          pre.countP (fun dm =>
            discordant_mate_consistent E max_mate_gap f dm && decide (dm.filter = none)) ∧
      ((scan_discordant_mates E max_mate_gap l f).2 = true →
        (scan_discordant_mates E max_mate_gap l f).1.discordant_mates = 1000 ∧
          ∃ x, pre.getLast? = some x ∧
            discordant_mate_consistent E max_mate_gap f x = true ∧ x.filter = none) ∧
      ((scan_discordant_mates E max_mate_gap l f).2 = false →
        post = [] ∧ (scan_discordant_mates E max_mate_gap l f).1.discordant_mates < 1000) := by
  induction l generalizing f with
  | nil =>
    refine ⟨[], [], rfl, ?_, ?_, ?_, ?_⟩
    · simp [scan_discordant_mates]
    · simp [scan_discordant_mates]
    · simp [scan_discordant_mates]
    · intro _
      exact ⟨rfl, hf⟩
  | cons dm rest ih =>
    unfold scan_discordant_mates
    dsimp only
    by_cases hc : discordant_mate_consistent E max_mate_gap f dm = true
    · rw [if_pos hc]
      have hcount := attach_discordant_mate_count f dm (reorder_mates E dm).1 (reorder_mates E dm).2
      have hlist := attach_discordant_mate_list f dm (reorder_mates E dm).1 (reorder_mates E dm).2
      by_cases hcap : (attach_discordant_mate f dm (reorder_mates E dm).1
          (reorder_mates E dm).2).discordant_mates ≥ 1000
      · rw [if_pos hcap]
        have hfl : dm.filter = none := by
          by_contra hne
          rw [hcount, if_neg hne] at hcap
          omega
        rw [if_pos hfl] at hcount
        refine ⟨[dm], rest, rfl, ?_, ?_, ?_, ?_⟩
        · simp [hlist, hc]
        · simp [hcount, hc, hfl]
        · intro _
          refine ⟨?_, dm, rfl, hc, hfl⟩
          show (attach_discordant_mate f dm (reorder_mates E dm).1
            (reorder_mates E dm).2).discordant_mates = 1000
          omega
        · intro h
          simp at h
      · rw [if_neg hcap]
        obtain ⟨pre, post, hl, h1, h2, h3, h4⟩ :=
          ih (attach_discordant_mate f dm (reorder_mates E dm).1 (reorder_mates E dm).2)
            (not_le.mp hcap)
        have hfun : (fun dm' => discordant_mate_consistent E max_mate_gap
            (attach_discordant_mate f dm (reorder_mates E dm).1 (reorder_mates E dm).2) dm') =
            fun dm' => discordant_mate_consistent E max_mate_gap f dm' := by
          funext dm'
          exact attach_discordant_mate_consistent E max_mate_gap f dm _ _ dm'
        simp only [attach_discordant_mate_consistent] at h1 h2 h3
        refine ⟨dm :: pre, post, by rw [hl]; rfl, ?_, ?_, ?_, h4⟩
        · rw [h1, hlist]
          simp [hc]
        · rw [h2, hcount]
          by_cases hfl : dm.filter = none
          · simp [hc, hfl]
            omega
          · simp [hc, hfl]
        · intro hb
          obtain ⟨h5, x, hx, h6⟩ := h3 hb
          refine ⟨h5, x, ?_, h6⟩
          cases pre with
          | nil => simp at hx
          | cons p ps => simpa using hx
    · rw [if_neg hc]
      obtain ⟨pre, post, hl, h1, h2, h3, h4⟩ := ih f hf
      have hc' : discordant_mate_consistent E max_mate_gap f dm = false := by
        simpa using hc
      refine ⟨dm :: pre, post, by rw [hl]; rfl, ?_, ?_, ?_, h4⟩
      · rw [h1]
        simp [hc']
      · rw [h2]
        simp [hc']
      · intro hb
        obtain ⟨h5, x, hx, h6⟩ := h3 hb
        refine ⟨h5, x, ?_, h6⟩
        cases pre with
        | nil => simp at hx
        | cons p ps => simpa using hx

/-! ## Fields that the aggregation leaves alone -/

theorem expand_anchor_eq (f : fusion_t) (a1 a2 : position_t) :
    expand_anchor f a1 a2 =
      { f with
        anchor_start1 := (expand_anchor f a1 a2).anchor_start1
        anchor_start2 := (expand_anchor f a1 a2).anchor_start2 } := by
  obtain ⟨x, y, h⟩ := expand_anchor_frame f a1 a2
  rw [h]

theorem split_read_fusion_frame (v : locals) (g1 g2 : gene_t) (o1 o2 : Bool) (g : mates_t)
    (f : fusion_t) :
    ∃ fl a1 a2 l1 l2 n1 n2, split_read_fusion v g1 g2 o1 o2 g f =
      { copy_properties v g1 g2 f with
        filter := fl, anchor_start1 := a1, anchor_start2 := a2,
        overlap_duplicate1 := o1, overlap_duplicate2 := o2,
        split_read1_list := l1, split_read2_list := l2, split_reads1 := n1,
        split_reads2 := n2 } := by
  unfold split_read_fusion
  dsimp only
  split_ifs <;>
  · rw [expand_anchor_eq]
    exact ⟨_, _, _, _, _, _, _, rfl⟩

theorem discordant_mate_fusion_frame (v : locals) (g1 g2 : gene_t) (o1 o2 : Bool) (g : mates_t)
    (b : Bool) (f : fusion_t) :
    ∃ fl a1 a2, discordant_mate_fusion v g1 g2 o1 o2 g b f =
      { copy_properties v g1 g2 f with
        filter := fl, anchor_start1 := a1, anchor_start2 := a2,
        overlap_duplicate1 := o1, overlap_duplicate2 := o2 } := by
  unfold discordant_mate_fusion
  dsimp only
  split_ifs <;>
  · rw [expand_anchor_eq]
    exact ⟨_, _, _, rfl⟩

/-- The aggregation does not attach discordant mates: in a map that was empty
on entry no fusion has a counted or a listed discordant mate before the second
pass. -/
theorem aggregate_no_discordant_mates (E : externals)
    (chimeric_alignments : chimeric_alignments_t) :
    ∀ kf ∈ (aggregate E chimeric_alignments []).fusions,
      kf.2.discordant_mates = 0 ∧ kf.2.discordant_mate_list = [] := by
  unfold aggregate
  apply aggregate_forall (P := fun _ f => f.discordant_mates = 0 ∧ f.discordant_mate_list = [])
  · intro g gene1 gene2 od1 od2 f hf
    obtain ⟨fl, a1, a2, l1, l2, n1, n2, h⟩ :=
      split_read_fusion_frame (canonicalize (split_read_locals E g)) gene1 gene2 od1 od2 g f
    rw [h]
    rcases hf with rfl | hf
    · exact ⟨rfl, rfl⟩
    · exact hf
  · intro g gene1 gene2 od1 od2 b f hf
    obtain ⟨fl, a1, a2, h⟩ :=
      discordant_mate_fusion_frame (canonicalize (discordant_mate_locals E g)) gene1 gene2 od1
        od2 g b f
    rw [h]
    rcases hf with rfl | hf
    · exact ⟨rfl, rfl⟩
    · exact hf
  · intro kf hkf
    simp at hkf

/-! ## What the second and third pass keep -/

theorem scan_discordant_mates_filter (E : externals) (max_mate_gap : Int) (l : List mates_t)
    (f : fusion_t) (h : f.filter = none) :
    (scan_discordant_mates E max_mate_gap l f).1.filter = none := by
  induction l generalizing f with
  | nil => exact h
  | cons dm rest ih =>
    unfold scan_discordant_mates
    dsimp only
    have h1 := attach_discordant_mate_filter f dm (reorder_mates E dm).1 (reorder_mates E dm).2 h
    split_ifs
    · exact h1
    · exact ih _ h1
    · exact ih f h

/-- The second pass never changes the filter of a fusion. -/
theorem count_discordant_mates_filter (E : externals) (max_mate_gap : Int)
    (idx : discordant_mates_by_gene_pair_t) (f : fusion_t) :
    (count_discordant_mates E max_mate_gap idx f).1.filter = f.filter := by
  unfold count_discordant_mates
  split_ifs with h
  · rfl
  · have h0 : f.filter = none := not_not.mp h
    split
    · rfl
    · rw [scan_discordant_mates_filter E max_mate_gap _ f h0, h0]

theorem finish_fusion_filter (E : externals) (max_mate_gap : Int)
    (idx : discordant_mates_by_gene_pair_t) (f : fusion_t) :
    (finish_fusion E max_mate_gap idx f).filter = f.filter := by
  unfold finish_fusion
  obtain ⟨t, ta, sa, s1, s2, p1, p2, h⟩ :=
    predict_fusion_frame E (count_discordant_mates E max_mate_gap idx f).1
  rw [h]
  exact count_discordant_mates_filter E max_mate_gap idx f

theorem finish_fusion_discordant_mates (E : externals) (max_mate_gap : Int)
    (idx : discordant_mates_by_gene_pair_t) (f : fusion_t) :
    (finish_fusion E max_mate_gap idx f).discordant_mates =
        (count_discordant_mates E max_mate_gap idx f).1.discordant_mates ∧
      (finish_fusion E max_mate_gap idx f).discordant_mate_list =
        (count_discordant_mates E max_mate_gap idx f).1.discordant_mate_list := by
  unfold finish_fusion
  obtain ⟨t, ta, sa, s1, s2, p1, p2, h⟩ :=
    predict_fusion_frame E (count_discordant_mates E max_mate_gap idx f).1
  rw [h]
  exact ⟨rfl, rfl⟩

theorem finish_fusion_split_reads (E : externals) (max_mate_gap : Int)
    (idx : discordant_mates_by_gene_pair_t) (f : fusion_t) :
    (finish_fusion E max_mate_gap idx f).split_reads1 = f.split_reads1 ∧
      (finish_fusion E max_mate_gap idx f).split_reads2 = f.split_reads2 := by
  obtain ⟨l', n, fl, a, b, t, ta, sa, s1, s2, p1, p2, h⟩ :=
    finish_fusion_frame E max_mate_gap idx f
  rw [h]
  exact ⟨rfl, rfl⟩

theorem finish_fusion_genes (E : externals) (max_mate_gap : Int)
    (idx : discordant_mates_by_gene_pair_t) (f : fusion_t) :
    (finish_fusion E max_mate_gap idx f).gene1 = f.gene1 ∧
      (finish_fusion E max_mate_gap idx f).gene2 = f.gene2 := by
  obtain ⟨l', n, fl, a, b, t, ta, sa, s1, s2, p1, p2, h⟩ :=
    finish_fusion_frame E max_mate_gap idx f
  rw [h]
  exact ⟨rfl, rfl⟩

theorem finish_fusion_sides (E : externals) (max_mate_gap : Int)
    (idx : discordant_mates_by_gene_pair_t) (f : fusion_t) :
    (finish_fusion E max_mate_gap idx f).direction1 = f.direction1 ∧
      (finish_fusion E max_mate_gap idx f).direction2 = f.direction2 ∧
      (finish_fusion E max_mate_gap idx f).breakpoint1 = f.breakpoint1 ∧
      (finish_fusion E max_mate_gap idx f).breakpoint2 = f.breakpoint2 := by
  obtain ⟨l', n, fl, a, b, t, ta, sa, s1, s2, p1, p2, h⟩ :=
    finish_fusion_frame E max_mate_gap idx f
  rw [h]
  exact ⟨rfl, rfl, rfl, rfl⟩

theorem finish_fusion_consistent (E : externals) (max_mate_gap gap : Int)
    (idx : discordant_mates_by_gene_pair_t) (f : fusion_t) (dm : mates_t) :
    discordant_mate_consistent E gap (finish_fusion E max_mate_gap idx f) dm =
      discordant_mate_consistent E gap f dm := by
  obtain ⟨l', n, fl, a, b, t, ta, sa, s1, s2, p1, p2, h⟩ :=
    finish_fusion_frame E max_mate_gap idx f
  rw [h]
  rfl

/-! ## C6: the tolerance of the second pass -/

/-- With a counted split read, a mate is consistent with a side of the fusion
if it has the strand of the direction and does not reach more than two bases
beyond the breakpoint. -/
theorem side_consistent_of_split_reads (direction : direction_t) (breakpoint : position_t)
    (split_reads : Nat) (max_mate_gap : Int) (mate : alignment_t) (h : 0 < split_reads) :
    side_consistent direction breakpoint split_reads max_mate_gap mate = true ↔
      ((direction = DOWNSTREAM ∧ mate.strand = FORWARD ∧ mate.end_ ≤ breakpoint + 2) ∨
        (direction = UPSTREAM ∧ mate.strand = REVERSE ∧ breakpoint - 2 ≤ mate.start)) := by
  unfold side_consistent
  rw [decide_eq_true_iff]
  have hne : split_reads ≠ 0 := Nat.pos_iff_ne_zero.mp h
  constructor
  · rintro (⟨hd, hs, ⟨h1, -⟩ | ⟨-, h2⟩⟩ | ⟨hd, hs, ⟨h1, -⟩ | ⟨-, h2⟩⟩)
    · exact Or.inl ⟨hd, hs, by linarith⟩
    · exact absurd h2 hne
    · exact Or.inr ⟨hd, hs, by linarith⟩
    · exact absurd h2 hne
  · rintro (⟨hd, hs, h1⟩ | ⟨hd, hs, h1⟩)
    · exact Or.inl ⟨hd, hs, Or.inl ⟨by linarith, h⟩⟩
    · exact Or.inr ⟨hd, hs, Or.inl ⟨by linarith, h⟩⟩

/-- The discordant mates attached to a fusion that leaves `find_fusions`
without filter and with fewer than 1000 counted discordant mates are the
consistent ones among the discordant mates of its gene pair. -/
theorem find_fusions_discordant_mate_list (E : externals)
    (chimeric_alignments : chimeric_alignments_t) (max_mate_gap : Int) :
    ∀ kf ∈ (find_fusions E chimeric_alignments [] max_mate_gap).fusions,
      kf.2.filter = none → kf.2.discordant_mates < 1000 →
      ∀ l, gene_pair_find (aggregate E chimeric_alignments []).discordant_mates_by_gene_pair
          (kf.2.gene1, kf.2.gene2) = some l →
        kf.2.discordant_mate_list =
          l.filter (fun dm => discordant_mate_consistent E max_mate_gap kf.2 dm) := by
  intro kf hkf
  rw [find_fusions_fusions, List.mem_map] at hkf
  obtain ⟨kf0, hmem, rfl⟩ := hkf
  dsimp only
  intro hfl hlt l hl
  rw [finish_fusion_filter] at hfl
  rw [(finish_fusion_genes _ _ _ _).1, (finish_fusion_genes _ _ _ _).2] at hl
  rw [(finish_fusion_discordant_mates _ _ _ _).1] at hlt
  rw [(finish_fusion_discordant_mates _ _ _ _).2]
  simp only [finish_fusion_consistent]
  obtain ⟨hd0, hl0⟩ := aggregate_no_discordant_mates E chimeric_alignments kf0 hmem
  have hscan : count_discordant_mates E max_mate_gap
      (aggregate E chimeric_alignments []).discordant_mates_by_gene_pair kf0.2 =
      scan_discordant_mates E max_mate_gap l kf0.2 := by
    unfold count_discordant_mates
    rw [if_neg (by simp [hfl]), hl]
  rw [hscan] at hlt ⊢
  obtain ⟨pre, post, hpp, h1, h2, h3, h4⟩ :=
    scan_discordant_mates_spec E max_mate_gap l kf0.2 (by omega)
  cases hb : (scan_discordant_mates E max_mate_gap l kf0.2).2 with
  | true =>
    have := (h3 hb).1
    omega
  | false =>
    have hpost := (h4 hb).1
    subst hpost
    rw [h1, hl0, hpp]
    simp

/-- C6 (as amended): in a fusion that leaves `find_fusions` without filter, with
a counted split read and with fewer than 1000 counted discordant mates (so that
the scan was not cut short), a discordant-mate group of its gene pair is
attached exactly if on both sides the mate has the strand of the direction and
its inward coordinate lies at most 2 bases beyond the breakpoint:
`end ≤ breakpoint + 2` for DOWNSTREAM, `start ≥ breakpoint - 2` for UPSTREAM.
A mate that stops short of the breakpoint is attached whatever the distance. -/
theorem C6_reconciliation_tolerance (E : externals)
    (chimeric_alignments : chimeric_alignments_t) (max_mate_gap : Int) :
    ∀ kf ∈ (find_fusions E chimeric_alignments [] max_mate_gap).fusions,
      kf.2.filter = none → 0 < kf.2.split_reads1 + kf.2.split_reads2 →
      kf.2.discordant_mates < 1000 →
      ∀ l, gene_pair_find (aggregate E chimeric_alignments []).discordant_mates_by_gene_pair
          (kf.2.gene1, kf.2.gene2) = some l →
        ∀ dm ∈ l,
          (dm ∈ kf.2.discordant_mate_list ↔
            ((kf.2.direction1 = DOWNSTREAM ∧ (reorder_mates E dm).1.strand = FORWARD ∧
                  (reorder_mates E dm).1.end_ ≤ kf.2.breakpoint1 + 2) ∨
                (kf.2.direction1 = UPSTREAM ∧ (reorder_mates E dm).1.strand = REVERSE ∧
                  kf.2.breakpoint1 - 2 ≤ (reorder_mates E dm).1.start)) ∧
              ((kf.2.direction2 = DOWNSTREAM ∧ (reorder_mates E dm).2.strand = FORWARD ∧
                  (reorder_mates E dm).2.end_ ≤ kf.2.breakpoint2 + 2) ∨
                (kf.2.direction2 = UPSTREAM ∧ (reorder_mates E dm).2.strand = REVERSE ∧
                  kf.2.breakpoint2 - 2 ≤ (reorder_mates E dm).2.start))) := by
  intro kf hkf hfl hsr hlt l hl dm hdm
  rw [find_fusions_discordant_mate_list E chimeric_alignments max_mate_gap kf hkf hfl hlt l hl]
  rw [List.mem_filter]
  unfold discordant_mate_consistent
  rw [Bool.and_eq_true, side_consistent_of_split_reads _ _ _ _ _ hsr,
    side_consistent_of_split_reads _ _ _ _ _ hsr]
  exact ⟨fun h => h.2, fun h => ⟨hdm, h⟩⟩

/-- C6 as stated fails: the fusion of the split read `sample_sr` has no filter
and a counted split read, the first mate of `sample_dm_short` has the strand of
direction 1 and ends 3 bases away from breakpoint 1, and the group is attached
nevertheless, because the mate ends before the breakpoint. -/
theorem C6_counterexample :
    ∃ kf ∈ (find_fusions E0 [sample_sr, sample_dm_short] [] 1000).fusions,
      kf.2.filter = none ∧ 0 < kf.2.split_reads1 + kf.2.split_reads2 ∧
        gene_pair_find
            (aggregate E0 [sample_sr, sample_dm_short] []).discordant_mates_by_gene_pair
            (kf.2.gene1, kf.2.gene2) = some [sample_dm_short] ∧
        sample_dm_short ∈ kf.2.discordant_mate_list ∧
        kf.2.direction1 = DOWNSTREAM ∧
        (reorder_mates E0 sample_dm_short).1.strand = FORWARD ∧
        ((reorder_mates E0 sample_dm_short).1.end_ - kf.2.breakpoint1).natAbs = 3 := by
  decide

/-- The statement of C6 at the fusion of `sample_sr` and the group
`sample_dm_short`. -/
theorem C6_reconciliation_tolerance_witness :
    first_fusion (find_fusions E0 [sample_sr, sample_dm_short] [] 1000) ∈
        (find_fusions E0 [sample_sr, sample_dm_short] [] 1000).fusions ∧
      (sample_dm_short ∈
          (first_fusion
            (find_fusions E0 [sample_sr, sample_dm_short] [] 1000)).2.discordant_mate_list ↔
        (((first_fusion (find_fusions E0 [sample_sr, sample_dm_short] [] 1000)).2.direction1 =
                DOWNSTREAM ∧
              (reorder_mates E0 sample_dm_short).1.strand = FORWARD ∧
              (reorder_mates E0 sample_dm_short).1.end_ ≤
                (first_fusion
                  (find_fusions E0 [sample_sr, sample_dm_short] [] 1000)).2.breakpoint1 + 2) ∨
            ((first_fusion (find_fusions E0 [sample_sr, sample_dm_short] [] 1000)).2.direction1 =
                UPSTREAM ∧
              (reorder_mates E0 sample_dm_short).1.strand = REVERSE ∧
              (first_fusion
                  (find_fusions E0 [sample_sr, sample_dm_short] [] 1000)).2.breakpoint1 - 2 ≤
                (reorder_mates E0 sample_dm_short).1.start)) ∧
          (((first_fusion (find_fusions E0 [sample_sr, sample_dm_short] [] 1000)).2.direction2 =
                DOWNSTREAM ∧
              (reorder_mates E0 sample_dm_short).2.strand = FORWARD ∧
              (reorder_mates E0 sample_dm_short).2.end_ ≤
                (first_fusion
                  (find_fusions E0 [sample_sr, sample_dm_short] [] 1000)).2.breakpoint2 + 2) ∨
            ((first_fusion (find_fusions E0 [sample_sr, sample_dm_short] [] 1000)).2.direction2 =
                UPSTREAM ∧
              (reorder_mates E0 sample_dm_short).2.strand = REVERSE ∧
              (first_fusion
                  (find_fusions E0 [sample_sr, sample_dm_short] [] 1000)).2.breakpoint2 - 2 ≤
                (reorder_mates E0 sample_dm_short).2.start))) :=
  ⟨by decide,
    C6_reconciliation_tolerance E0 [sample_sr, sample_dm_short] 1000 _ (by decide)
      (by decide) (by decide) (by decide) [sample_dm_short] (by decide) sample_dm_short
      (by decide)⟩

/-! ## C7: the cap on the discordant mates of a fusion -/

theorem reconcile_snd (E : externals) (max_mate_gap : Int)
    (idx : discordant_mates_by_gene_pair_t) (fusions : fusions_t) :
    (reconcile E max_mate_gap idx fusions).2 =
      fusions.countP (fun kf => (count_discordant_mates E max_mate_gap idx kf.2).2) := by
  induction fusions with
  | nil => rfl
  | cons hd tl ih =>
    obtain ⟨k, f⟩ := hd
    simp only [reconcile, List.countP_cons, ih]
    split_ifs <;> omega

theorem subsampling_warning_ne_nil (n : Nat) : subsampling_warning n ≠ [] ↔ 0 < n := by
  unfold subsampling_warning
  split_ifs with h <;> simp [h]

theorem find_fusions_cerr (E : externals) (chimeric_alignments : chimeric_alignments_t)
    (fusions : fusions_t) (max_mate_gap : Int) :
    (find_fusions E chimeric_alignments fusions max_mate_gap).cerr =
      subsampling_warning
        (reconcile E max_mate_gap
          (aggregate E chimeric_alignments fusions).discordant_mates_by_gene_pair
          (aggregate E chimeric_alignments fusions).fusions).2 := rfl

theorem count_discordant_mates_le (E : externals) (max_mate_gap : Int)
    (idx : discordant_mates_by_gene_pair_t) (f : fusion_t) (h : f.discordant_mates = 0) :
    (count_discordant_mates E max_mate_gap idx f).1.discordant_mates ≤ 1000 := by
  unfold count_discordant_mates
  split_ifs
  · simp [h]
  · split
    · simp [h]
    · rename_i l _
      obtain ⟨pre, post, -, -, -, h3, h4⟩ :=
        scan_discordant_mates_spec E max_mate_gap l f (by omega)
      cases hb : (scan_discordant_mates E max_mate_gap l f).2 with
      | true => exact le_of_eq (h3 hb).1
      | false => exact le_of_lt (h4 hb).2

/-- The scan of at least 1000 unfiltered consistent candidates by a fusion
without counted discordant mates is left by `break` at the 1000th of them. -/
theorem scan_discordant_mates_cap (E : externals) (max_mate_gap : Int) (l : List mates_t)
    (f : fusion_t) (h0 : f.discordant_mates = 0)
    (hl : 1000 ≤ l.countP (fun dm =>
      discordant_mate_consistent E max_mate_gap f dm && decide (dm.filter = none))) :
    (scan_discordant_mates E max_mate_gap l f).2 = true ∧
      (scan_discordant_mates E max_mate_gap l f).1.discordant_mates = 1000 ∧
      ∃ pre post x, l = pre ++ post ∧ pre.getLast? = some x ∧
        discordant_mate_consistent E max_mate_gap f x = true ∧ x.filter = none ∧
        pre.countP (fun dm =>
          discordant_mate_consistent E max_mate_gap f dm && decide (dm.filter = none)) = 1000 ∧
        (scan_discordant_mates E max_mate_gap l f).1.discordant_mate_list =
          f.discordant_mate_list ++
            pre.filter (fun dm => discordant_mate_consistent E max_mate_gap f dm) := by
  obtain ⟨pre, post, hpp, h1, h2, h3, h4⟩ :=
    scan_discordant_mates_spec E max_mate_gap l f (by omega)
  cases hb : (scan_discordant_mates E max_mate_gap l f).2 with
  | false =>
    obtain ⟨hpost, hlt⟩ := h4 hb
    subst hpost
    rw [List.append_nil] at hpp
    subst hpp
    omega
  | true =>
    obtain ⟨h5, x, hx, hc, hfl⟩ := h3 hb
    refine ⟨rfl, h5, pre, post, x, hpp, hx, hc, hfl, ?_, h1⟩
    omega

/-- C7 (as amended): after `find_fusions` every fusion has at most 1000 counted
discordant mates. A fusion that is without filter after the aggregation and
whose gene pair has at least 1000 unfiltered discordant-mate groups consistent
with it ends with exactly 1000 counted discordant mates: the scan runs over a
prefix `pre` of the candidates that ends with the 1000th such group, attaches
the consistent groups of `pre` and nothing after it, and the fusion is one of
those counted in `subsampled_fusions`. That counter is the number of fusions
whose scan was left at the cap, and the warning is written exactly if it is
positive. A fusion that carries a filter is skipped by the second pass, which
returns it as it is and does not count it as subsampled; after `find_fusions`
every fusion with a filter has `discordant_mates = 0` and an empty
`discordant_mate_list`. -/
theorem C7_subsampling_cap (E : externals) (chimeric_alignments : chimeric_alignments_t)
    (max_mate_gap : Int) :
    (∀ kf ∈ (find_fusions E chimeric_alignments [] max_mate_gap).fusions,
        kf.2.discordant_mates ≤ 1000) ∧
      (∀ kf0 ∈ (aggregate E chimeric_alignments []).fusions, kf0.2.filter = none →
        ∀ l, gene_pair_find (aggregate E chimeric_alignments []).discordant_mates_by_gene_pair
            (kf0.2.gene1, kf0.2.gene2) = some l →
          1000 ≤ l.countP (fun dm =>
            discordant_mate_consistent E max_mate_gap kf0.2 dm && decide (dm.filter = none)) →
          (kf0.1, finish_fusion E max_mate_gap
              (aggregate E chimeric_alignments []).discordant_mates_by_gene_pair kf0.2) ∈
              (find_fusions E chimeric_alignments [] max_mate_gap).fusions ∧
            (finish_fusion E max_mate_gap
              (aggregate E chimeric_alignments []).discordant_mates_by_gene_pair
              kf0.2).discordant_mates = 1000 ∧
            (∃ pre post x, l = pre ++ post ∧ pre.getLast? = some x ∧
              discordant_mate_consistent E max_mate_gap kf0.2 x = true ∧ x.filter = none ∧
              pre.countP (fun dm =>
                discordant_mate_consistent E max_mate_gap kf0.2 dm &&
                  decide (dm.filter = none)) = 1000 ∧
              (finish_fusion E max_mate_gap
                (aggregate E chimeric_alignments []).discordant_mates_by_gene_pair
                kf0.2).discordant_mate_list =
                pre.filter (fun dm => discordant_mate_consistent E max_mate_gap kf0.2 dm)) ∧
            (count_discordant_mates E max_mate_gap
              (aggregate E chimeric_alignments []).discordant_mates_by_gene_pair kf0.2).2 = true ∧
            (find_fusions E chimeric_alignments [] max_mate_gap).cerr ≠ []) ∧
      (reconcile E max_mate_gap (aggregate E chimeric_alignments []).discordant_mates_by_gene_pair
          (aggregate E chimeric_alignments []).fusions).2 =
        (aggregate E chimeric_alignments []).fusions.countP (fun kf0 =>
          (count_discordant_mates E max_mate_gap
            (aggregate E chimeric_alignments []).discordant_mates_by_gene_pair kf0.2).2) ∧
      ((find_fusions E chimeric_alignments [] max_mate_gap).cerr ≠ [] ↔
        0 < (reconcile E max_mate_gap
          (aggregate E chimeric_alignments []).discordant_mates_by_gene_pair
          (aggregate E chimeric_alignments []).fusions).2) ∧
      (∀ (idx : discordant_mates_by_gene_pair_t) (f : fusion_t), f.filter ≠ none →
        count_discordant_mates E max_mate_gap idx f = (f, false)) ∧
      (∀ kf ∈ (find_fusions E chimeric_alignments [] max_mate_gap).fusions,
        kf.2.filter ≠ none → kf.2.discordant_mates = 0 ∧ kf.2.discordant_mate_list = []) := by
  have hskip : ∀ (idx : discordant_mates_by_gene_pair_t) (f : fusion_t), f.filter ≠ none →
      count_discordant_mates E max_mate_gap idx f = (f, false) := by
    intro idx f hf
    unfold count_discordant_mates
    rw [if_pos hf]
  refine ⟨?_, ?_, reconcile_snd _ _ _ _, ?_, hskip, ?_⟩
  rotate_left 3
  · intro kf hkf hfl
    rw [find_fusions_fusions, List.mem_map] at hkf
    obtain ⟨kf0, hmem, rfl⟩ := hkf
    dsimp only at hfl ⊢
    rw [finish_fusion_filter] at hfl
    rw [(finish_fusion_discordant_mates _ _ _ _).1, (finish_fusion_discordant_mates _ _ _ _).2,
      hskip _ _ hfl]
    exact aggregate_no_discordant_mates E chimeric_alignments kf0 hmem
  · intro kf hkf
    rw [find_fusions_fusions, List.mem_map] at hkf
    obtain ⟨kf0, hmem, rfl⟩ := hkf
    dsimp only
    rw [(finish_fusion_discordant_mates _ _ _ _).1]
    exact count_discordant_mates_le _ _ _ _
      (aggregate_no_discordant_mates E chimeric_alignments kf0 hmem).1
  · intro kf0 hmem hfl l hl hcount
    obtain ⟨hd0, hl0⟩ := aggregate_no_discordant_mates E chimeric_alignments kf0 hmem
    have hscan : count_discordant_mates E max_mate_gap
        (aggregate E chimeric_alignments []).discordant_mates_by_gene_pair kf0.2 =
        scan_discordant_mates E max_mate_gap l kf0.2 := by
      unfold count_discordant_mates
      rw [if_neg (by simp [hfl]), hl]
    obtain ⟨hb, hdm, pre, post, x, hpp, hx, hc, hxf, hpre, hlist⟩ :=
      scan_discordant_mates_cap E max_mate_gap l kf0.2 hd0 hcount
    have hflag : (count_discordant_mates E max_mate_gap
        (aggregate E chimeric_alignments []).discordant_mates_by_gene_pair kf0.2).2 = true := by
      rw [hscan]
      exact hb
    refine ⟨?_, ?_, ⟨pre, post, x, hpp, hx, hc, hxf, hpre, ?_⟩, hflag, ?_⟩
    · rw [find_fusions_fusions, List.mem_map]
      exact ⟨kf0, hmem, rfl⟩
    · rw [(finish_fusion_discordant_mates _ _ _ _).1, hscan]
      exact hdm
    · rw [(finish_fusion_discordant_mates _ _ _ _).2, hscan, hlist, hl0]
      rfl
    · rw [find_fusions_cerr, subsampling_warning_ne_nil, reconcile_snd]
      exact List.countP_pos_iff.mpr ⟨kf0, hmem, hflag⟩
  · rw [find_fusions_cerr, subsampling_warning_ne_nil]

/-! ## Many copies of a discordant-mate group -/

/-- Aggregating further copies of a group that leaves the fusion map as it is
only lengthens the list of its gene pair. -/
theorem aggregate_replicate (E : externals) (dm : mates_t) (fusions : fusions_t)
    (genes : gene_t × gene_t)
    (h : ∀ l, aggregate_group E ⟨fusions, [(genes, l)]⟩ dm = ⟨fusions, [(genes, l ++ [dm])]⟩)
    (n : Nat) (l0 : List mates_t) :
    (List.replicate n dm).foldl (aggregate_group E) ⟨fusions, [(genes, l0)]⟩ =
      ⟨fusions, [(genes, l0 ++ List.replicate n dm)]⟩ := by
  induction n generalizing l0 with
  | zero => simp
  | succ n ih =>
    rw [List.replicate_succ, List.foldl_cons, h l0, ih (l0 ++ [dm])]
    simp

theorem aggregate_sample_dm_wide (n : Nat) :
    aggregate E0 (sample_sr_filtered :: List.replicate (n + 1) sample_dm_wide) [] =
      ⟨(aggregate E0 [sample_sr_filtered, sample_dm_wide] []).fusions,
        [((gene_a, gene_b), List.replicate (n + 1) sample_dm_wide)]⟩ := by
  have h1 : aggregate E0 [sample_sr_filtered, sample_dm_wide] [] =
      ⟨(aggregate E0 [sample_sr_filtered, sample_dm_wide] []).fusions,
        [((gene_a, gene_b), [sample_dm_wide])]⟩ := by decide
  unfold aggregate at h1 ⊢
  rw [List.replicate_succ]
  rw [show sample_sr_filtered :: sample_dm_wide :: List.replicate n sample_dm_wide =
    [sample_sr_filtered, sample_dm_wide] ++ List.replicate n sample_dm_wide from rfl]
  rw [List.foldl_append, h1]
  rw [aggregate_replicate E0 sample_dm_wide _ (gene_a, gene_b) (fun l => by rfl) n]
  simp [List.replicate_succ]
theorem aggregate_sample_cap_input :
    aggregate E0 sample_cap_input [] =
      ⟨(aggregate E0 [sample_sr_filtered, sample_dm_wide] []).fusions,
        [((gene_a, gene_b), List.replicate 1000 sample_dm_wide)]⟩ :=
  aggregate_sample_dm_wide 999

theorem sample_cap_entry_mem (i : Nat) (h : i < 2) :
    sample_cap_entry i ∈ (aggregate E0 sample_cap_input []).fusions := by
  rw [aggregate_sample_cap_input]
  interval_cases i <;> decide

theorem sample_cap_entry_candidates (i : Nat) (h : i < 2) :
    gene_pair_find (aggregate E0 sample_cap_input []).discordant_mates_by_gene_pair
        ((sample_cap_entry i).2.gene1, (sample_cap_entry i).2.gene2) =
      some (List.replicate 1000 sample_dm_wide) := by
  rw [aggregate_sample_cap_input]
  have hg : ((sample_cap_entry i).2.gene1, (sample_cap_entry i).2.gene2) = (gene_a, gene_b) := by
    interval_cases i <;> decide
  rw [hg]
  unfold gene_pair_find
  rw [if_pos rfl]

theorem sample_cap_entry_count (i : Nat) (h : i < 2) :
    1000 ≤ (List.replicate 1000 sample_dm_wide).countP (fun dm =>
      discordant_mate_consistent E0 0 (sample_cap_entry i).2 dm && decide (dm.filter = none)) := by
  rw [List.countP_replicate]
  have hc : (discordant_mate_consistent E0 0 (sample_cap_entry i).2 sample_dm_wide &&
      decide (sample_dm_wide.filter = none)) = true := by
    interval_cases i <;> decide
  rw [if_pos hc]

/-- C7 as stated fails: the fusion of the filtered split read of
`sample_cap_input` has 1000 unfiltered consistent discordant-mate groups in the
list of its gene pair and ends without a counted discordant mate, because the
second pass skips a fusion with a filter. -/
theorem C7_counterexample :
    ∃ kf ∈ (find_fusions E0 sample_cap_input [] 0).fusions,
      ∃ l, gene_pair_find (aggregate E0 sample_cap_input []).discordant_mates_by_gene_pair
            (kf.2.gene1, kf.2.gene2) = some l ∧
        1000 ≤ l.countP (fun dm =>
          discordant_mate_consistent E0 0 kf.2 dm && decide (dm.filter = none)) ∧
        kf.2.discordant_mates = 0 := by
  refine ⟨((sample_cap_entry 0).1, finish_fusion E0 0
    (aggregate E0 sample_cap_input []).discordant_mates_by_gene_pair (sample_cap_entry 0).2),
    ?_, List.replicate 1000 sample_dm_wide, ?_, ?_, ?_⟩
  · rw [find_fusions_fusions, List.mem_map]
    exact ⟨sample_cap_entry 0, sample_cap_entry_mem 0 (by decide), rfl⟩
  · dsimp only
    rw [(finish_fusion_genes _ _ _ _).1, (finish_fusion_genes _ _ _ _).2]
    exact sample_cap_entry_candidates 0 (by decide)
  · dsimp only
    simp only [finish_fusion_consistent]
    exact sample_cap_entry_count 0 (by decide)
  · dsimp only
    rw [(finish_fusion_discordant_mates _ _ _ _).1]
    unfold count_discordant_mates
    rw [if_pos (by decide)]
    decide

/-- The statement of C7 at the fusion of the discordant mates of
`sample_cap_input`, which has no filter and 1000 consistent candidates, and at
the fusion of the filtered split read, which the second pass skips. -/
theorem C7_subsampling_cap_witness :
    sample_cap_entry 1 ∈ (aggregate E0 sample_cap_input []).fusions ∧
      (sample_cap_entry 1).2.filter = none ∧
      gene_pair_find (aggregate E0 sample_cap_input []).discordant_mates_by_gene_pair
          ((sample_cap_entry 1).2.gene1, (sample_cap_entry 1).2.gene2) =
        some (List.replicate 1000 sample_dm_wide) ∧
      1000 ≤ (List.replicate 1000 sample_dm_wide).countP (fun dm =>
        discordant_mate_consistent E0 0 (sample_cap_entry 1).2 dm &&
          decide (dm.filter = none)) ∧
      (finish_fusion E0 0 (aggregate E0 sample_cap_input []).discordant_mates_by_gene_pair
        (sample_cap_entry 1).2).discordant_mates = 1000 ∧
      (find_fusions E0 sample_cap_input [] 0).cerr ≠ [] ∧
      (sample_cap_entry 0).2.filter ≠ none ∧
      count_discordant_mates E0 0 (aggregate E0 sample_cap_input []).discordant_mates_by_gene_pair
          (sample_cap_entry 0).2 =
        ((sample_cap_entry 0).2, false) :=
  have h := (C7_subsampling_cap E0 sample_cap_input 0).2.1 (sample_cap_entry 1)
    (sample_cap_entry_mem 1 (by decide)) (by decide) (List.replicate 1000 sample_dm_wide)
    (sample_cap_entry_candidates 1 (by decide)) (sample_cap_entry_count 1 (by decide))
  ⟨sample_cap_entry_mem 1 (by decide), by decide, sample_cap_entry_candidates 1 (by decide),
    sample_cap_entry_count 1 (by decide), h.2.1, h.2.2.2.2, by decide,
    (C7_subsampling_cap E0 sample_cap_input 0).2.2.2.2.1 _ _ (by decide)⟩

/-! ## C8: one fusion per combination of overlapping genes -/

theorem make_key_inj (v : locals) (a b a' b' : gene_t) (h : make_key v a b = make_key v a' b') :
    a = a' ∧ b = b' := by
  simp only [make_key, fusion_key_t.mk.injEq] at h
  exact ⟨h.1, h.2.1⟩

theorem fusions_at_fresh (fusions : fusions_t) (key : fusion_key_t)
    (update : fusion_t → fusion_t) (h : key ∉ fusions.map Prod.fst) :
    fusions_at fusions key update = fusions ++ [(key, update fusion_t.init)] := by
  induction fusions with
  | nil => rfl
  | cons hd tl ih =>
    obtain ⟨k, f⟩ := hd
    simp only [List.map_cons, List.mem_cons, not_or] at h
    unfold fusions_at
    rw [if_neg (fun hk => h.1 hk.symm), ih h.2]
    rfl

theorem fusions_find_fresh (fusions : fusions_t) (key : fusion_key_t)
    (h : key ∉ fusions.map Prod.fst) : fusions_find fusions key = none := by
  induction fusions with
  | nil => rfl
  | cons hd tl ih =>
    obtain ⟨k, f⟩ := hd
    simp only [List.map_cons, List.mem_cons, not_or] at h
    unfold fusions_find
    rw [if_neg (fun hk => h.1 hk.symm), ih h.2]

theorem split_read_fusion_flags (v : locals) (g1 g2 : gene_t) (o1 o2 : Bool) (g : mates_t)
    (f : fusion_t) :
    (split_read_fusion v g1 g2 o1 o2 g f).overlap_duplicate1 = o1 ∧
      (split_read_fusion v g1 g2 o1 o2 g f).overlap_duplicate2 = o2 ∧
      (split_read_fusion v g1 g2 o1 o2 g f).gene1 = g1 := by
  obtain ⟨fl, a1, a2, l1, l2, n1, n2, h⟩ := split_read_fusion_frame v g1 g2 o1 o2 g f
  rw [h]
  exact ⟨rfl, rfl, rfl⟩

theorem discordant_mate_fusion_flags (v : locals) (g1 g2 : gene_t) (o1 o2 : Bool)
    (g : mates_t) (b : Bool) (f : fusion_t) :
    (discordant_mate_fusion v g1 g2 o1 o2 g b f).overlap_duplicate1 = o1 ∧
      (discordant_mate_fusion v g1 g2 o1 o2 g b f).overlap_duplicate2 = o2 ∧
      (discordant_mate_fusion v g1 g2 o1 o2 g b f).gene1 = g1 := by
  obtain ⟨fl, a1, a2, h⟩ := discordant_mate_fusion_frame v g1 g2 o1 o2 g b f
  rw [h]
  exact ⟨rfl, rfl, rfl⟩

/-- The loop over `genes2` of the split-read branch, run on distinct genes whose
keys are not in the map yet, appends one fusion per gene; all of them carry
the flag `overlap_duplicate1` of the loop and only the first one can have
`overlap_duplicate2` false. -/
theorem split_read_gene2_loop_fresh (v : locals) (g : mates_t) (a : gene_t) (o1 : Bool)
    (genes2 : List gene_t) (o2 : Bool) (fusions : fusions_t) (hn : genes2.Nodup)
    (hf : ∀ b ∈ genes2, make_key v a b ∉ fusions.map Prod.fst) :
    ∃ new, split_read_gene2_loop v g a o1 genes2 o2 fusions = fusions ++ new ∧
      new.map Prod.fst = genes2.map (make_key v a) ∧
      (∀ kf ∈ new, kf.2.overlap_duplicate1 = o1 ∧ kf.2.gene1 = a) ∧
      new.countP (fun kf => kf.2.overlap_duplicate2 == false) =
        (if o2 = false ∧ genes2 ≠ [] then 1 else 0) := by
  induction genes2 generalizing o2 fusions with
  | nil => exact ⟨[], by simp [split_read_gene2_loop], rfl, by simp, by simp⟩
  | cons b rest ih =>
    unfold split_read_gene2_loop
    rw [fusions_at_fresh _ _ _ (hf b (List.mem_cons_self _ _))]
    obtain ⟨hb, hrest⟩ := List.nodup_cons.mp hn
    obtain ⟨new, h1, h2, h3, h4⟩ := ih true
      (fusions ++ [(make_key v a b, split_read_fusion v a b o1 o2 g fusion_t.init)]) hrest
      (by
        intro b' hb'
        simp only [List.map_append, List.map_cons, List.map_nil, List.mem_append,
          List.mem_singleton, not_or]
        refine ⟨hf b' (List.mem_cons_of_mem _ hb'), fun h => ?_⟩
        have := (make_key_inj v a b' a b h).2
        exact hb (this ▸ hb'))
    have hfl := split_read_fusion_flags v a b o1 o2 g fusion_t.init
    refine ⟨(make_key v a b, split_read_fusion v a b o1 o2 g fusion_t.init) :: new, ?_, ?_, ?_,
      ?_⟩
    · rw [h1]
      simp
    · simp [h2]
    · intro kf hkf
      rcases List.mem_cons.mp hkf with rfl | hkf
      · exact ⟨hfl.1, hfl.2.2⟩
      · exact h3 kf hkf
    · rw [List.countP_cons, h4]
      simp only [hfl.2.1]
      cases o2 <;> simp

/-- The loop over `genes1` of the split-read branch, run on distinct genes whose
keys are not in the map yet. -/
theorem split_read_gene1_loop_fresh (v : locals) (g : mates_t) (genes1 : List gene_t)
    (o1 : Bool) (fusions : fusions_t) (hn1 : genes1.Nodup) (hn2 : v.genes2.Nodup)
    (hf : ∀ a ∈ genes1, ∀ b ∈ v.genes2, make_key v a b ∉ fusions.map Prod.fst) :
    ∃ new, split_read_gene1_loop v g genes1 o1 fusions = fusions ++ new ∧
      new.map Prod.fst = genes1.flatMap (fun a => v.genes2.map (make_key v a)) ∧
      (∀ kf ∈ new, kf.2.gene1 ∈ genes1) ∧
      (∀ kf ∈ new, (kf.2.overlap_duplicate1 = false ↔
        o1 = false ∧ genes1.head? = some kf.2.gene1)) ∧
      new.countP (fun kf => kf.2.overlap_duplicate1 == false) =
        (if o1 = false ∧ genes1 ≠ [] then v.genes2.length else 0) ∧
      new.countP (fun kf => kf.2.overlap_duplicate2 == false) =
        (if v.genes2 = [] then 0 else genes1.length) := by
  induction genes1 generalizing o1 fusions with
  | nil => exact ⟨[], by simp [split_read_gene1_loop], rfl, by simp, by simp, by simp, by simp⟩
  | cons a rest ih =>
    unfold split_read_gene1_loop
    obtain ⟨ha, hrest⟩ := List.nodup_cons.mp hn1
    obtain ⟨row, r1, r2, r3, r4⟩ := split_read_gene2_loop_fresh v g a o1 v.genes2 false fusions
      hn2 (hf a (List.mem_cons_self _ _))
    rw [r1]
    obtain ⟨new, h1, h2, h3, h4, h5, h6⟩ := ih true (fusions ++ row) hrest
      (by
        intro a' ha' b' hb'
        rw [List.map_append, List.mem_append, r2]
        rintro (h | h)
        · exact hf a' (List.mem_cons_of_mem _ ha') b' hb' h
        · obtain ⟨b'', -, h⟩ := List.mem_map.mp h
          have := (make_key_inj v a b'' a' b' h).1
          exact ha (this ▸ ha'))
    refine ⟨row ++ new, ?_, ?_, ?_, ?_, ?_, ?_⟩
    · rw [h1, List.append_assoc]
    · simp [r2, h2]
    · intro kf hkf
      rcases List.mem_append.mp hkf with hkf | hkf
      · rw [(r3 kf hkf).2]
        exact List.mem_cons_self _ _
      · exact List.mem_cons_of_mem _ (h3 kf hkf)
    · intro kf hkf
      rcases List.mem_append.mp hkf with hkf | hkf
      · rw [(r3 kf hkf).1, (r3 kf hkf).2]
        simp
      · have hne : kf.2.gene1 ≠ a := fun h => ha (h ▸ h3 kf hkf)
        have := h4 kf hkf
        simp only [List.head?_cons, Option.some.injEq]
        constructor
        · intro h
          exact absurd (this.mp h).1 (by simp)
        · intro h
          exact absurd h.2.symm hne
    · rw [List.countP_append, h5]
      have : row.countP (fun kf => kf.2.overlap_duplicate1 == false) =
          if o1 = false then row.length else 0 := by
        cases o1
        · simp only [if_true]
          rw [List.countP_eq_length]
          intro kf hkf
          simp [(r3 kf hkf).1]
        · simp only [Bool.true_eq_false, if_false]
          rw [List.countP_eq_zero]
          intro kf hkf
          simp [(r3 kf hkf).1]
      rw [this]
      have hlen : row.length = v.genes2.length := by
        rw [← List.length_map row Prod.fst, r2, List.length_map]
      cases o1 <;> simp [hlen]
    · rw [List.countP_append, h6, r4]
      by_cases h : v.genes2 = []
      · simp [h]
      · simp [h]
        omega

/-- The loop over `genes2` of the discordant-mate branch, run on distinct genes whose
keys are not in the map yet, appends one fusion per gene; all of them carry
the flag `overlap_duplicate1` of the loop and only the first one can have
`overlap_duplicate2` false. -/
theorem discordant_mate_gene2_loop_fresh (v : locals) (g : mates_t) (a : gene_t) (o1 : Bool)
    (genes2 : List gene_t) (o2 : Bool) (st : aggregation_t) (hn : genes2.Nodup)
    (hf : ∀ b ∈ genes2, make_key v a b ∉ st.fusions.map Prod.fst) :
    ∃ new, (discordant_mate_gene2_loop v g a o1 genes2 o2 st).fusions = st.fusions ++ new ∧
      new.map Prod.fst = genes2.map (make_key v a) ∧
      (∀ kf ∈ new, kf.2.overlap_duplicate1 = o1 ∧ kf.2.gene1 = a) ∧
      new.countP (fun kf => kf.2.overlap_duplicate2 == false) =
        (if o2 = false ∧ genes2 ≠ [] then 1 else 0) := by
  induction genes2 generalizing o2 st with
  | nil => exact ⟨[], by simp [discordant_mate_gene2_loop], rfl, by simp, by simp⟩
  | cons b rest ih =>
    unfold discordant_mate_gene2_loop
    dsimp only
    rw [fusions_at_fresh _ _ _ (hf b (List.mem_cons_self _ _)),
      fusions_find_fresh _ _ (hf b (List.mem_cons_self _ _))]
    simp only [Option.isNone_none]
    obtain ⟨hb, hrest⟩ := List.nodup_cons.mp hn
    obtain ⟨new, h1, h2, h3, h4⟩ := ih true
      ⟨st.fusions ++
          [(make_key v a b, discordant_mate_fusion v a b o1 o2 g true fusion_t.init)],
        gene_pair_push_back st.discordant_mates_by_gene_pair (a, b) g⟩ hrest
      (by
        intro b' hb'
        simp only [List.map_append, List.map_cons, List.map_nil, List.mem_append,
          List.mem_singleton, not_or]
        refine ⟨hf b' (List.mem_cons_of_mem _ hb'), fun h => ?_⟩
        have := (make_key_inj v a b' a b h).2
        exact hb (this ▸ hb'))
    have hfl := discordant_mate_fusion_flags v a b o1 o2 g true fusion_t.init
    refine ⟨(make_key v a b, discordant_mate_fusion v a b o1 o2 g true fusion_t.init) :: new,
      ?_, ?_, ?_, ?_⟩
    · rw [h1]
      simp
    · simp [h2]
    · intro kf hkf
      rcases List.mem_cons.mp hkf with rfl | hkf
      · exact ⟨hfl.1, hfl.2.2⟩
      · exact h3 kf hkf
    · rw [List.countP_cons, h4]
      simp only [hfl.2.1]
      cases o2 <;> simp

/-- The loop over `genes1` of the discordant-mate branch, run on distinct genes whose
keys are not in the map yet. -/
theorem discordant_mate_gene1_loop_fresh (v : locals) (g : mates_t) (genes1 : List gene_t)
    (o1 : Bool) (st : aggregation_t) (hn1 : genes1.Nodup) (hn2 : v.genes2.Nodup)
    (hf : ∀ a ∈ genes1, ∀ b ∈ v.genes2, make_key v a b ∉ st.fusions.map Prod.fst) :
    ∃ new, (discordant_mate_gene1_loop v g genes1 o1 st).fusions = st.fusions ++ new ∧
      new.map Prod.fst = genes1.flatMap (fun a => v.genes2.map (make_key v a)) ∧
      (∀ kf ∈ new, kf.2.gene1 ∈ genes1) ∧
      (∀ kf ∈ new, (kf.2.overlap_duplicate1 = false ↔
        o1 = false ∧ genes1.head? = some kf.2.gene1)) ∧
      new.countP (fun kf => kf.2.overlap_duplicate1 == false) =
        (if o1 = false ∧ genes1 ≠ [] then v.genes2.length else 0) ∧
      new.countP (fun kf => kf.2.overlap_duplicate2 == false) =
        (if v.genes2 = [] then 0 else genes1.length) := by
  induction genes1 generalizing o1 st with
  | nil =>
    exact ⟨[], by simp [discordant_mate_gene1_loop], rfl, by simp, by simp, by simp, by simp⟩
  | cons a rest ih =>
    unfold discordant_mate_gene1_loop
    obtain ⟨ha, hrest⟩ := List.nodup_cons.mp hn1
    obtain ⟨row, r1, r2, r3, r4⟩ := discordant_mate_gene2_loop_fresh v g a o1 v.genes2 false st
      hn2 (hf a (List.mem_cons_self _ _))
    obtain ⟨new, h1, h2, h3, h4, h5, h6⟩ := ih true
      (discordant_mate_gene2_loop v g a o1 v.genes2 false st) hrest
      (by
        intro a' ha' b' hb'
        rw [r1, List.map_append, List.mem_append, r2]
        rintro (h | h)
        · exact hf a' (List.mem_cons_of_mem _ ha') b' hb' h
        · obtain ⟨b'', -, h⟩ := List.mem_map.mp h
          have := (make_key_inj v a b'' a' b' h).1
          exact ha (this ▸ ha'))
    refine ⟨row ++ new, ?_, ?_, ?_, ?_, ?_, ?_⟩
    · rw [h1, r1, List.append_assoc]
    · simp [r2, h2]
    · intro kf hkf
      rcases List.mem_append.mp hkf with hkf | hkf
      · rw [(r3 kf hkf).2]
        exact List.mem_cons_self _ _
      · exact List.mem_cons_of_mem _ (h3 kf hkf)
    · intro kf hkf
      rcases List.mem_append.mp hkf with hkf | hkf
      · rw [(r3 kf hkf).1, (r3 kf hkf).2]
        simp
      · have hne : kf.2.gene1 ≠ a := fun h => ha (h ▸ h3 kf hkf)
        have := h4 kf hkf
        simp only [List.head?_cons, Option.some.injEq]
        constructor
        · intro h
          exact absurd (this.mp h).1 (by simp)
        · intro h
          exact absurd h.2.symm hne
    · rw [List.countP_append, h5]
      have : row.countP (fun kf => kf.2.overlap_duplicate1 == false) =
          if o1 = false then row.length else 0 := by
        cases o1
        · simp only [if_true]
          rw [List.countP_eq_length]
          intro kf hkf
          simp [(r3 kf hkf).1]
        · simp only [Bool.true_eq_false, if_false]
          rw [List.countP_eq_zero]
          intro kf hkf
          simp [(r3 kf hkf).1]
      rw [this]
      have hlen : row.length = v.genes2.length := by
        rw [← List.length_map row Prod.fst, r2, List.length_map]
      cases o1 <;> simp [hlen]
    · rw [List.countP_append, h6, r4]
      by_cases h : v.genes2 = []
      · simp [h]
      · simp [h]
        omega


theorem length_flatMap_map {α β γ : Type} (l1 : List α) (l2 : List β) (f : α → β → γ) :
    (l1.flatMap (fun a => l2.map (f a))).length = l1.length * l2.length := by
  induction l1 with
  | nil => simp
  | cons a rest ih =>
    rw [List.flatMap_cons, List.length_append, ih, List.length_map, List.length_cons]
    ring

theorem finish_fusion_flags (E : externals) (max_mate_gap : Int)
    (idx : discordant_mates_by_gene_pair_t) (f : fusion_t) :
    (finish_fusion E max_mate_gap idx f).overlap_duplicate1 = f.overlap_duplicate1 ∧
      (finish_fusion E max_mate_gap idx f).overlap_duplicate2 = f.overlap_duplicate2 := by
  obtain ⟨l', n, fl, a, b, t, ta, sa, s1, s2, p1, p2, h⟩ :=
    finish_fusion_frame E max_mate_gap idx f
  rw [h]
  exact ⟨rfl, rfl⟩

/-- The fusions that the aggregation of a single group of size 3 or 2 with
distinct genes on each side puts into an empty map. -/
theorem aggregate_single_group (E : externals) (g : mates_t)
    (hsize : g.size = 3 ∨ g.size = 2) (hn1 : (group_locals E g).genes1.Nodup)
    (hn2 : (group_locals E g).genes2.Nodup) :
    ((aggregate E [g] []).fusions.map Prod.fst =
        (group_locals E g).genes1.flatMap (fun a =>
          (group_locals E g).genes2.map (make_key (group_locals E g) a))) ∧
      (∀ kf ∈ (aggregate E [g] []).fusions, (kf.2.overlap_duplicate1 = false ↔
        (group_locals E g).genes1.head? = some kf.2.gene1)) ∧
      (aggregate E [g] []).fusions.countP (fun kf => kf.2.overlap_duplicate1 == false) =
        (if (group_locals E g).genes1 ≠ [] then (group_locals E g).genes2.length else 0) ∧
      (aggregate E [g] []).fusions.countP (fun kf => kf.2.overlap_duplicate2 == false) =
        (if (group_locals E g).genes2 = [] then 0 else (group_locals E g).genes1.length) := by
  have hagg : aggregate E [g] [] = aggregate_group E ⟨[], []⟩ g := rfl
  rw [hagg]
  unfold aggregate_group
  rcases hsize with h3 | h2
  · have hv : group_locals E g = canonicalize (split_read_locals E g) := by
      unfold group_locals
      rw [if_pos h3]
    rw [if_pos h3]
    dsimp only
    rw [← hv]
    obtain ⟨new, h1, h2, -, h4, h5, h6⟩ := split_read_gene1_loop_fresh (group_locals E g) g
      (group_locals E g).genes1 false [] hn1 hn2 (by simp)
    rw [h1, List.nil_append]
    refine ⟨h2, ?_, ?_, h6⟩
    · intro kf hkf
      simpa using h4 kf hkf
    · simpa using h5
  · have hne : g.size ≠ 3 := by omega
    have hv : group_locals E g = canonicalize (discordant_mate_locals E g) := by
      unfold group_locals
      rw [if_neg hne]
    rw [if_neg hne, if_pos h2]
    dsimp only
    rw [← hv]
    obtain ⟨new, h1, h2, -, h4, h5, h6⟩ := discordant_mate_gene1_loop_fresh (group_locals E g) g
      (group_locals E g).genes1 false ⟨[], []⟩ hn1 hn2 (by simp)
    rw [h1, List.nil_append]
    refine ⟨h2, ?_, ?_, h6⟩
    · intro kf hkf
      simpa using h4 kf hkf
    · simpa using h5

/-- C8: `find_fusions` on a single group (a split read or a pair of discordant
mates) and an empty map, where after canonicalization side 1 overlaps `m ≥ 1`
distinct genes and side 2 overlaps `n ≥ 1` distinct genes, leaves exactly one
fusion per combination of genes, `m * n` in all; exactly `n` of them have
`overlap_duplicate1` false, those of the first gene of side 1, and exactly `m`
have `overlap_duplicate2` false. -/
theorem C8_overlap_duplicates (E : externals) (g : mates_t) (max_mate_gap : Int)
    (hsize : g.size = 3 ∨ g.size = 2) (hn1 : (group_locals E g).genes1.Nodup)
    (hn2 : (group_locals E g).genes2.Nodup) (hm : 1 ≤ (group_locals E g).genes1.length)
    (hn : 1 ≤ (group_locals E g).genes2.length) :
    (find_fusions E [g] [] max_mate_gap).fusions.map Prod.fst =
        (group_locals E g).genes1.flatMap (fun a =>
          (group_locals E g).genes2.map (make_key (group_locals E g) a)) ∧
      (find_fusions E [g] [] max_mate_gap).fusions.length =
        (group_locals E g).genes1.length * (group_locals E g).genes2.length ∧
      (find_fusions E [g] [] max_mate_gap).fusions.countP
          (fun kf => kf.2.overlap_duplicate1 == false) =
        (group_locals E g).genes2.length ∧
      (∀ kf ∈ (find_fusions E [g] [] max_mate_gap).fusions,
        (kf.2.overlap_duplicate1 = false ↔
          (group_locals E g).genes1.head? = some kf.2.gene1)) ∧
      (find_fusions E [g] [] max_mate_gap).fusions.countP
          (fun kf => kf.2.overlap_duplicate2 == false) =
        (group_locals E g).genes1.length := by
  obtain ⟨h1, h2, h3, h4⟩ := aggregate_single_group E g hsize hn1 hn2
  have hne1 : (group_locals E g).genes1 ≠ [] := by
    intro h
    rw [h] at hm
    simp at hm
  have hne2 : (group_locals E g).genes2 ≠ [] := by
    intro h
    rw [h] at hn
    simp at hn
  rw [if_pos hne1] at h3
  rw [if_neg hne2] at h4
  have hkeys : (find_fusions E [g] [] max_mate_gap).fusions.map Prod.fst =
      (group_locals E g).genes1.flatMap (fun a =>
        (group_locals E g).genes2.map (make_key (group_locals E g) a)) := by
    rw [find_fusions_fusions, List.map_map, ← h1]
    rfl
  refine ⟨hkeys, ?_, ?_, ?_, ?_⟩
  · rw [← List.length_map _ Prod.fst, hkeys, length_flatMap_map]
  · rw [find_fusions_fusions, List.countP_map, ← h3]
    congr 1
    funext kf
    simp only [Function.comp, (finish_fusion_flags _ _ _ _).1]
  · intro kf hkf
    rw [find_fusions_fusions, List.mem_map] at hkf
    obtain ⟨kf0, hmem, rfl⟩ := hkf
    dsimp only
    rw [(finish_fusion_flags _ _ _ _).1, (finish_fusion_genes _ _ _ _).1]
    exact h2 kf0 hmem
  · rw [find_fusions_fusions, List.countP_map, ← h4]
    congr 1
    funext kf
    simp only [Function.comp, (finish_fusion_flags _ _ _ _).2]

/-- The statement of C8 at a split read with two genes on side 1 and one gene on
side 2: two fusions, one of them with `overlap_duplicate1` false. -/
theorem C8_overlap_duplicates_witness :
    (sample_sr_overlap.size = 3 ∨ sample_sr_overlap.size = 2) ∧
      (group_locals E0 sample_sr_overlap).genes1 = [gene_a, gene_c] ∧
      (group_locals E0 sample_sr_overlap).genes2 = [gene_b] ∧
      (find_fusions E0 [sample_sr_overlap] [] 1000).fusions.length = 2 ∧
      (find_fusions E0 [sample_sr_overlap] [] 1000).fusions.countP
          (fun kf => kf.2.overlap_duplicate1 == false) = 1 ∧
      (find_fusions E0 [sample_sr_overlap] [] 1000).fusions.countP
          (fun kf => kf.2.overlap_duplicate2 == false) = 2 :=
  have h := C8_overlap_duplicates E0 sample_sr_overlap 1000 (by decide) (by decide)
    (by decide) (by decide) (by decide)
  ⟨by decide, by decide, by decide, h.2.1, h.2.2.1, h.2.2.2.2⟩

/-! ## C10: the filter of a fusion during the aggregation -/

/-- C10 (fails on the code): the unfiltered pair of discordant mates `sample_dm`
makes a fusion without filter; the filtered split read `sample_sr_filtered`
has the same key, finds all three counters at zero in line 248 and overwrites
the filter, so that the fusion ends filtered and is not counted as remaining,
although an unfiltered group supports it. -/
theorem C10_unfiltered_status_lost :
    sample_dm.filter = none ∧
      (aggregate E0 [sample_dm] []).fusions.map (fun kf => (kf.1, kf.2.filter)) =
        [(make_key (group_locals E0 sample_dm) gene_a gene_b, none)] ∧
      (aggregate E0 [sample_dm, sample_sr_filtered] []).fusions.map
          (fun kf => (kf.1, kf.2.filter)) =
        [(make_key (group_locals E0 sample_dm) gene_a gene_b, some "low_support")] ∧
      (find_fusions E0 [sample_dm, sample_sr_filtered] [] 1000).fusions.map
          (fun kf => kf.2.filter) = [some "low_support"] ∧
      (find_fusions E0 [sample_dm, sample_sr_filtered] [] 1000).remaining = 0 := by
  decide

/-! ## C2: the two orders of a pair of discordant mates -/

/-- C2 fails on a tie: the two mates of `sample_dm_tie`, a forward mate that ends
at 100 and a reverse mate that starts at 100 on the same contig, each in one
gene, have the same contig and the same inward coordinate. The test of lines
305-312 is strict, so no side is swapped in either order of the mates, the two
orders keep their own order of the directions, and the same pair of mates is
filed under two keys: `find_fusions` leaves two fusions, against the comment of
lines 303-304. -/
theorem C2_tie_files_two_fusions :
    sample_dm_tie_swapped.alignments = sample_dm_tie.alignments.reverse ∧
      (sample_dm_tie.at E0.MATE1).genes = [gene_a] ∧
      (sample_dm_tie.at E0.MATE2).genes = [gene_a] ∧
      (group_locals E0 sample_dm_tie).swapped = false ∧
      (group_locals E0 sample_dm_tie_swapped).swapped = false ∧
      (find_fusions E0 [sample_dm_tie, sample_dm_tie_swapped] [] 1000).fusions.map Prod.fst =
        [⟨gene_a, gene_a, 1, 1, 100, 100, DOWNSTREAM, UPSTREAM⟩,
          ⟨gene_a, gene_a, 1, 1, 100, 100, UPSTREAM, DOWNSTREAM⟩] ∧
      (find_fusions E0 [sample_dm_tie, sample_dm_tie_swapped] [] 1000).fusions.length = 2 := by
  decide

theorem fusions_at_cons_self (key : fusion_key_t) (f : fusion_t) (rest : fusions_t)
    (update : fusion_t → fusion_t) :
    fusions_at ((key, f) :: rest) key update = (key, update f) :: rest := by
  unfold fusions_at
  rw [if_pos rfl]

/-- The fusion map after the aggregation of a pair of discordant mates each of
which overlaps one gene. -/
theorem aggregate_group_gene_pair (E : externals) (st : aggregation_t) (g : mates_t)
    (a b : gene_t) (hsize : g.size = 2)
    (h1 : (canonicalize (discordant_mate_locals E g)).genes1 = [a])
    (h2 : (canonicalize (discordant_mate_locals E g)).genes2 = [b]) :
    (aggregate_group E st g).fusions =
      fusions_at st.fusions (make_key (canonicalize (discordant_mate_locals E g)) a b)
        (discordant_mate_fusion (canonicalize (discordant_mate_locals E g)) a b false false g
          (fusions_find st.fusions
            (make_key (canonicalize (discordant_mate_locals E g)) a b)).isNone) := by
  unfold aggregate_group
  rw [if_neg (by omega), if_pos hsize]
  dsimp only
  rw [h1]
  simp only [discordant_mate_gene1_loop, discordant_mate_gene2_loop, h2]

/-- The canonicalized values of a pair of discordant mates and of the pair with
the mates in swapped order agree in the genes and in the key, if the mates
differ in the contig or in the inward coordinate. -/
theorem swapped_mates_same_key (E : externals) (m1 m2 : alignment_t) (fl fl' : filter_t)
    (ga gb : gene_t) (hM1 : E.MATE1 = 0) (hM2 : E.MATE2 = 1)
    (h1 : m1.genes = [ga]) (h2 : m2.genes = [gb])
    (hne : m1.contig ≠ m2.contig ∨
      (if m1.strand = FORWARD then m1.end_ else m1.start) ≠
        (if m2.strand = FORWARD then m2.end_ else m2.start)) :
    ∃ a b,
      (canonicalize (discordant_mate_locals E ⟨[m1, m2], fl⟩)).genes1 = [a] ∧
      (canonicalize (discordant_mate_locals E ⟨[m1, m2], fl⟩)).genes2 = [b] ∧
      (canonicalize (discordant_mate_locals E ⟨[m2, m1], fl'⟩)).genes1 = [a] ∧
      (canonicalize (discordant_mate_locals E ⟨[m2, m1], fl'⟩)).genes2 = [b] ∧
      make_key (canonicalize (discordant_mate_locals E ⟨[m1, m2], fl⟩)) a b =
        make_key (canonicalize (discordant_mate_locals E ⟨[m2, m1], fl'⟩)) a b := by
  have e1 : ∀ f, (⟨[m1, m2], f⟩ : mates_t).at E.MATE1 = m1 := fun f => by rw [hM1]; rfl
  have e2 : ∀ f, (⟨[m1, m2], f⟩ : mates_t).at E.MATE2 = m2 := fun f => by rw [hM2]; rfl
  have e3 : ∀ f, (⟨[m2, m1], f⟩ : mates_t).at E.MATE1 = m2 := fun f => by rw [hM1]; rfl
  have e4 : ∀ f, (⟨[m2, m1], f⟩ : mates_t).at E.MATE2 = m1 := fun f => by rw [hM2]; rfl
  unfold canonicalize discordant_mate_locals
  simp only [e1, e2, e3, e4, h1, h2]
  generalize (if m1.strand = FORWARD then m1.end_ else m1.start) = b1 at hne ⊢
  generalize (if m2.strand = FORWARD then m2.end_ else m2.start) = b2 at hne ⊢
  by_cases hc : m1.contig > m2.contig ∨ (m1.contig = m2.contig ∧ b1 > b2)
  · have hc' : ¬(m2.contig > m1.contig ∨ (m2.contig = m1.contig ∧ b2 > b1)) := by
      rintro (h | ⟨h, h'⟩)
      · rcases hc with hc | ⟨hc, -⟩
        · exact absurd h (not_lt.mpr (le_of_lt hc))
        · rw [hc] at h
          exact lt_irrefl _ h
      · rcases hc with hc | ⟨-, hc⟩
        · rw [h] at hc
          exact lt_irrefl _ hc
        · exact lt_asymm h' hc
    rw [if_pos hc, if_neg hc']
    exact ⟨gb, ga, rfl, rfl, rfl, rfl, rfl⟩
  · have hc' : m2.contig > m1.contig ∨ (m2.contig = m1.contig ∧ b2 > b1) := by
      rcases Nat.lt_trichotomy m1.contig m2.contig with h | h | h
      · exact Or.inl h
      · refine Or.inr ⟨h.symm, ?_⟩
        rcases hne with hne | hne
        · exact absurd h hne
        · rcases lt_trichotomy b1 b2 with hb | hb | hb
          · exact hb
          · exact absurd hb hne
          · exact absurd (Or.inr ⟨h, hb⟩) hc
      · exact absurd (Or.inl h) hc
    rw [if_neg hc, if_pos hc']
    exact ⟨ga, gb, rfl, rfl, rfl, rfl, rfl⟩

/-- Away from the tie the swap of lines 305-312 does what its comment says: two
pairs of discordant mates that consist of the same two mates in the two
orders, each mate overlapping one gene, are filed under the same key and make
exactly one fusion, provided that the two mates differ in the contig or in
the inward coordinate (the end of a forward mate, the start of a reverse
one). -/
theorem swapped_mates_one_fusion (E : externals) (m1 m2 : alignment_t) (fl fl' : filter_t)
    (ga gb : gene_t) (max_mate_gap : Int) (hM1 : E.MATE1 = 0) (hM2 : E.MATE2 = 1)
    (h1 : m1.genes = [ga]) (h2 : m2.genes = [gb])
    (hne : m1.contig ≠ m2.contig ∨
      (if m1.strand = FORWARD then m1.end_ else m1.start) ≠
        (if m2.strand = FORWARD then m2.end_ else m2.start)) :
    (find_fusions E [⟨[m1, m2], fl⟩, ⟨[m2, m1], fl'⟩] [] max_mate_gap).fusions.length = 1 ∧
      (aggregate E [⟨[m1, m2], fl⟩] []).fusions.map Prod.fst =
        (aggregate E [⟨[m2, m1], fl'⟩] []).fusions.map Prod.fst ∧
      (find_fusions E [⟨[m1, m2], fl⟩, ⟨[m2, m1], fl'⟩] [] max_mate_gap).fusions.map Prod.fst =
        (aggregate E [⟨[m1, m2], fl⟩] []).fusions.map Prod.fst := by
  obtain ⟨a, b, g1, g2, g1', g2', hk⟩ :=
    swapped_mates_same_key E m1 m2 fl fl' ga gb hM1 hM2 h1 h2 hne
  have hA : ∀ st, (aggregate_group E st ⟨[m1, m2], fl⟩).fusions = _ :=
    fun st => aggregate_group_gene_pair E st ⟨[m1, m2], fl⟩ a b rfl g1 g2
  have hB : ∀ st, (aggregate_group E st ⟨[m2, m1], fl'⟩).fusions = _ :=
    fun st => aggregate_group_gene_pair E st ⟨[m2, m1], fl'⟩ a b rfl g1' g2'
  have e1 : aggregate E [⟨[m1, m2], fl⟩] [] = aggregate_group E ⟨[], []⟩ ⟨[m1, m2], fl⟩ := rfl
  have e2 : aggregate E [⟨[m2, m1], fl'⟩] [] = aggregate_group E ⟨[], []⟩ ⟨[m2, m1], fl'⟩ := rfl
  have e3 : aggregate E [⟨[m1, m2], fl⟩, ⟨[m2, m1], fl'⟩] [] =
      aggregate_group E (aggregate_group E ⟨[], []⟩ ⟨[m1, m2], fl⟩) ⟨[m2, m1], fl'⟩ := rfl
  have h12 : (aggregate E [⟨[m1, m2], fl⟩, ⟨[m2, m1], fl'⟩] []).fusions.map Prod.fst =
      (aggregate E [⟨[m1, m2], fl⟩] []).fusions.map Prod.fst := by
    have hnil : ∀ k u, fusions_at [] k u = [(k, u fusion_t.init)] := fun _ _ => rfl
    rw [e3, e1, hB, hA]
    dsimp only
    rw [hnil, ← hk, fusions_at_cons_self]
    rfl
  refine ⟨?_, ?_, ?_⟩
  · rw [← List.length_map _ Prod.fst, find_fusions_fusions, List.map_map]
    show ((aggregate E [⟨[m1, m2], fl⟩, ⟨[m2, m1], fl'⟩] []).fusions.map Prod.fst).length = 1
    rw [h12, e1, hA]
    rfl
  · rw [e1, e2, hA, hB, hk]
    rfl
  · rw [find_fusions_fusions, List.map_map]
    exact h12

/-- The group `sample_dm` and the same mates in swapped order make one
fusion. -/
theorem swapped_mates_one_fusion_example :
    sample_dm_swapped.alignments = sample_dm.alignments.reverse ∧
      (sample_dm.at E0.MATE1).end_ ≠ (sample_dm.at E0.MATE2).start ∧
      (find_fusions E0 [sample_dm, sample_dm_swapped] [] 1000).fusions.length = 1 :=
  ⟨by decide, by decide,
    (swapped_mates_one_fusion E0 (sample_alignment 1 50 100 FORWARD FORWARD [gene_a])
      (sample_alignment 1 200 250 REVERSE FORWARD [gene_b]) none none gene_a gene_b 1000 rfl
      rfl rfl rfl (by decide)).1⟩

/-! ## C11: the first branch of the cascade -/

theorem start_from_gene1_eq (f : fusion_t) :
    start_from_gene1 f =
      { f with
        transcript_start :=
          if (f.gene1.strand = FORWARD ∧ f.direction1 = DOWNSTREAM) ∨
              (f.gene1.strand = REVERSE ∧ f.direction1 = UPSTREAM) then
            TRANSCRIPT_START_GENE1
          else TRANSCRIPT_START_GENE2 } := by
  unfold start_from_gene1
  cases hs : f.gene1.strand <;> cases hd : f.direction1 <;> simp

/-- The transcript start that the first branch of the cascade yields. -/
theorem predict_transcript_start_branch1 (E : externals) (f : fusion_t)
    (h : f.spliced1 = true ∨
      (f.predicted_strands_ambiguous = false ∧ f.predicted_strand1 = f.gene1.strand)) :
    (predict_transcript_start E f).transcript_start_ambiguous = false ∧
      (predict_transcript_start E f).transcript_start =
        (if (f.gene1.strand = FORWARD ∧ f.direction1 = DOWNSTREAM) ∨
            (f.gene1.strand = REVERSE ∧ f.direction1 = UPSTREAM) then
          TRANSCRIPT_START_GENE1
        else TRANSCRIPT_START_GENE2) := by
  unfold predict_transcript_start
  rw [(backfill_strands_transcript_start _).1, (backfill_strands_transcript_start _).2]
  unfold transcript_start_cascade
  rw [if_pos h, start_from_gene1_eq]
  unfold transcript_start_default
  rw [if_neg (by simp)]
  exact ⟨rfl, rfl⟩

/-- C11: for a fusion with `spliced1` true, or with unambiguous strands and
`predicted_strand1 = gene1.strand`, `predict_transcript_start` sets
`transcript_start_ambiguous` to false and `transcript_start` to GENE1 if gene 1
is forward and direction 1 is DOWNSTREAM or gene 1 is reverse and direction 1
is UPSTREAM, and to GENE2 otherwise; the result is the same for every other
value of `spliced2`, `exonic1`, `exonic2`, `gene2` and `direction2`. -/
theorem C11_cascade_branch1 (E : externals) (f : fusion_t)
    (h : f.spliced1 = true ∨
      (f.predicted_strands_ambiguous = false ∧ f.predicted_strand1 = f.gene1.strand)) :
    (predict_transcript_start E f).transcript_start_ambiguous = false ∧
      (predict_transcript_start E f).transcript_start =
        (if (f.gene1.strand = FORWARD ∧ f.direction1 = DOWNSTREAM) ∨
            (f.gene1.strand = REVERSE ∧ f.direction1 = UPSTREAM) then
          TRANSCRIPT_START_GENE1
        else TRANSCRIPT_START_GENE2) ∧
      ∀ (spliced2 exonic1 exonic2 : Bool) (gene2 : gene_t) (direction2 : direction_t),
        (predict_transcript_start E
            { f with
              spliced2 := spliced2, exonic1 := exonic1, exonic2 := exonic2, gene2 := gene2,
              direction2 := direction2 }).transcript_start_ambiguous = false ∧
          (predict_transcript_start E
            { f with
              spliced2 := spliced2, exonic1 := exonic1, exonic2 := exonic2, gene2 := gene2,
              direction2 := direction2 }).transcript_start =
            (predict_transcript_start E f).transcript_start := by
  obtain ⟨h1, h2⟩ := predict_transcript_start_branch1 E f h
  refine ⟨h1, h2, ?_⟩
  intro spliced2 exonic1 exonic2 gene2 direction2
  obtain ⟨h3, h4⟩ := predict_transcript_start_branch1 E
    { f with
      spliced2 := spliced2, exonic1 := exonic1, exonic2 := exonic2, gene2 := gene2,
      direction2 := direction2 } h
  exact ⟨h3, h4.trans h2.symm⟩

/-- The statement of C11 at a fusion whose predicted strand 1 is the strand of
the forward gene 1, with direction 1 DOWNSTREAM: the transcript starts with
gene 1. -/
theorem C11_cascade_branch1_witness :
    (sample_fusion_voted.predicted_strands_ambiguous = false ∧
        sample_fusion_voted.predicted_strand1 = sample_fusion_voted.gene1.strand) ∧
      (predict_transcript_start E0 sample_fusion_voted).transcript_start_ambiguous = false ∧
      (predict_transcript_start E0 sample_fusion_voted).transcript_start =
        TRANSCRIPT_START_GENE1 :=
  ⟨by decide, (C11_cascade_branch1 E0 sample_fusion_voted (Or.inr (by decide))).1,
    (C11_cascade_branch1 E0 sample_fusion_voted (Or.inr (by decide))).2.1⟩

/-! ## C13: the strands taken from the gene orientations -/

theorem complement_strand_if_ne_iff (s : strand_t) (c : Bool) :
    complement_strand_if s c ≠ s ↔ c = true := by
  cases s <;> cases c <;> simp [complement_strand_if]

/-- C13: if a fusion enters `predict_transcript_start` with ambiguous strands and
leaves it with an unambiguous transcript start, its strands are unambiguous on
exit, the predicted strand of the gene that starts the transcript is the
strand of that gene, and the predicted strand of the other side is
`complement_strand_if` of it, which differs from it exactly if
`direction1 = direction2`. If the fusion leaves with an ambiguous transcript
start, or entered with unambiguous strands, the three strand fields are
unchanged. -/
theorem C13_backfill (E : externals) (f : fusion_t) :
    (f.predicted_strands_ambiguous = true →
        (predict_transcript_start E f).transcript_start_ambiguous = false →
        (predict_transcript_start E f).predicted_strands_ambiguous = false ∧
          ((predict_transcript_start E f).transcript_start = TRANSCRIPT_START_GENE1 →
            (predict_transcript_start E f).predicted_strand1 = f.gene1.strand ∧
              (predict_transcript_start E f).predicted_strand2 =
                complement_strand_if (predict_transcript_start E f).predicted_strand1
                  (decide (f.direction1 = f.direction2)) ∧
              ((predict_transcript_start E f).predicted_strand2 ≠
                  (predict_transcript_start E f).predicted_strand1 ↔
                f.direction1 = f.direction2)) ∧
          ((predict_transcript_start E f).transcript_start = TRANSCRIPT_START_GENE2 →
            (predict_transcript_start E f).predicted_strand2 = f.gene2.strand ∧
              (predict_transcript_start E f).predicted_strand1 =
                complement_strand_if (predict_transcript_start E f).predicted_strand2
                  (decide (f.direction1 = f.direction2)) ∧
              ((predict_transcript_start E f).predicted_strand1 ≠
                  (predict_transcript_start E f).predicted_strand2 ↔
                f.direction1 = f.direction2))) ∧
      (((predict_transcript_start E f).transcript_start_ambiguous = true ∨
          f.predicted_strands_ambiguous = false) →
        (predict_transcript_start E f).predicted_strands_ambiguous =
            f.predicted_strands_ambiguous ∧
          (predict_transcript_start E f).predicted_strand1 = f.predicted_strand1 ∧
          (predict_transcript_start E f).predicted_strand2 = f.predicted_strand2) := by
  have hts := backfill_strands_transcript_start
    (transcript_start_default
      (transcript_start_cascade E { f with transcript_start_ambiguous := false }))
  obtain ⟨t, a, hc⟩ :=
    transcript_start_cascade_frame E { f with transcript_start_ambiguous := false }
  have hd : ∃ t' a', transcript_start_default
      (transcript_start_cascade E { f with transcript_start_ambiguous := false }) =
      { f with transcript_start := t', transcript_start_ambiguous := a' } := by
    rw [hc]
    unfold transcript_start_default
    split_ifs <;> exact ⟨_, _, rfl⟩
  obtain ⟨t', a', hd⟩ := hd
  unfold predict_transcript_start
  rw [hd] at hts ⊢
  unfold backfill_strands at hts ⊢
  dsimp only at hts ⊢
  constructor
  · intro hamb hta
    split_ifs with h1 h2
    · dsimp only
      refine ⟨rfl, fun _ => ⟨rfl, rfl, ?_⟩, fun h => ?_⟩
      · rw [complement_strand_if_ne_iff]
        simp
      · exact absurd h (by rw [h2]; simp)
    · dsimp only
      refine ⟨rfl, fun h => absurd h h2, fun _ => ⟨rfl, rfl, ?_⟩⟩
      rw [complement_strand_if_ne_iff]
      simp
    · exfalso
      rw [if_neg h1] at hta
      dsimp only at hta
      exact h1 ⟨hta, hamb⟩
  · intro h
    split_ifs with h1 h2
    · exfalso
      rcases h with h | h
      · rw [if_pos h1, if_pos h2] at h
        dsimp only at h
        rw [h1.1] at h
        simp at h
      · rw [h1.2] at h
        simp at h
    · exfalso
      rcases h with h | h
      · rw [if_pos h1, if_neg h2] at h
        dsimp only at h
        rw [h1.1] at h
        simp at h
      · rw [h1.2] at h
        simp at h
    · exact ⟨rfl, rfl, rfl⟩

/-- The statement of C13 at a fusion without votes whose transcript start is
gene 1: the strands are taken from the strand of gene 1. -/
theorem C13_backfill_witness :
    sample_fusion_unvoted.predicted_strands_ambiguous = false ∧
      (predict_fusion_strands E0 sample_fusion_unvoted).predicted_strands_ambiguous = true ∧
      (predict_transcript_start E0
        (predict_fusion_strands E0 sample_fusion_unvoted)).transcript_start_ambiguous = false ∧
      (predict_transcript_start E0
        (predict_fusion_strands E0 sample_fusion_unvoted)).predicted_strands_ambiguous = false ∧
      (predict_transcript_start E0 sample_fusion_unvoted).predicted_strand1 =
        sample_fusion_unvoted.predicted_strand1 :=
  ⟨by decide, by decide, by decide,
    ((C13_backfill E0 (predict_fusion_strands E0 sample_fusion_unvoted)).1 (by decide)
      (by decide)).1,
    ((C13_backfill E0 sample_fusion_unvoted).2 (Or.inr (by decide))).2.1⟩

/-! ## C12: the two cases of the exon/intron fallback -/

/-- Where the orientation of the exonic gene decides (lines 146-149 and
131-134), the two cases of the fallback are mirror images: gene 1 starts the
transcript of the fusion and gene 2 that of its mirror image. -/
theorem start_priority_mirror (E : externals) (f : fusion_t)
    (h : (f.gene1.strand = FORWARD ∧ f.direction1 = DOWNSTREAM) ∨
      (f.gene1.strand = REVERSE ∧ f.direction1 = UPSTREAM)) :
    (start_gene1_priority E f).transcript_start = TRANSCRIPT_START_GENE1 ∧
      (start_gene2_priority E (mirror_fusion f)).transcript_start = TRANSCRIPT_START_GENE2 := by
  unfold start_gene1_priority start_gene2_priority mirror_fusion
  rcases h with ⟨hs, hd⟩ | ⟨hs, hd⟩ <;> simp [hs, hd]

/-- C12 (fails on the code): the fusion `sample_fusion_exonic1` has no split
reads, ambiguous strands and no spliced breakpoint, breakpoint 1 is exonic in
a reverse gene with direction DOWNSTREAM and breakpoint 2 is not exonic. With
`is_read_through` true, line 154 makes gene 1 the transcript start; for the
mirror image line 139 makes gene 1 the transcript start as well, so that the
exchange of the sides does not exchange GENE1 with GENE2. -/
theorem C12_mirror_broken :
    sample_fusion_exonic1.split_reads1 + sample_fusion_exonic1.split_reads2 = 0 ∧
      (predict_transcript_start E_read_through
        sample_fusion_exonic1).transcript_start_ambiguous = false ∧
      (predict_transcript_start E_read_through sample_fusion_exonic1).transcript_start =
        TRANSCRIPT_START_GENE1 ∧
      (predict_transcript_start E_read_through
        (mirror_fusion sample_fusion_exonic1)).transcript_start_ambiguous = false ∧
      (predict_transcript_start E_read_through
        (mirror_fusion sample_fusion_exonic1)).transcript_start = TRANSCRIPT_START_GENE1 := by
  decide

/-! ## C14: discordant mates on different contigs -/

/-- C14 (fails on the code): the mates of `sample_dm_two_contigs` lie on the
contigs 1 and 2, the group is not filtered and its read strand is not
ambiguous; it is attached to the fusion that it makes, whose breakpoints are
at 100 on both contigs. Line 49 compares the contig of MATE1 with `contig1`
only, so that the group reaches the comparison of the distances, which ties:
the group casts no vote and the strands stay ambiguous. In the fusion of
`sample_dm_contigs_a` the attached group `sample_dm_contigs_b` is swapped by
that comparison and votes with the strand of its mate on contig 2. -/
theorem C14_proximity_on_different_contigs :
    (sample_dm_two_contigs.at E0.MATE1).contig ≠ (sample_dm_two_contigs.at E0.MATE2).contig ∧
      (sample_dm_two_contigs.at E0.MATE1).predicted_strand_ambiguous = false ∧
      sample_dm_two_contigs.filter ≠ hairpin ∧
      (first_fusion (find_fusions E0 [sample_dm_two_contigs] [] 1000)).2.discordant_mate_list =
        [sample_dm_two_contigs] ∧
      discordant_mate_vote E0 (first_fusion (find_fusions E0 [sample_dm_two_contigs] [] 1000)).2
        sample_dm_two_contigs = none ∧
      (predict_fusion_strands E0
        (first_fusion
          (find_fusions E0 [sample_dm_two_contigs] [] 1000)).2).predicted_strands_ambiguous =
        true ∧
      (first_fusion
          (find_fusions E0 [sample_dm_contigs_a, sample_dm_contigs_b] [] 1000)).2.contig1 = 1 ∧
      (first_fusion
          (find_fusions E0 [sample_dm_contigs_a, sample_dm_contigs_b] [] 1000)).2.contig2 = 2 ∧
      (first_fusion
          (find_fusions E0 [sample_dm_contigs_a, sample_dm_contigs_b]
            [] 1000)).2.discordant_mate_list = [sample_dm_contigs_a, sample_dm_contigs_b] ∧
      (sample_dm_contigs_b.at E0.MATE1).contig = 1 ∧
      (sample_dm_contigs_b.at E0.MATE1).predicted_strand = FORWARD ∧
      (sample_dm_contigs_b.at E0.MATE2).contig = 2 ∧
      discordant_mate_vote E0
        (first_fusion (find_fusions E0 [sample_dm_contigs_a, sample_dm_contigs_b] [] 1000)).2
        sample_dm_contigs_b = some REVERSE := by
  decide

/-! ## C16: the assignment of the mates by proximity -/

/-- C16: let a group of the discordant mates of a fusion be eligible to vote (its
read strand is not ambiguous, its filter is not the hairpin filter), let
MATE1 lie on the contig of breakpoint 1 (the contig of MATE2 is not read, so
this covers mates on the same contig), let the mates have the same strand,
the strand that fits direction 1, and let `e1`, `e2` be the ends of MATE1 and MATE2 if
direction 1 is DOWNSTREAM and their starts if it is UPSTREAM. If
`|breakpoint1 - e1| + |breakpoint2 - e2|` equals
`|breakpoint2 - e1| + |breakpoint1 - e2|`, the group casts no vote and leaves
both counters as they are; if the first sum is smaller, the vote is the
predicted strand of MATE1, and if the second sum is smaller, it is the
predicted strand of MATE2. -/
theorem C16_proximity_assignment (E : externals) (f : fusion_t) (dm : mates_t)
    (helig : (dm.at E.MATE1).predicted_strand_ambiguous = false ∧ dm.filter ≠ hairpin)
    (hc1 : (dm.at E.MATE1).contig = f.contig1)
    (hs : (dm.at E.MATE1).strand = (dm.at E.MATE2).strand)
    (hd : (dm.at E.MATE1).strand = FORWARD ↔ f.direction1 = DOWNSTREAM) :
    (((f.breakpoint1 - (if f.direction1 = DOWNSTREAM then (dm.at E.MATE1).end_
              else (dm.at E.MATE1).start)).natAbs +
          (f.breakpoint2 - (if f.direction1 = DOWNSTREAM then (dm.at E.MATE2).end_
              else (dm.at E.MATE2).start)).natAbs =
        (f.breakpoint2 - (if f.direction1 = DOWNSTREAM then (dm.at E.MATE1).end_
              else (dm.at E.MATE1).start)).natAbs +
          (f.breakpoint1 - (if f.direction1 = DOWNSTREAM then (dm.at E.MATE2).end_
              else (dm.at E.MATE2).start)).natAbs) →
        discordant_mate_vote E f dm = none ∧
          ∀ c, discordant_mate_votes E f [dm] c = c) ∧
      (((f.breakpoint1 - (if f.direction1 = DOWNSTREAM then (dm.at E.MATE1).end_
              else (dm.at E.MATE1).start)).natAbs +
          (f.breakpoint2 - (if f.direction1 = DOWNSTREAM then (dm.at E.MATE2).end_
              else (dm.at E.MATE2).start)).natAbs <
        (f.breakpoint2 - (if f.direction1 = DOWNSTREAM then (dm.at E.MATE1).end_
              else (dm.at E.MATE1).start)).natAbs +
          (f.breakpoint1 - (if f.direction1 = DOWNSTREAM then (dm.at E.MATE2).end_
              else (dm.at E.MATE2).start)).natAbs) →
        discordant_mate_vote E f dm = some (dm.at E.MATE1).predicted_strand ∧
          ∀ c, discordant_mate_votes E f [dm] c =
            count_vote (dm.at E.MATE1).predicted_strand c) ∧
      (((f.breakpoint2 - (if f.direction1 = DOWNSTREAM then (dm.at E.MATE1).end_
              else (dm.at E.MATE1).start)).natAbs +
          (f.breakpoint1 - (if f.direction1 = DOWNSTREAM then (dm.at E.MATE2).end_
              else (dm.at E.MATE2).start)).natAbs <
        (f.breakpoint1 - (if f.direction1 = DOWNSTREAM then (dm.at E.MATE1).end_
              else (dm.at E.MATE1).start)).natAbs +
          (f.breakpoint2 - (if f.direction1 = DOWNSTREAM then (dm.at E.MATE2).end_
              else (dm.at E.MATE2).start)).natAbs) →
        discordant_mate_vote E f dm = some (dm.at E.MATE2).predicted_strand ∧
          ∀ c, discordant_mate_votes E f [dm] c =
            count_vote (dm.at E.MATE2).predicted_strand c) := by
  have hd' : ¬(decide ((dm.at E.MATE1).strand = FORWARD) ≠
      decide (f.direction1 = DOWNSTREAM)) := by
    by_cases h : f.direction1 = DOWNSTREAM
    · simp [h, hd.mpr h]
    · have : ¬(dm.at E.MATE1).strand = FORWARD := fun h' => h (hd.mp h')
      simp [h, this]
  have hv : ∀ v, discordant_mate_vote E f dm = v →
      ∀ c, discordant_mate_votes E f [dm] c =
        (match v with
          | some s => count_vote s c
          | none => c) := by
    intro v hv c
    unfold discordant_mate_votes
    rw [List.foldl_cons, List.foldl_nil, hv]
  have hfirst : ¬((dm.at E.MATE1).contig ≠ f.contig1 ∨
      decide ((dm.at E.MATE1).strand = FORWARD) ≠ decide (f.direction1 = DOWNSTREAM)) := by
    rintro (h | h)
    · exact h hc1
    · exact hd' h
  refine ⟨fun h => ?_, fun h => ?_, fun h => ?_⟩
  · have hvote : discordant_mate_vote E f dm = none := by
      unfold discordant_mate_vote
      rw [if_pos helig]
      dsimp only
      rw [if_neg hfirst, if_pos hs, if_pos h]
    exact ⟨hvote, hv _ hvote⟩
  · have hvote : discordant_mate_vote E f dm = some (dm.at E.MATE1).predicted_strand := by
      unfold discordant_mate_vote
      rw [if_pos helig]
      dsimp only
      rw [if_neg hfirst, if_pos hs, if_neg (Nat.ne_of_lt h), if_neg (Nat.lt_asymm h)]
    exact ⟨hvote, hv _ hvote⟩
  · have hvote : discordant_mate_vote E f dm = some (dm.at E.MATE2).predicted_strand := by
      unfold discordant_mate_vote
      rw [if_pos helig]
      dsimp only
      rw [if_neg hfirst, if_pos hs, if_neg (Nat.ne_of_gt h), if_pos h]
    exact ⟨hvote, hv _ hvote⟩

/-- The statement of C16 at a group whose first mate is nearer to breakpoint 2
and whose second mate is nearer to breakpoint 1: the vote is the predicted
strand of MATE2. -/
theorem C16_proximity_assignment_witness :
    ((sample_dm_crossed.at E0.MATE1).predicted_strand_ambiguous = false ∧
        sample_dm_crossed.filter ≠ hairpin) ∧
      (sample_dm_crossed.at E0.MATE1).contig = sample_fusion_same_contig.contig1 ∧
      (sample_dm_crossed.at E0.MATE1).strand = (sample_dm_crossed.at E0.MATE2).strand ∧
      discordant_mate_vote E0 sample_fusion_same_contig sample_dm_crossed =
        some (sample_dm_crossed.at E0.MATE2).predicted_strand :=
  ⟨by decide, by decide, by decide,
    ((C16_proximity_assignment E0 sample_fusion_same_contig sample_dm_crossed (by decide)
      (by decide) (by decide) (by decide)).2.2 (by decide)).1⟩

/-! ## C15: the votes of the split reads -/

/-- The strand prediction depends on the fusion through the list of the votes,
the two directions and the strands held before. -/
theorem predict_fusion_strands_congr (E : externals) (f f' : fusion_t)
    (hv : strand1_vote_list E f' = strand1_vote_list E f)
    (hd1 : f'.direction1 = f.direction1) (hd2 : f'.direction2 = f.direction2)
    (hs1 : f'.predicted_strand1 = f.predicted_strand1)
    (hs2 : f'.predicted_strand2 = f.predicted_strand2) :
    (predict_fusion_strands E f').predicted_strands_ambiguous =
        (predict_fusion_strands E f).predicted_strands_ambiguous ∧
      (predict_fusion_strands E f').predicted_strand1 =
        (predict_fusion_strands E f).predicted_strand1 ∧
      (predict_fusion_strands E f').predicted_strand2 =
        (predict_fusion_strands E f).predicted_strand2 := by
  unfold predict_fusion_strands
  simp only [strand1_votes_count, hv, hd1, hd2]
  split_ifs
  · exact ⟨rfl, hs1, hs2⟩
  · exact ⟨rfl, rfl, rfl⟩
  · exact ⟨rfl, rfl, rfl⟩

theorem split_read_vote_filter (role : Nat) (g : mates_t) (fl : filter_t) :
    split_read_vote role { g with filter := fl } = split_read_vote role g := rfl

theorem filterMap_split_read_vote_refilter (role : Nat) (l : List mates_t)
    (refilter : mates_t → filter_t) :
    (l.map (fun g => { g with filter := refilter g })).filterMap (split_read_vote role) =
      l.filterMap (split_read_vote role) := by
  induction l with
  | nil => rfl
  | cons g rest ih =>
    rw [List.map_cons, List.filterMap_cons, List.filterMap_cons, ih, split_read_vote_filter]

/-- The loops of lines 22-40 count one vote for every group of the list whose
alignment `role` has an unambiguous predicted strand, for that strand; no
other property of the group is read. -/
theorem split_read_votes_tally (role : Nat) (l : List mates_t) (c : Nat × Nat) :
    split_read_votes role l c =
      (c.1 + l.countP (fun g => decide ((g.at role).predicted_strand_ambiguous = false ∧
          (g.at role).predicted_strand = FORWARD)),
        c.2 + l.countP (fun g => decide ((g.at role).predicted_strand_ambiguous = false ∧
          (g.at role).predicted_strand = REVERSE))) := by
  unfold split_read_votes
  induction l generalizing c with
  | nil => simp
  | cons g rest ih =>
    rw [List.foldl_cons, ih, List.countP_cons, List.countP_cons]
    by_cases hg : (g.at role).predicted_strand_ambiguous = false
    · rw [if_pos hg]
      cases hs : (g.at role).predicted_strand
      · simp [count_vote, hg, hs]
        omega
      · simp [count_vote, hg, hs]
        omega
    · rw [if_neg hg]
      simp [hg]

theorem count_vote_counts (s : strand_t) (A B : List strand_t) :
    ((A ++ [s] ++ B).count FORWARD, (A ++ [s] ++ B).count REVERSE) =
      count_vote s ((A ++ B).count FORWARD, (A ++ B).count REVERSE) := by
  cases s
  · simp [count_vote, List.count_append]
    omega
  · simp [count_vote, List.count_append]
    omega

/-- A group with an unambiguous strand that is added to `split_read1_list` adds
its vote to the counters of `predict_fusion_strands`. -/
theorem strand1_votes_push1 (E : externals) (f : fusion_t) (g : mates_t)
    (h : (g.at E.SPLIT_READ).predicted_strand_ambiguous = false) :
    strand1_votes E { f with split_read1_list := f.split_read1_list ++ [g] } =
      count_vote (g.at E.SPLIT_READ).predicted_strand (strand1_votes E f) := by
  have hv : split_read_vote E.SPLIT_READ g = some (g.at E.SPLIT_READ).predicted_strand := by
    unfold split_read_vote
    rw [if_pos h]
  have hl : strand1_vote_list E { f with split_read1_list := f.split_read1_list ++ [g] } =
      f.split_read1_list.filterMap (split_read_vote E.SPLIT_READ) ++
        [(g.at E.SPLIT_READ).predicted_strand] ++
        (f.split_read2_list.filterMap (split_read_vote E.SUPPLEMENTARY) ++
          f.discordant_mate_list.filterMap (discordant_mate_vote E f)) := by
    unfold strand1_vote_list
    dsimp only
    rw [List.filterMap_append, List.filterMap_cons, hv, List.filterMap_nil, List.append_assoc,
      List.append_assoc, List.append_assoc]
    rfl
  have hl0 : strand1_vote_list E f =
      f.split_read1_list.filterMap (split_read_vote E.SPLIT_READ) ++
        (f.split_read2_list.filterMap (split_read_vote E.SUPPLEMENTARY) ++
          f.discordant_mate_list.filterMap (discordant_mate_vote E f)) := by
    unfold strand1_vote_list
    rw [List.append_assoc]
  rw [strand1_votes_count, strand1_votes_count, hl, hl0]
  exact count_vote_counts _ _ _

/-- A group with an unambiguous strand that is added to `split_read2_list` adds
its vote to the counters of `predict_fusion_strands`. -/
theorem strand1_votes_push2 (E : externals) (f : fusion_t) (g : mates_t)
    (h : (g.at E.SUPPLEMENTARY).predicted_strand_ambiguous = false) :
    strand1_votes E { f with split_read2_list := f.split_read2_list ++ [g] } =
      count_vote (g.at E.SUPPLEMENTARY).predicted_strand (strand1_votes E f) := by
  have hv : split_read_vote E.SUPPLEMENTARY g =
      some (g.at E.SUPPLEMENTARY).predicted_strand := by
    unfold split_read_vote
    rw [if_pos h]
  have hl : strand1_vote_list E { f with split_read2_list := f.split_read2_list ++ [g] } =
      (f.split_read1_list.filterMap (split_read_vote E.SPLIT_READ) ++
          f.split_read2_list.filterMap (split_read_vote E.SUPPLEMENTARY)) ++
        [(g.at E.SUPPLEMENTARY).predicted_strand] ++
        f.discordant_mate_list.filterMap (discordant_mate_vote E f) := by
    unfold strand1_vote_list
    dsimp only
    rw [List.filterMap_append, List.filterMap_cons, hv, List.filterMap_nil]
    simp only [List.append_assoc]
    rfl
  rw [strand1_votes_count, strand1_votes_count, hl]
  exact count_vote_counts _ _ _

/-- C15 (as amended): in `predict_fusion_strands` a group of `split_read1_list`
(`split_read2_list`) votes exactly if the predicted strand of its SPLIT_READ
(SUPPLEMENTARY) alignment is not ambiguous, and then with that strand, whether
its filter is null or not: the loops of lines 22-40 add to the two counters
the numbers of the groups with an unambiguous forward and reverse strand, and
a group with an unambiguous strand that is added to one of the two lists adds
its vote to the counters that decide the prediction, whatever its filter. The
filters of the split reads are not read: giving the groups of the two lists
other filters changes none of `predicted_strands_ambiguous`,
`predicted_strand1`, `predicted_strand2`; and adding or removing a split read
with an ambiguous strand changes none of them either. -/
theorem C15_split_read_votes (E : externals) (f : fusion_t) :
    ((∀ (role : Nat) (l : List mates_t) (c : Nat × Nat),
          split_read_votes role l c =
            (c.1 + l.countP (fun g =>
                decide ((g.at role).predicted_strand_ambiguous = false ∧
                  (g.at role).predicted_strand = FORWARD)),
              c.2 + l.countP (fun g =>
                decide ((g.at role).predicted_strand_ambiguous = false ∧
                  (g.at role).predicted_strand = REVERSE)))) ∧
        (∀ g : mates_t, (g.at E.SPLIT_READ).predicted_strand_ambiguous = false →
          strand1_votes E { f with split_read1_list := f.split_read1_list ++ [g] } =
            count_vote (g.at E.SPLIT_READ).predicted_strand (strand1_votes E f)) ∧
        (∀ g : mates_t, (g.at E.SUPPLEMENTARY).predicted_strand_ambiguous = false →
          strand1_votes E { f with split_read2_list := f.split_read2_list ++ [g] } =
            count_vote (g.at E.SUPPLEMENTARY).predicted_strand (strand1_votes E f))) ∧
      (∀ refilter : mates_t → filter_t,
        (predict_fusion_strands E
            { f with
              split_read1_list :=
                f.split_read1_list.map (fun g => { g with filter := refilter g })
              split_read2_list :=
                f.split_read2_list.map
                  (fun g => { g with filter := refilter g }) }).predicted_strands_ambiguous =
            (predict_fusion_strands E f).predicted_strands_ambiguous ∧
          (predict_fusion_strands E
            { f with
              split_read1_list :=
                f.split_read1_list.map (fun g => { g with filter := refilter g })
              split_read2_list :=
                f.split_read2_list.map
                  (fun g => { g with filter := refilter g }) }).predicted_strand1 =
            (predict_fusion_strands E f).predicted_strand1 ∧
          (predict_fusion_strands E
            { f with
              split_read1_list :=
                f.split_read1_list.map (fun g => { g with filter := refilter g })
              split_read2_list :=
                f.split_read2_list.map
                  (fun g => { g with filter := refilter g }) }).predicted_strand2 =
            (predict_fusion_strands E f).predicted_strand2) ∧
      (∀ g : mates_t, (g.at E.SPLIT_READ).predicted_strand_ambiguous = true →
        (predict_fusion_strands E
            { f with split_read1_list := g :: f.split_read1_list }).predicted_strands_ambiguous =
            (predict_fusion_strands E f).predicted_strands_ambiguous ∧
          (predict_fusion_strands E
            { f with split_read1_list := g :: f.split_read1_list }).predicted_strand1 =
            (predict_fusion_strands E f).predicted_strand1 ∧
          (predict_fusion_strands E
            { f with split_read1_list := g :: f.split_read1_list }).predicted_strand2 =
            (predict_fusion_strands E f).predicted_strand2) ∧
      (∀ g : mates_t, (g.at E.SUPPLEMENTARY).predicted_strand_ambiguous = true →
        (predict_fusion_strands E
            { f with split_read2_list := g :: f.split_read2_list }).predicted_strands_ambiguous =
            (predict_fusion_strands E f).predicted_strands_ambiguous ∧
          (predict_fusion_strands E
            { f with split_read2_list := g :: f.split_read2_list }).predicted_strand1 =
            (predict_fusion_strands E f).predicted_strand1 ∧
          (predict_fusion_strands E
            { f with split_read2_list := g :: f.split_read2_list }).predicted_strand2 =
            (predict_fusion_strands E f).predicted_strand2) := by
  refine ⟨⟨split_read_votes_tally, strand1_votes_push1 E f, strand1_votes_push2 E f⟩,
    ?_, ?_, ?_⟩
  · intro refilter
    apply predict_fusion_strands_congr
    · unfold strand1_vote_list
      dsimp only
      rw [filterMap_split_read_vote_refilter, filterMap_split_read_vote_refilter]
      rfl
    all_goals rfl
  · intro g hg
    apply predict_fusion_strands_congr
    · unfold strand1_vote_list
      dsimp only
      rw [List.filterMap_cons]
      have : split_read_vote E.SPLIT_READ g = none := by
        unfold split_read_vote
        rw [if_neg (by simp [hg])]
      rw [this]
      rfl
    all_goals rfl
  · intro g hg
    apply predict_fusion_strands_congr
    · unfold strand1_vote_list
      dsimp only
      rw [List.filterMap_cons]
      have : split_read_vote E.SUPPLEMENTARY g = none := by
        unfold split_read_vote
        rw [if_neg (by simp [hg])]
      rw [this]
      rfl
    all_goals rfl

/-- C15 as stated fails: the fusion made by the filtered split read
`sample_sr_filtered` has this group, and nothing else, in `split_read1_list`;
the group votes, the strands are predicted, and without the group they are
ambiguous. -/
theorem C15_counterexample :
    sample_sr_filtered.filter ≠ none ∧
      (first_fusion (find_fusions E0 [sample_sr_filtered] [] 1000)).2.split_read1_list =
        [sample_sr_filtered] ∧
      (first_fusion (find_fusions E0 [sample_sr_filtered] [] 1000)).2.split_read2_list = [] ∧
      (first_fusion (find_fusions E0 [sample_sr_filtered] [] 1000)).2.discordant_mate_list =
        [] ∧
      strand1_votes E0 (first_fusion (find_fusions E0 [sample_sr_filtered] [] 1000)).2 =
        (1, 0) ∧
      (predict_fusion_strands E0
        (first_fusion
          (find_fusions E0 [sample_sr_filtered] [] 1000)).2).predicted_strands_ambiguous =
        false ∧
      (predict_fusion_strands E0
        { (first_fusion (find_fusions E0 [sample_sr_filtered] [] 1000)).2 with
          split_read1_list := [] }).predicted_strands_ambiguous = true := by
  decide

/-- The statement of C15 at a split read with an ambiguous strand and at a
filtered split read with the unambiguous strand FORWARD, each added to the
fusion `sample_fusion`: the first one changes nothing, the second one brings
the counters from (1, 0) to (2, 0). -/
theorem C15_split_read_votes_witness :
    (sample_sr_ambiguous.at E0.SPLIT_READ).predicted_strand_ambiguous = true ∧
      (predict_fusion_strands E0
          { sample_fusion with
            split_read1_list :=
              sample_sr_ambiguous :: sample_fusion.split_read1_list }).predicted_strand1 =
        (predict_fusion_strands E0 sample_fusion).predicted_strand1 ∧
      sample_sr_filtered.filter ≠ none ∧
      (sample_sr_filtered.at E0.SPLIT_READ).predicted_strand_ambiguous = false ∧
      strand1_votes E0
          { sample_fusion with
            split_read1_list := sample_fusion.split_read1_list ++ [sample_sr_filtered] } =
        count_vote (sample_sr_filtered.at E0.SPLIT_READ).predicted_strand
          (strand1_votes E0 sample_fusion) ∧
      strand1_votes E0 sample_fusion = (1, 0) ∧
      count_vote (sample_sr_filtered.at E0.SPLIT_READ).predicted_strand
          (strand1_votes E0 sample_fusion) = (2, 0) :=
  ⟨by decide,
    ((C15_split_read_votes E0 sample_fusion).2.2.1 sample_sr_ambiguous (by decide)).2.1,
    by decide, by decide,
    (C15_split_read_votes E0 sample_fusion).1.2.1 sample_sr_filtered (by decide),
    by decide, by decide⟩

/-! ## C17: the filter of a fusion in the second pass -/

/-- C17 (as amended): when a discordant-mate group with a filter is attached to
a fusion without filter, the group is appended to `discordant_mate_list`,
`discordant_mates` is not incremented and the filter of the fusion stays null:
line 395 assigns the filter of the group only to a fusion that has a filter
already, and line 367 keeps such fusions out of the loop. The second pass
changes the filter of no fusion, and `find_fusions` leaves every fusion with
the filter that the aggregation gave it. -/
theorem C17_second_pass_keeps_filter (E : externals)
    (chimeric_alignments : chimeric_alignments_t) (fusions : fusions_t) (max_mate_gap : Int) :
    (∀ (f : fusion_t) (dm : mates_t) (m1 m2 : alignment_t), f.filter = none →
        dm.filter ≠ none →
        (attach_discordant_mate f dm m1 m2).filter = none ∧
          (attach_discordant_mate f dm m1 m2).discordant_mates = f.discordant_mates ∧
          (attach_discordant_mate f dm m1 m2).discordant_mate_list =
            f.discordant_mate_list ++ [dm]) ∧
      (∀ (idx : discordant_mates_by_gene_pair_t) (f : fusion_t),
        (count_discordant_mates E max_mate_gap idx f).1.filter = f.filter) ∧
      (find_fusions E chimeric_alignments fusions max_mate_gap).fusions.map
          (fun kf => (kf.1, kf.2.filter)) =
        (aggregate E chimeric_alignments fusions).fusions.map
          (fun kf => (kf.1, kf.2.filter)) := by
  refine ⟨?_, ?_, ?_⟩
  · intro f dm m1 m2 hf hdm
    refine ⟨attach_discordant_mate_filter f dm m1 m2 hf, ?_,
      attach_discordant_mate_list f dm m1 m2⟩
    rw [attach_discordant_mate_count, if_neg hdm]
    rfl
  · intro idx f
    exact count_discordant_mates_filter E max_mate_gap idx f
  · rw [find_fusions_fusions, List.map_map]
    apply List.map_congr_left
    intro kf _
    simp only [Function.comp, finish_fusion_filter]

/-- C17 as stated fails: the filtered group `sample_dm_filtered` is attached to
the fusion of the split read `sample_sr`, which has no filter, and the fusion
keeps the null filter; it is counted as remaining. -/
theorem C17_counterexample :
    sample_dm_filtered.filter = some "mismatches" ∧
      (first_fusion
        (find_fusions E0 [sample_sr, sample_dm_filtered] [] 1000)).2.discordant_mate_list =
        [sample_dm_filtered] ∧
      (first_fusion (find_fusions E0 [sample_sr, sample_dm_filtered] [] 1000)).2.filter =
        none ∧
      (first_fusion
        (find_fusions E0 [sample_sr, sample_dm_filtered] [] 1000)).2.discordant_mates = 0 ∧
      (find_fusions E0 [sample_sr, sample_dm_filtered] [] 1000).remaining = 1 := by
  decide

/-- The statement of C17 at the fusion `sample_fusion` and the group
`sample_dm_filtered`. -/
theorem C17_second_pass_keeps_filter_witness :
    sample_fusion.filter = none ∧ sample_dm_filtered.filter ≠ none ∧
      (attach_discordant_mate sample_fusion sample_dm_filtered
        (reorder_mates E0 sample_dm_filtered).1
        (reorder_mates E0 sample_dm_filtered).2).filter = none :=
  ⟨by decide, by decide,
    ((C17_second_pass_keeps_filter E0 [] [] 0).1 sample_fusion sample_dm_filtered _ _
      (by decide) (by decide)).1⟩

/-! ## C20: groups of another size -/

theorem aggregate_group_ignored (E : externals) (st : aggregation_t) (g : mates_t)
    (h : ¬(g.size = 2 ∨ g.size = 3)) : aggregate_group E st g = st := by
  unfold aggregate_group
  rw [if_neg (fun h3 => h (Or.inr h3)), if_neg (fun h2 => h (Or.inl h2))]

theorem foldl_aggregate_group_filter (E : externals) (l : chimeric_alignments_t)
    (st : aggregation_t) :
    (l.filter (fun g => decide (g.size = 2 ∨ g.size = 3))).foldl (aggregate_group E) st =
      l.foldl (aggregate_group E) st := by
  induction l generalizing st with
  | nil => rfl
  | cons g rest ih =>
    by_cases h : g.size = 2 ∨ g.size = 3
    · rw [List.filter_cons_of_pos (by simpa using h), List.foldl_cons, List.foldl_cons, ih]
    · rw [List.filter_cons_of_neg (by simpa using h), List.foldl_cons,
        aggregate_group_ignored E st g h, ih]

/-- C20: `find_fusions` ignores the groups whose size is neither 2 nor 3: on
every input and every fusion map it leaves the same map, returns the same value
and writes the same to `cerr` as on the input without these groups. (The
embedding of `find_fusions` is a total function: a result is produced for
every input.) -/
theorem C20_other_sizes_ignored (E : externals) (chimeric_alignments : chimeric_alignments_t)
    (fusions : fusions_t) (max_mate_gap : Int) :
    find_fusions E chimeric_alignments fusions max_mate_gap =
      find_fusions E
        (chimeric_alignments.filter (fun g => decide (g.size = 2 ∨ g.size = 3))) fusions
        max_mate_gap := by
  unfold find_fusions aggregate
  rw [foldl_aggregate_group_filter]

/-! ## The evidence lists and counters of a fusion -/

/-- Lines 273-282: a split read goes to the second list and counter of the
fusion if its sides were swapped and to the first ones otherwise, and it is
counted if it has no filter; the discordant mates are left alone. -/
theorem split_read_fusion_lists (v : locals) (g1 g2 : gene_t) (o1 o2 : Bool) (g : mates_t)
    (f : fusion_t) :
    (split_read_fusion v g1 g2 o1 o2 g f).split_read1_list =
        (if v.swapped = true then f.split_read1_list else f.split_read1_list ++ [g]) ∧
      (split_read_fusion v g1 g2 o1 o2 g f).split_read2_list =
        (if v.swapped = true then f.split_read2_list ++ [g] else f.split_read2_list) ∧
      (split_read_fusion v g1 g2 o1 o2 g f).split_reads1 =
        (if v.swapped = true then f.split_reads1
          else f.split_reads1 + (if g.filter = none then 1 else 0)) ∧
      (split_read_fusion v g1 g2 o1 o2 g f).split_reads2 =
        (if v.swapped = true then f.split_reads2 + (if g.filter = none then 1 else 0)
          else f.split_reads2) ∧
      (split_read_fusion v g1 g2 o1 o2 g f).discordant_mates = f.discordant_mates ∧
      (split_read_fusion v g1 g2 o1 o2 g f).discordant_mate_list = f.discordant_mate_list := by
  unfold split_read_fusion
  dsimp only
  split_ifs <;>
  · rw [expand_anchor_eq]
    simp [copy_properties]

theorem discordant_mate_fusion_lists (v : locals) (g1 g2 : gene_t) (o1 o2 : Bool)
    (g : mates_t) (b : Bool) (f : fusion_t) :
    (discordant_mate_fusion v g1 g2 o1 o2 g b f).split_read1_list = f.split_read1_list ∧
      (discordant_mate_fusion v g1 g2 o1 o2 g b f).split_read2_list = f.split_read2_list ∧
      (discordant_mate_fusion v g1 g2 o1 o2 g b f).split_reads1 = f.split_reads1 ∧
      (discordant_mate_fusion v g1 g2 o1 o2 g b f).split_reads2 = f.split_reads2 ∧
      (discordant_mate_fusion v g1 g2 o1 o2 g b f).discordant_mates = f.discordant_mates ∧
      (discordant_mate_fusion v g1 g2 o1 o2 g b f).discordant_mate_list =
        f.discordant_mate_list := by
  obtain ⟨fl, a1, a2, h⟩ := discordant_mate_fusion_frame v g1 g2 o1 o2 g b f
  rw [h]
  exact ⟨rfl, rfl, rfl, rfl, rfl, rfl⟩

/-- Line 248-253: the first split read of a fusion gives it its filter. -/
theorem split_read_fusion_filter_init (v : locals) (g1 g2 : gene_t) (o1 o2 : Bool)
    (g : mates_t) :
    (split_read_fusion v g1 g2 o1 o2 g fusion_t.init).filter = g.filter := by
  unfold split_read_fusion
  dsimp only
  split_ifs <;> rw [expand_anchor_eq] <;> simp_all [copy_properties, fusion_t.init]

/-! ## C19: one split read, both genes forward -/

/-- With unambiguous strands `predict_transcript_start` leaves the three strand
fields as they are. -/
theorem predict_transcript_start_strands (E : externals) (f : fusion_t)
    (h : f.predicted_strands_ambiguous = false) :
    (predict_transcript_start E f).predicted_strands_ambiguous = false ∧
      (predict_transcript_start E f).predicted_strand1 = f.predicted_strand1 ∧
      (predict_transcript_start E f).predicted_strand2 = f.predicted_strand2 := by
  obtain ⟨t, a, hc⟩ :=
    transcript_start_cascade_frame E { f with transcript_start_ambiguous := false }
  unfold predict_transcript_start
  rw [hc]
  unfold transcript_start_default backfill_strands
  split_ifs <;> simp_all

/-- The fusion map after the aggregation of a single split read with one gene
on each side. -/
theorem aggregate_single_split_read (E : externals) (g : mates_t) (ga gb : gene_t)
    (hsize : g.size = 3) (hg1 : (group_locals E g).genes1 = [ga])
    (hg2 : (group_locals E g).genes2 = [gb]) :
    aggregate E [g] [] =
      ⟨[(make_key (group_locals E g) ga gb,
          split_read_fusion (group_locals E g) ga gb false false g fusion_t.init)], []⟩ := by
  have hv : group_locals E g = canonicalize (split_read_locals E g) := by
    unfold group_locals
    rw [if_pos hsize]
  have hagg : aggregate E [g] [] = aggregate_group E ⟨[], []⟩ g := rfl
  rw [hagg]
  unfold aggregate_group
  rw [if_pos hsize]
  dsimp only
  rw [← hv, hg1]
  simp only [split_read_gene1_loop, split_read_gene2_loop, hg2, fusions_at]

/-- C19: on the input that consists of one unfiltered split read with one gene on
each side, gene 1 on the forward strand, with the canonical direction
DOWNSTREAM at breakpoint 1 and with the unambiguous predicted read strand
FORWARD, `find_fusions` leaves exactly one fusion; its strands are not
ambiguous, `predicted_strand1` is FORWARD, its transcript start is not
ambiguous and is GENE1; and `find_fusions` returns 1. The strand of gene 2
and the direction at breakpoint 2 are not needed for this outcome, so the
scenario with both genes forward and the directions DOWNSTREAM and UPSTREAM
is an instance. -/
theorem C19_scenario_a (E : externals) (g : mates_t) (ga gb : gene_t) (max_mate_gap : Int)
    (hsize : g.size = 3) (hfl : g.filter = none)
    (hg1 : (group_locals E g).genes1 = [ga]) (hg2 : (group_locals E g).genes2 = [gb])
    (hsa : ga.strand = FORWARD)
    (hd1 : (group_locals E g).direction1 = DOWNSTREAM)
    (hp1 : (g.at E.SPLIT_READ).predicted_strand_ambiguous = false ∧
      (g.at E.SPLIT_READ).predicted_strand = FORWARD)
    (hp2 : (g.at E.SUPPLEMENTARY).predicted_strand_ambiguous = false ∧
      (g.at E.SUPPLEMENTARY).predicted_strand = FORWARD) :
    ∃ f, (find_fusions E [g] [] max_mate_gap).fusions =
        [(make_key (group_locals E g) ga gb, f)] ∧
      f.predicted_strands_ambiguous = false ∧ f.predicted_strand1 = FORWARD ∧
      f.transcript_start_ambiguous = false ∧ f.transcript_start = TRANSCRIPT_START_GENE1 ∧
      (find_fusions E [g] [] max_mate_gap).remaining = 1 := by
  have hagg := aggregate_single_split_read E g ga gb hsize hg1 hg2
  generalize hF : split_read_fusion (group_locals E g) ga gb false false g fusion_t.init = F
    at hagg
  have hfusions := find_fusions_fusions E [g] [] max_mate_gap
  rw [hagg] at hfusions
  simp only [List.map_cons, List.map_nil] at hfusions
  -- the fusion after the aggregation
  have hlists := split_read_fusion_lists (group_locals E g) ga gb false false g fusion_t.init
  have hfilter := split_read_fusion_filter_init (group_locals E g) ga gb false false g
  have hkey := split_read_fusion_key (group_locals E g) ga gb false false g fusion_t.init
  rw [hF] at hlists hfilter hkey
  rw [hfl] at hfilter
  simp only [fusion_t.key, make_key, fusion_key_t.mk.injEq] at hkey
  obtain ⟨k1, -, -, -, -, -, k7, k8⟩ := hkey
  obtain ⟨l1, l2, -, -, -, l6⟩ := hlists
  -- the second pass finds no discordant mates
  have hcount : count_discordant_mates E max_mate_gap [] F = (F, false) := by
    unfold count_discordant_mates
    rw [if_neg (by simp [hfilter])]
    rfl
  -- the votes
  have hvotes : strand1_vote_list E F = [FORWARD] := by
    unfold strand1_vote_list
    rw [l1, l2, l6]
    by_cases hsw : (group_locals E g).swapped = true
    · simp [hsw, split_read_vote, hp2, fusion_t.init]
    · simp [hsw, split_read_vote, hp1, fusion_t.init]
  have hpfs : (predict_fusion_strands E F).predicted_strands_ambiguous = false ∧
      (predict_fusion_strands E F).predicted_strand1 = FORWARD := by
    unfold predict_fusion_strands
    simp [strand1_votes_count, hvotes]
  obtain ⟨a, s1, s2, hpf⟩ := predict_fusion_strands_frame E F
  obtain ⟨p1, p2, hsp⟩ := splice_site_check_frame E (predict_fusion_strands E F)
  have hS1 : (splice_site_check E (predict_fusion_strands E F)).predicted_strands_ambiguous =
      false := by
    rw [hsp]
    exact hpfs.1
  have hS2 : (splice_site_check E (predict_fusion_strands E F)).predicted_strand1 = FORWARD := by
    rw [hsp]
    exact hpfs.2
  have hS3 : (splice_site_check E (predict_fusion_strands E F)).gene1 = ga := by
    rw [hsp, hpf]
    exact k1
  have hS4 : (splice_site_check E (predict_fusion_strands E F)).direction1 = DOWNSTREAM := by
    rw [hsp, hpf]
    exact k7.trans hd1
  have hb := predict_transcript_start_branch1 E
    (splice_site_check E (predict_fusion_strands E F))
    (Or.inr ⟨hS1, by rw [hS2, hS3, hsa]⟩)
  have hst := predict_transcript_start_strands E
    (splice_site_check E (predict_fusion_strands E F)) hS1
  rw [hS3, hS4, hsa, if_pos (Or.inl ⟨rfl, rfl⟩)] at hb
  have hfin : finish_fusion E max_mate_gap [] F =
      predict_transcript_start E (splice_site_check E (predict_fusion_strands E F)) := by
    unfold finish_fusion
    rw [hcount]
    rfl
  refine ⟨finish_fusion E max_mate_gap [] F, hfusions, ?_, ?_, ?_, ?_, ?_⟩
  · rw [hfin]
    exact hst.1
  · rw [hfin, hst.2.1]
    exact hS2
  · rw [hfin]
    exact hb.1
  · rw [hfin]
    exact hb.2
  · have hrem : (find_fusions E [g] [] max_mate_gap).remaining =
        ((find_fusions E [g] [] max_mate_gap).fusions.filter
          (fun kf => decide (kf.2.filter = none))).length := by
      unfold find_fusions
      exact predict_all_snd E _
    rw [hrem, hfusions]
    simp [finish_fusion_filter, hfilter]

/-- The statement of C19 at the split read `sample_sr`, whose genes are both on
the forward strand and whose directions are DOWNSTREAM and UPSTREAM. -/
theorem C19_scenario_a_witness :
    sample_sr.size = 3 ∧ sample_sr.filter = none ∧
      (group_locals E0 sample_sr).genes1 = [gene_a] ∧
      (group_locals E0 sample_sr).genes2 = [gene_b] ∧
      gene_a.strand = FORWARD ∧ gene_b.strand = FORWARD ∧
      (group_locals E0 sample_sr).direction1 = DOWNSTREAM ∧
      (group_locals E0 sample_sr).direction2 = UPSTREAM ∧
      ∃ f, (find_fusions E0 [sample_sr] [] 1000).fusions =
          [(make_key (group_locals E0 sample_sr) gene_a gene_b, f)] ∧
        f.predicted_strands_ambiguous = false ∧ f.predicted_strand1 = FORWARD ∧
        f.transcript_start_ambiguous = false ∧ f.transcript_start = TRANSCRIPT_START_GENE1 ∧
        (find_fusions E0 [sample_sr] [] 1000).remaining = 1 :=
  ⟨by decide, by decide, by decide, by decide, rfl, rfl, by decide, by decide,
    C19_scenario_a E0 sample_sr gene_a gene_b 1000 (by decide) (by decide) (by decide)
      (by decide) rfl (by decide) (by decide) (by decide)⟩

/-! ## C18: the counters and the evidence lists -/

theorem unfiltered_groups_append (l : List mates_t) (g : mates_t) :
    unfiltered_groups (l ++ [g]) = unfiltered_groups l + (if g.filter = none then 1 else 0) := by
  unfold unfiltered_groups
  rw [List.countP_append, List.countP_singleton]
  simp only [decide_eq_true_eq]

theorem counters_consistent_init (E : externals) : counters_consistent E fusion_t.init :=
  ⟨rfl, rfl, rfl, fun _ h => absurd h (List.not_mem_nil _),
    fun _ h => absurd h (List.not_mem_nil _)⟩

theorem split_read_fusion_consistent (E : externals) (g : mates_t) (g1 g2 : gene_t)
    (o1 o2 : Bool) (f : fusion_t) (h : counters_consistent E f) :
    counters_consistent E
      (split_read_fusion (canonicalize (split_read_locals E g)) g1 g2 o1 o2 g f) := by
  obtain ⟨l1, l2, c1, c2, c3, l3⟩ :=
    split_read_fusion_lists (canonicalize (split_read_locals E g)) g1 g2 o1 o2 g f
  obtain ⟨h1, h2, h3, h4, h5⟩ := h
  unfold counters_consistent
  rw [l1, l2, c1, c2, c3, l3]
  by_cases hsw : (canonicalize (split_read_locals E g)).swapped = true
  · simp only [hsw, if_true]
    refine ⟨h1, ?_, h3, h4, ?_⟩
    · rw [unfiltered_groups_append, h2]
    · intro x hx
      rcases List.mem_append.mp hx with hx | hx
      · exact h5 x hx
      · rw [List.mem_singleton.mp hx]
        exact hsw
  · rw [Bool.not_eq_true] at hsw
    simp only [hsw, Bool.false_eq_true, if_false]
    refine ⟨?_, h2, h3, ?_, h5⟩
    · rw [unfiltered_groups_append, h1]
    · intro x hx
      rcases List.mem_append.mp hx with hx | hx
      · exact h4 x hx
      · rw [List.mem_singleton.mp hx]
        exact hsw

theorem discordant_mate_fusion_consistent (E : externals) (v : locals) (g : mates_t)
    (g1 g2 : gene_t) (o1 o2 b : Bool) (f : fusion_t) (h : counters_consistent E f) :
    counters_consistent E (discordant_mate_fusion v g1 g2 o1 o2 g b f) := by
  obtain ⟨l1, l2, c1, c2, c3, l3⟩ := discordant_mate_fusion_lists v g1 g2 o1 o2 g b f
  unfold counters_consistent
  rw [l1, l2, c1, c2, c3, l3]
  exact h

theorem attach_discordant_mate_split_reads (f : fusion_t) (dm : mates_t) (m1 m2 : alignment_t) :
    (attach_discordant_mate f dm m1 m2).split_reads1 = f.split_reads1 ∧
      (attach_discordant_mate f dm m1 m2).split_reads2 = f.split_reads2 ∧
      (attach_discordant_mate f dm m1 m2).split_read1_list = f.split_read1_list ∧
      (attach_discordant_mate f dm m1 m2).split_read2_list = f.split_read2_list := by
  obtain ⟨l, n, fl, a, b, h⟩ := attach_discordant_mate_frame f dm m1 m2
  rw [h]
  exact ⟨rfl, rfl, rfl, rfl⟩

theorem attach_discordant_mate_counters (E : externals) (f : fusion_t) (dm : mates_t)
    (m1 m2 : alignment_t) (h : counters_consistent E f) :
    counters_consistent E (attach_discordant_mate f dm m1 m2) := by
  obtain ⟨s1, s2, l1, l2⟩ := attach_discordant_mate_split_reads f dm m1 m2
  unfold counters_consistent
  rw [s1, s2, l1, l2, attach_discordant_mate_list, attach_discordant_mate_count,
    unfiltered_groups_append, ← h.2.2.1]
  exact ⟨h.1, h.2.1, rfl, h.2.2.2⟩

theorem scan_discordant_mates_counters (E : externals) (max_mate_gap : Int) (l : List mates_t)
    (f : fusion_t) (h : counters_consistent E f) :
    counters_consistent E (scan_discordant_mates E max_mate_gap l f).1 := by
  induction l generalizing f with
  | nil => exact h
  | cons dm rest ih =>
    unfold scan_discordant_mates
    dsimp only
    have h1 :=
      attach_discordant_mate_counters E f dm (reorder_mates E dm).1 (reorder_mates E dm).2 h
    split_ifs
    · exact h1
    · exact ih _ h1
    · exact ih f h

theorem count_discordant_mates_counters (E : externals) (max_mate_gap : Int)
    (idx : discordant_mates_by_gene_pair_t) (f : fusion_t) (h : counters_consistent E f) :
    counters_consistent E (count_discordant_mates E max_mate_gap idx f).1 := by
  unfold count_discordant_mates
  split_ifs
  · exact h
  · split
    · exact h
    · exact scan_discordant_mates_counters E max_mate_gap _ f h

theorem predict_fusion_counters (E : externals) (f : fusion_t) (h : counters_consistent E f) :
    counters_consistent E (predict_fusion E f) := by
  obtain ⟨t, ta, sa, s1, s2, p1, p2, hp⟩ := predict_fusion_frame E f
  rw [hp]
  exact h

theorem finish_fusion_counters (E : externals) (max_mate_gap : Int)
    (idx : discordant_mates_by_gene_pair_t) (f : fusion_t) (h : counters_consistent E f) :
    counters_consistent E (finish_fusion E max_mate_gap idx f) := by
  unfold finish_fusion
  exact predict_fusion_counters E _ (count_discordant_mates_counters E max_mate_gap idx f h)

/-- C18: after `find_fusions` every fusion has `split_reads1`, `split_reads2` and
`discordant_mates` equal to the number of the groups without filter in
`split_read1_list`, `split_read2_list` and `discordant_mate_list`, provided
the fusions passed in had (the empty collection has); a split read is
appended to `split_read2_list` exactly when the canonicalization swapped its
sides and to `split_read1_list` otherwise, so the groups of the first list are
the ones that were not swapped and those of the second list the swapped
ones. -/
theorem C18_counters_match_lists (E : externals) (chimeric_alignments : chimeric_alignments_t)
    (fusions : fusions_t) (max_mate_gap : Int)
    (h : ∀ kf ∈ fusions, counters_consistent E kf.2) :
    (∀ kf ∈ (find_fusions E chimeric_alignments fusions max_mate_gap).fusions,
      kf.2.split_reads1 = unfiltered_groups kf.2.split_read1_list ∧
        kf.2.split_reads2 = unfiltered_groups kf.2.split_read2_list ∧
        kf.2.discordant_mates = unfiltered_groups kf.2.discordant_mate_list ∧
        (∀ g ∈ kf.2.split_read1_list, (canonicalize (split_read_locals E g)).swapped = false) ∧
        (∀ g ∈ kf.2.split_read2_list, (canonicalize (split_read_locals E g)).swapped = true)) ∧
      ∀ (v : locals) (g1 g2 : gene_t) (o1 o2 : Bool) (g : mates_t) (f : fusion_t),
        (split_read_fusion v g1 g2 o1 o2 g f).split_read1_list =
            (if v.swapped = true then f.split_read1_list else f.split_read1_list ++ [g]) ∧
          (split_read_fusion v g1 g2 o1 o2 g f).split_read2_list =
            (if v.swapped = true then f.split_read2_list ++ [g] else f.split_read2_list) := by
  refine ⟨?_, fun v g1 g2 o1 o2 g f =>
    ⟨(split_read_fusion_lists v g1 g2 o1 o2 g f).1,
      (split_read_fusion_lists v g1 g2 o1 o2 g f).2.1⟩⟩
  intro kf hkf
  rw [find_fusions_fusions] at hkf
  obtain ⟨kf0, hkf0, rfl⟩ := List.mem_map.mp hkf
  have hagg : ∀ kf ∈ (aggregate E chimeric_alignments fusions).fusions,
      counters_consistent E kf.2 := by
    apply aggregate_forall E (P := fun _ f => counters_consistent E f)
    · intro g g1 g2 o1 o2 f hf
      apply split_read_fusion_consistent
      rcases hf with rfl | hf
      · exact counters_consistent_init E
      · exact hf
    · intro g g1 g2 o1 o2 b f hf
      apply discordant_mate_fusion_consistent
      rcases hf with rfl | hf
      · exact counters_consistent_init E
      · exact hf
    · exact h
  exact finish_fusion_counters E max_mate_gap _ kf0.2 (hagg kf0 hkf0)

/-- The statement of C18 at three split reads, one of them filtered and one
swapped, and a pair of discordant mates: the split reads form one fusion whose
lists hold 2, 1 and 1 groups and whose counters are 1, 1 and 1, the
discordant mates a second one. -/
theorem C18_counters_match_lists_witness :
    (∀ kf ∈ ([] : fusions_t), counters_consistent E0 kf.2) ∧
      (find_fusions E0 sample_counter_input [] 1000).fusions.map
          (fun kf => (kf.2.split_read1_list, kf.2.split_read2_list, kf.2.discordant_mate_list)) =
        [([sample_sr, sample_sr_filtered], [sample_sr_swapped], [sample_dm_wide]),
          ([], [], [sample_dm_wide])] ∧
      (find_fusions E0 sample_counter_input [] 1000).fusions.map
          (fun kf => (kf.2.split_reads1, kf.2.split_reads2, kf.2.discordant_mates)) =
        [(1, 1, 1), (0, 0, 1)] ∧
      ∀ kf ∈ (find_fusions E0 sample_counter_input [] 1000).fusions,
        kf.2.split_reads1 = unfiltered_groups kf.2.split_read1_list ∧
          kf.2.split_reads2 = unfiltered_groups kf.2.split_read2_list ∧
          kf.2.discordant_mates = unfiltered_groups kf.2.discordant_mate_list ∧
          (∀ g ∈ kf.2.split_read1_list,
            (canonicalize (split_read_locals E0 g)).swapped = false) ∧
          (∀ g ∈ kf.2.split_read2_list,
            (canonicalize (split_read_locals E0 g)).swapped = true) :=
  ⟨fun _ h => absurd h (List.not_mem_nil _), by decide, by decide,
    (C18_counters_match_lists E0 sample_counter_input [] 1000
      (fun _ h => absurd h (List.not_mem_nil _))).1⟩

/-! ## C22: the splice flags and the transcript start -/

theorem set_splice_flags_self (f : fusion_t) : set_splice_flags f.spliced1 f.spliced2 f = f :=
  rfl

theorem start_from_gene1_splice_flags (a b : Bool) (f : fusion_t) :
    start_from_gene1 (set_splice_flags a b f) = set_splice_flags a b (start_from_gene1 f) := by
  unfold start_from_gene1 set_splice_flags
  dsimp only
  split_ifs <;> rfl

theorem start_from_gene2_splice_flags (a b : Bool) (f : fusion_t) :
    start_from_gene2 (set_splice_flags a b f) = set_splice_flags a b (start_from_gene2 f) := by
  unfold start_from_gene2 set_splice_flags
  dsimp only
  split_ifs <;> rfl

theorem transcript_start_default_splice_flags (a b : Bool) (f : fusion_t) :
    transcript_start_default (set_splice_flags a b f) =
      set_splice_flags a b (transcript_start_default f) := by
  unfold transcript_start_default set_splice_flags
  dsimp only
  split_ifs <;> rfl

theorem backfill_strands_splice_flags (a b : Bool) (f : fusion_t) :
    backfill_strands (set_splice_flags a b f) = set_splice_flags a b (backfill_strands f) := by
  unfold backfill_strands set_splice_flags
  dsimp only
  split_ifs <;> rfl

/-- What the splice-site check of lines 429-440 guarantees about a flag it
sets. -/
theorem splice_site_check_spliced (E : externals) (f : fusion_t) :
    ((splice_site_check E f).spliced1 = true →
        (splice_site_check E f).predicted_strands_ambiguous = false ∧
          (splice_site_check E f).predicted_strand1 = (splice_site_check E f).gene1.strand) ∧
      ((splice_site_check E f).spliced2 = true →
        (splice_site_check E f).predicted_strands_ambiguous = false ∧
          (splice_site_check E f).predicted_strand2 = (splice_site_check E f).gene2.strand) := by
  unfold splice_site_check
  split_ifs with h
  · exact ⟨fun h1 => absurd h1 (by simp), fun h2 => absurd h2 (by simp)⟩
  · rw [not_or, Bool.not_eq_true] at h
    constructor
    · intro h1
      simp only [Bool.and_eq_true, decide_eq_true_eq] at h1
      exact ⟨h.2, h1.1.2.symm⟩
    · intro h2
      simp only [Bool.and_eq_true, decide_eq_true_eq] at h2
      exact ⟨h.2, h2.1.2.symm⟩

theorem transcript_start_cascade_of_first (E : externals) (f : fusion_t)
    (h : f.spliced1 = true ∨
      (f.predicted_strands_ambiguous = false ∧ f.predicted_strand1 = f.gene1.strand)) :
    transcript_start_cascade E f = start_from_gene1 f := by
  unfold transcript_start_cascade
  rw [if_pos h]

theorem transcript_start_cascade_of_second (E : externals) (f : fusion_t)
    (hn : ¬(f.spliced1 = true ∨
      (f.predicted_strands_ambiguous = false ∧ f.predicted_strand1 = f.gene1.strand)))
    (h : f.spliced2 = true ∨
      (f.predicted_strands_ambiguous = false ∧ f.predicted_strand2 = f.gene2.strand)) :
    transcript_start_cascade E f = start_from_gene2 f := by
  unfold transcript_start_cascade
  rw [if_neg hn, if_pos h]

/-- If a set splice flag implies that the strands are unambiguous and that the
strand of its side is the one of the gene, then `predict_transcript_start`
gives the same with both flags cleared, the flags themselves apart. -/
theorem predict_transcript_start_splice_flags (E : externals) (g : fusion_t)
    (h1 : g.spliced1 = true →
      g.predicted_strands_ambiguous = false ∧ g.predicted_strand1 = g.gene1.strand)
    (h2 : g.spliced2 = true →
      g.predicted_strands_ambiguous = false ∧ g.predicted_strand2 = g.gene2.strand) :
    predict_transcript_start E g =
      set_splice_flags g.spliced1 g.spliced2
        (predict_transcript_start E (set_splice_flags false false g)) := by
  by_cases c1 : g.predicted_strands_ambiguous = false ∧ g.predicted_strand1 = g.gene1.strand
  · -- the first branch is taken with and without the flags
    have e1 := transcript_start_cascade_of_first E
      { g with transcript_start_ambiguous := false } (Or.inr c1)
    have e2 := transcript_start_cascade_of_first E
      { set_splice_flags false false g with transcript_start_ambiguous := false } (Or.inr c1)
    unfold predict_transcript_start
    rw [e1, e2, ← backfill_strands_splice_flags, ← transcript_start_default_splice_flags,
      ← start_from_gene1_splice_flags]
    rfl
  · have s1 : g.spliced1 = false := by
      cases h : g.spliced1
      · rfl
      · exact absurd (h1 h) c1
    by_cases c2 : g.predicted_strands_ambiguous = false ∧ g.predicted_strand2 = g.gene2.strand
    · have n1 : ¬(g.spliced1 = true ∨
          (g.predicted_strands_ambiguous = false ∧ g.predicted_strand1 = g.gene1.strand)) := by
        rw [s1]
        simp [c1]
      have n2 : ¬((false : Bool) = true ∨
          (g.predicted_strands_ambiguous = false ∧ g.predicted_strand1 = g.gene1.strand)) := by
        simp [c1]
      have e1 := transcript_start_cascade_of_second E
        { g with transcript_start_ambiguous := false } n1 (Or.inr c2)
      have e2 := transcript_start_cascade_of_second E
        { set_splice_flags false false g with transcript_start_ambiguous := false } n2
        (Or.inr c2)
      unfold predict_transcript_start
      rw [e1, e2, ← backfill_strands_splice_flags, ← transcript_start_default_splice_flags,
        ← start_from_gene2_splice_flags]
      rfl
    · have s2 : g.spliced2 = false := by
        cases h : g.spliced2
        · rfl
        · exact absurd (h2 h) c2
      have e : set_splice_flags false false g = g := by
        have h := set_splice_flags_self g
        rw [s1, s2] at h
        exact h
      rw [e]
      obtain ⟨t, a, b, p1, p2, hf⟩ := predict_transcript_start_frame E g
      rw [hf]
      rfl

/-- C22: whenever the splice-site check of `find_fusions` sets `spliced1`, the
strands are unambiguous and `predicted_strand1` is the strand of gene 1, and
likewise for `spliced2`; so the fusion that `predict_transcript_start` leaves
in `find_fusions` is the one it leaves when called with both flags false,
the two flags apart: `transcript_start`, `transcript_start_ambiguous` and the
three strand fields are the same, for every fusion and on every input of
`find_fusions`. -/
theorem C22_splice_flags_redundant (E : externals) (f : fusion_t)
    (chimeric_alignments : chimeric_alignments_t) (fusions : fusions_t) (max_mate_gap : Int) :
    ((splice_site_check E (predict_fusion_strands E f)).spliced1 = true →
        (splice_site_check E (predict_fusion_strands E f)).predicted_strands_ambiguous = false ∧
          (splice_site_check E (predict_fusion_strands E f)).predicted_strand1 =
            (splice_site_check E (predict_fusion_strands E f)).gene1.strand) ∧
      ((splice_site_check E (predict_fusion_strands E f)).spliced2 = true →
        (splice_site_check E (predict_fusion_strands E f)).predicted_strands_ambiguous = false ∧
          (splice_site_check E (predict_fusion_strands E f)).predicted_strand2 =
            (splice_site_check E (predict_fusion_strands E f)).gene2.strand) ∧
      predict_fusion E f =
        set_splice_flags (splice_site_check E (predict_fusion_strands E f)).spliced1
          (splice_site_check E (predict_fusion_strands E f)).spliced2
          (predict_fusion_without_splice_flags E f) ∧
      (predict_fusion E f).transcript_start =
        (predict_fusion_without_splice_flags E f).transcript_start ∧
      (predict_fusion E f).transcript_start_ambiguous =
        (predict_fusion_without_splice_flags E f).transcript_start_ambiguous ∧
      (predict_fusion E f).predicted_strands_ambiguous =
        (predict_fusion_without_splice_flags E f).predicted_strands_ambiguous ∧
      (predict_fusion E f).predicted_strand1 =
        (predict_fusion_without_splice_flags E f).predicted_strand1 ∧
      (predict_fusion E f).predicted_strand2 =
        (predict_fusion_without_splice_flags E f).predicted_strand2 ∧
      (find_fusions E chimeric_alignments fusions max_mate_gap).fusions.map
          (fun kf => (kf.1, kf.2.transcript_start, kf.2.transcript_start_ambiguous,
            kf.2.predicted_strands_ambiguous, kf.2.predicted_strand1, kf.2.predicted_strand2)) =
        (reconcile E max_mate_gap
            (aggregate E chimeric_alignments fusions).discordant_mates_by_gene_pair
            (aggregate E chimeric_alignments fusions).fusions).1.map
          (fun kf => (kf.1,
            (predict_fusion_without_splice_flags E kf.2).transcript_start,
            (predict_fusion_without_splice_flags E kf.2).transcript_start_ambiguous,
            (predict_fusion_without_splice_flags E kf.2).predicted_strands_ambiguous,
            (predict_fusion_without_splice_flags E kf.2).predicted_strand1,
            (predict_fusion_without_splice_flags E kf.2).predicted_strand2)) := by
  have key : ∀ f : fusion_t, predict_fusion E f =
      set_splice_flags (splice_site_check E (predict_fusion_strands E f)).spliced1
        (splice_site_check E (predict_fusion_strands E f)).spliced2
        (predict_fusion_without_splice_flags E f) := fun f =>
    predict_transcript_start_splice_flags E _
      (splice_site_check_spliced E (predict_fusion_strands E f)).1
      (splice_site_check_spliced E (predict_fusion_strands E f)).2
  refine ⟨(splice_site_check_spliced E _).1, (splice_site_check_spliced E _).2, key f,
    ?_, ?_, ?_, ?_, ?_, ?_⟩
  · rw [key f]; rfl
  · rw [key f]; rfl
  · rw [key f]; rfl
  · rw [key f]; rfl
  · rw [key f]; rfl
  · have hff : (find_fusions E chimeric_alignments fusions max_mate_gap).fusions =
        (reconcile E max_mate_gap
          (aggregate E chimeric_alignments fusions).discordant_mates_by_gene_pair
          (aggregate E chimeric_alignments fusions).fusions).1.map
          (fun kf => (kf.1, predict_fusion E kf.2)) := by
      unfold find_fusions
      exact predict_all_fst E _
    rw [hff, List.map_map]
    apply List.map_congr_left
    intro kf _
    simp only [Function.comp]
    rw [key kf.2]
    rfl

/-- The statement of C22 at the exonic fusion of the split read `sample_sr` when
every breakpoint is at a splice site: the check sets `spliced1`, and the
transcript start is GENE1 with and without the flags. -/
theorem C22_splice_flags_redundant_witness :
    (splice_site_check E_spliced
        (predict_fusion_strands E_spliced sample_fusion_exonic)).spliced1 = true ∧
      (splice_site_check E_spliced
        (predict_fusion_strands E_spliced sample_fusion_exonic)).predicted_strands_ambiguous =
          false ∧
      (splice_site_check E_spliced
          (predict_fusion_strands E_spliced sample_fusion_exonic)).predicted_strand1 =
        (splice_site_check E_spliced
          (predict_fusion_strands E_spliced sample_fusion_exonic)).gene1.strand ∧
      (predict_fusion E_spliced sample_fusion_exonic).transcript_start =
        (predict_fusion_without_splice_flags E_spliced sample_fusion_exonic).transcript_start ∧
      (predict_fusion E_spliced sample_fusion_exonic).transcript_start =
        TRANSCRIPT_START_GENE1 :=
  ⟨by decide,
    ((C22_splice_flags_redundant E_spliced sample_fusion_exonic [] [] 0).1 (by decide)).1,
    ((C22_splice_flags_redundant E_spliced sample_fusion_exonic [] [] 0).1 (by decide)).2,
    (C22_splice_flags_redundant E_spliced sample_fusion_exonic [] [] 0).2.2.2.1, by decide⟩

/-! ## C23: a pair of discordant mates supports its own fusions -/

/-- The reordering of the mates in the second pass (lines 377-385) agrees with
the canonicalization of the aggregation (lines 290-312). -/
theorem reorder_mates_canonical (E : externals) (g : mates_t) :
    (canonicalize (discordant_mate_locals E g)).direction1 =
        mate_direction (reorder_mates E g).1 ∧
      (canonicalize (discordant_mate_locals E g)).direction2 =
        mate_direction (reorder_mates E g).2 ∧
      (canonicalize (discordant_mate_locals E g)).breakpoint1 =
        mate_breakpoint (reorder_mates E g).1 ∧
      (canonicalize (discordant_mate_locals E g)).breakpoint2 =
        mate_breakpoint (reorder_mates E g).2 ∧
      (canonicalize (discordant_mate_locals E g)).anchor_start1 =
        (if (reorder_mates E g).1.strand = FORWARD then (reorder_mates E g).1.start
          else (reorder_mates E g).1.end_) ∧
      (canonicalize (discordant_mate_locals E g)).anchor_start2 =
        (if (reorder_mates E g).2.strand = FORWARD then (reorder_mates E g).2.start
          else (reorder_mates E g).2.end_) := by
  unfold canonicalize discordant_mate_locals reorder_mates mate_direction mate_breakpoint
  dsimp only
  split_ifs <;> exact ⟨rfl, rfl, rfl, rfl, rfl, rfl⟩

theorem int_wrap_eq (x : Int) (h1 : -2147483648 ≤ x) (h2 : x ≤ 2147483647) :
    int_wrap x = x := by
  unfold int_wrap
  rw [Int.emod_eq_of_lt (by linarith) (by linarith)]
  ring

theorem reorder_mates_cases (E : externals) (g : mates_t) :
    reorder_mates E g = (g.at E.MATE1, g.at E.MATE2) ∨
      reorder_mates E g = (g.at E.MATE2, g.at E.MATE1) := by
  unfold reorder_mates
  dsimp only
  split_ifs <;> first | exact Or.inr rfl | exact Or.inl rfl

/-- A mate is consistent with the side whose direction and breakpoint were taken
from it, whatever the number of split reads, if `max_mate_gap` is not
negative and the expressions in `max_mate_gap` do not overflow. -/
theorem side_consistent_self (max_mate_gap : Int) (h : 0 ≤ max_mate_gap) (mate : alignment_t)
    (hfit : gap_fits max_mate_gap mate = true) (split_reads : Nat) :
    side_consistent (mate_direction mate) (mate_breakpoint mate) split_reads max_mate_gap mate =
      true := by
  unfold gap_fits at hfit
  rw [decide_eq_true_iff] at hfit
  obtain ⟨f1, f2, f3, f4⟩ := hfit
  unfold side_consistent mate_direction mate_breakpoint
  rw [decide_eq_true_iff, int_wrap_eq _ f1 f2, int_wrap_eq _ f3 f4]
  rcases Nat.eq_zero_or_pos split_reads with h0 | hpos
  · cases hs : mate.strand
    · left
      refine ⟨by simp, rfl, Or.inr ⟨?_, h0⟩⟩
      simp only [if_true]
      linarith
    · right
      refine ⟨by simp, rfl, Or.inr ⟨?_, h0⟩⟩
      simp only [reduceCtorEq, if_false]
      linarith
  · cases hs : mate.strand
    · left
      refine ⟨by simp, rfl, Or.inl ⟨?_, hpos⟩⟩
      simp only [if_true]
      linarith
    · right
      refine ⟨by simp, rfl, Or.inl ⟨?_, hpos⟩⟩
      simp only [reduceCtorEq, if_false]
      linarith

/-- A pair of discordant mates is consistent with every fusion that has the
directions and breakpoints of its canonicalized values, if `max_mate_gap` is
not negative and does not overflow with the coordinates of the mates. -/
theorem discordant_mate_self_consistent (E : externals) (max_mate_gap : Int)
    (h : 0 ≤ max_mate_gap) (g : mates_t) (f : fusion_t)
    (hf1 : gap_fits max_mate_gap (g.at E.MATE1) = true)
    (hf2 : gap_fits max_mate_gap (g.at E.MATE2) = true)
    (hd1 : f.direction1 = (canonicalize (discordant_mate_locals E g)).direction1)
    (hd2 : f.direction2 = (canonicalize (discordant_mate_locals E g)).direction2)
    (hb1 : f.breakpoint1 = (canonicalize (discordant_mate_locals E g)).breakpoint1)
    (hb2 : f.breakpoint2 = (canonicalize (discordant_mate_locals E g)).breakpoint2) :
    discordant_mate_consistent E max_mate_gap f g = true := by
  obtain ⟨r1, r2, r3, r4, -, -⟩ := reorder_mates_canonical E g
  have hfit : gap_fits max_mate_gap (reorder_mates E g).1 = true ∧
      gap_fits max_mate_gap (reorder_mates E g).2 = true := by
    rcases reorder_mates_cases E g with hr | hr
    · rw [hr]
      exact ⟨hf1, hf2⟩
    · rw [hr]
      exact ⟨hf2, hf1⟩
  unfold discordant_mate_consistent
  rw [hd1, hd2, hb1, hb2, r1, r2, r3, r4, side_consistent_self max_mate_gap h _ hfit.1,
    side_consistent_self max_mate_gap h _ hfit.2]
  rfl

/-! ### What the aggregation records for a pair of discordant mates -/

theorem fusions_at_keys (fusions : fusions_t) (key : fusion_key_t)
    (update : fusion_t → fusion_t) :
    key ∈ (fusions_at fusions key update).map Prod.fst ∧
      ∀ k ∈ fusions.map Prod.fst, k ∈ (fusions_at fusions key update).map Prod.fst := by
  induction fusions with
  | nil => exact ⟨by simp [fusions_at], fun k hk => absurd hk (List.not_mem_nil _)⟩
  | cons hd tl ih =>
    obtain ⟨k0, f0⟩ := hd
    unfold fusions_at
    by_cases hk : k0 = key
    · rw [if_pos hk]
      refine ⟨by simp [hk], fun k h => ?_⟩
      simpa using h
    · rw [if_neg hk]
      refine ⟨by simp [ih.1], fun k h => ?_⟩
      simp only [List.map_cons, List.mem_cons] at h ⊢
      rcases h with h | h
      · exact Or.inl h
      · exact Or.inr (ih.2 k h)

theorem gene_pair_push_back_mem (idx : discordant_mates_by_gene_pair_t) (p : gene_t × gene_t)
    (g : mates_t) :
    ∃ c, gene_pair_find (gene_pair_push_back idx p g) p = some c ∧ g ∈ c := by
  induction idx with
  | nil => exact ⟨[g], by simp [gene_pair_push_back, gene_pair_find], by simp⟩
  | cons hd tl ih =>
    obtain ⟨k0, l0⟩ := hd
    unfold gene_pair_push_back
    by_cases hk : k0 = p
    · rw [if_pos hk]
      exact ⟨l0 ++ [g], by simp [gene_pair_find, hk], by simp⟩
    · rw [if_neg hk]
      obtain ⟨c, hc, hg⟩ := ih
      exact ⟨c, by simp [gene_pair_find, hk, hc], hg⟩

theorem gene_pair_push_back_keeps (idx : discordant_mates_by_gene_pair_t)
    (p p' : gene_t × gene_t) (g g' : mates_t)
    (h : ∃ c, gene_pair_find idx p = some c ∧ g ∈ c) :
    ∃ c, gene_pair_find (gene_pair_push_back idx p' g') p = some c ∧ g ∈ c := by
  induction idx with
  | nil =>
    obtain ⟨c, hc, -⟩ := h
    simp [gene_pair_find] at hc
  | cons hd tl ih =>
    obtain ⟨k0, l0⟩ := hd
    obtain ⟨c, hc, hg⟩ := h
    unfold gene_pair_push_back
    unfold gene_pair_find at hc
    by_cases hk' : k0 = p'
    · rw [if_pos hk']
      unfold gene_pair_find
      by_cases hk : k0 = p
      · rw [if_pos hk] at hc ⊢
        have hcl : l0 = c := Option.some.inj hc
        exact ⟨l0 ++ [g'], rfl, by simp [hcl, hg]⟩
      · rw [if_neg hk] at hc ⊢
        exact ⟨c, hc, hg⟩
    · rw [if_neg hk']
      unfold gene_pair_find
      by_cases hk : k0 = p
      · rw [if_pos hk] at hc ⊢
        exact ⟨c, hc, hg⟩
      · rw [if_neg hk] at hc ⊢
        exact ih ⟨c, hc, hg⟩

theorem discordant_mate_gene2_loop_recorded (v : locals) (g' : mates_t) (gene1 : gene_t)
    (od1 : Bool) (key : fusion_key_t) (p : gene_t × gene_t) (g : mates_t)
    (genes2 : List gene_t) (od2 : Bool) (st : aggregation_t)
    (h : recorded key p g st ∨
      (g' = g ∧ ∃ gene2 ∈ genes2, key = make_key v gene1 gene2 ∧ p = (gene1, gene2))) :
    recorded key p g (discordant_mate_gene2_loop v g' gene1 od1 genes2 od2 st) := by
  induction genes2 generalizing od2 st with
  | nil =>
    rcases h with h | ⟨-, gene2, hmem, -⟩
    · exact h
    · exact absurd hmem (List.not_mem_nil _)
  | cons gene2 rest ih =>
    unfold discordant_mate_gene2_loop
    apply ih
    rcases h with h | ⟨hg, x, hmem, hkey, hp⟩
    · left
      exact ⟨(fusions_at_keys _ _ _).2 key h.1, gene_pair_push_back_keeps _ _ _ _ _ h.2⟩
    · rcases List.mem_cons.mp hmem with hx | hx
      · left
        subst hx
        subst hg
        rw [hkey, hp]
        exact ⟨(fusions_at_keys _ _ _).1, gene_pair_push_back_mem _ _ _⟩
      · right
        exact ⟨hg, x, hx, hkey, hp⟩

theorem discordant_mate_gene1_loop_recorded (v : locals) (g' : mates_t)
    (key : fusion_key_t) (p : gene_t × gene_t) (g : mates_t)
    (genes1 : List gene_t) (od1 : Bool) (st : aggregation_t)
    (h : recorded key p g st ∨
      (g' = g ∧ ∃ gene1 ∈ genes1, ∃ gene2 ∈ v.genes2,
        key = make_key v gene1 gene2 ∧ p = (gene1, gene2))) :
    recorded key p g (discordant_mate_gene1_loop v g' genes1 od1 st) := by
  induction genes1 generalizing od1 st with
  | nil =>
    rcases h with h | ⟨-, gene1, hmem, -⟩
    · exact h
    · exact absurd hmem (List.not_mem_nil _)
  | cons gene1 rest ih =>
    unfold discordant_mate_gene1_loop
    apply ih
    rcases h with h | ⟨hg, x, hmem, y, hy, hkey, hp⟩
    · left
      exact discordant_mate_gene2_loop_recorded v g' gene1 od1 key p g _ _ _ (Or.inl h)
    · rcases List.mem_cons.mp hmem with hx | hx
      · left
        subst hx
        exact discordant_mate_gene2_loop_recorded v g' x od1 key p g _ _ _
          (Or.inr ⟨hg, y, hy, hkey, hp⟩)
      · right
        exact ⟨hg, x, hx, y, hy, hkey, hp⟩

theorem split_read_gene2_loop_keys (v : locals) (g : mates_t) (gene1 : gene_t) (od1 : Bool)
    (key : fusion_key_t) (genes2 : List gene_t) (od2 : Bool) (fusions : fusions_t)
    (h : key ∈ fusions.map Prod.fst) :
    key ∈ (split_read_gene2_loop v g gene1 od1 genes2 od2 fusions).map Prod.fst := by
  induction genes2 generalizing od2 fusions with
  | nil => exact h
  | cons gene2 rest ih =>
    unfold split_read_gene2_loop
    exact ih _ _ ((fusions_at_keys _ _ _).2 key h)

theorem split_read_gene1_loop_keys (v : locals) (g : mates_t)
    (key : fusion_key_t) (genes1 : List gene_t) (od1 : Bool) (fusions : fusions_t)
    (h : key ∈ fusions.map Prod.fst) :
    key ∈ (split_read_gene1_loop v g genes1 od1 fusions).map Prod.fst := by
  induction genes1 generalizing od1 fusions with
  | nil => exact h
  | cons gene1 rest ih =>
    unfold split_read_gene1_loop
    exact ih _ _ (split_read_gene2_loop_keys v g gene1 od1 key _ _ _ h)

theorem aggregate_group_recorded (E : externals) (key : fusion_key_t) (p : gene_t × gene_t)
    (g : mates_t) (st : aggregation_t) (g' : mates_t) (h : recorded key p g st) :
    recorded key p g (aggregate_group E st g') := by
  unfold aggregate_group
  split_ifs
  · exact ⟨split_read_gene1_loop_keys _ g' key _ _ _ h.1, h.2⟩
  · exact discordant_mate_gene1_loop_recorded _ g' key p g _ _ _ (Or.inl h)
  · exact h

theorem foldl_aggregate_group_recorded (E : externals) (key : fusion_key_t)
    (p : gene_t × gene_t) (g : mates_t) (l : chimeric_alignments_t) (st : aggregation_t)
    (h : recorded key p g st) :
    recorded key p g (l.foldl (aggregate_group E) st) := by
  induction l generalizing st with
  | nil => exact h
  | cons g' rest ih =>
    rw [List.foldl_cons]
    exact ih _ (aggregate_group_recorded E key p g st g' h)

/-- After the aggregation every pair of discordant mates of the input is in the
table under each pair of its genes, and the fusion map has the key of the
pair. -/
theorem aggregate_recorded (E : externals) (l : chimeric_alignments_t) (st : aggregation_t)
    (g : mates_t) (hg : g ∈ l) (hsize : g.size = 2) (ga gb : gene_t)
    (ha : ga ∈ (canonicalize (discordant_mate_locals E g)).genes1)
    (hb : gb ∈ (canonicalize (discordant_mate_locals E g)).genes2) :
    recorded (make_key (canonicalize (discordant_mate_locals E g)) ga gb) (ga, gb) g
      (l.foldl (aggregate_group E) st) := by
  induction l generalizing st with
  | nil => exact absurd hg (List.not_mem_nil _)
  | cons g' rest ih =>
    rw [List.foldl_cons]
    rcases List.mem_cons.mp hg with h | h
    · apply foldl_aggregate_group_recorded
      subst h
      unfold aggregate_group
      rw [if_neg (by omega), if_pos hsize]
      exact discordant_mate_gene1_loop_recorded _ g _ _ g _ _ _
        (Or.inr ⟨rfl, ga, ha, gb, hb, rfl, rfl⟩)
    · exact ih _ h

/-! ### The scan of the second pass -/

theorem scan_discordant_mates_list_mono (E : externals) (max_mate_gap : Int)
    (l : List mates_t) (f : fusion_t) (x : mates_t) (h : x ∈ f.discordant_mate_list) :
    x ∈ (scan_discordant_mates E max_mate_gap l f).1.discordant_mate_list := by
  induction l generalizing f with
  | nil => exact h
  | cons dm rest ih =>
    have h1 : x ∈ (attach_discordant_mate f dm (reorder_mates E dm).1
        (reorder_mates E dm).2).discordant_mate_list := by
      rw [attach_discordant_mate_list]
      exact List.mem_append_left _ h
    unfold scan_discordant_mates
    dsimp only
    split_ifs
    · exact h1
    · exact ih _ h1
    · exact ih f h

/-- A consistent group is attached if fewer than 1000 mates have been counted
when the scan comes to it. -/
theorem scan_discordant_mates_reaches (E : externals) (max_mate_gap : Int) (g : mates_t)
    (post pre : List mates_t) (f : fusion_t)
    (hc : discordant_mate_consistent E max_mate_gap f g = true)
    (hlt : f.discordant_mates + pre.countP (fun dm =>
      discordant_mate_consistent E max_mate_gap f dm && decide (dm.filter = none)) < 1000) :
    g ∈ (scan_discordant_mates E max_mate_gap (pre ++ g :: post) f).1.discordant_mate_list := by
  induction pre generalizing f with
  | nil =>
    rw [List.nil_append]
    have h1 : g ∈ (attach_discordant_mate f g (reorder_mates E g).1
        (reorder_mates E g).2).discordant_mate_list := by
      rw [attach_discordant_mate_list]
      simp
    unfold scan_discordant_mates
    dsimp only
    rw [if_pos hc]
    split_ifs
    · exact h1
    · exact scan_discordant_mates_list_mono E max_mate_gap post _ g h1
  | cons d pre ih =>
    rw [List.cons_append]
    unfold scan_discordant_mates
    dsimp only
    rw [List.countP_cons] at hlt
    by_cases hcd : discordant_mate_consistent E max_mate_gap f d = true
    · rw [if_pos hcd]
      have hcount := attach_discordant_mate_count f d (reorder_mates E d).1 (reorder_mates E d).2
      have hlt1 : (attach_discordant_mate f d (reorder_mates E d).1
          (reorder_mates E d).2).discordant_mates +
          pre.countP (fun dm =>
            discordant_mate_consistent E max_mate_gap f dm && decide (dm.filter = none)) <
          1000 := by
        rw [hcount]
        by_cases hfl : d.filter = none
        · simp only [hcd, hfl, decide_True, Bool.and_self, if_true] at hlt ⊢
          omega
        · simp only [hfl, if_false] at hlt ⊢
          omega
      rw [if_neg (by omega)]
      apply ih
      · rw [attach_discordant_mate_consistent]
        exact hc
      · simp only [attach_discordant_mate_consistent]
        exact hlt1
    · rw [if_neg hcd]
      apply ih f hc
      rw [Bool.not_eq_true] at hcd
      simp only [hcd, Bool.false_and, Bool.false_eq_true, if_false] at hlt
      omega

theorem count_discordant_mates_of_find (E : externals) (max_mate_gap : Int)
    (idx : discordant_mates_by_gene_pair_t) (f : fusion_t) (c : List mates_t)
    (hfl : f.filter = none) (hc : gene_pair_find idx (f.gene1, f.gene2) = some c) :
    count_discordant_mates E max_mate_gap idx f = scan_discordant_mates E max_mate_gap c f := by
  unfold count_discordant_mates
  rw [if_neg (by simp [hfl]), hc]

theorem discordant_mate_fusion_unfiltered (v : locals) (g1 g2 : gene_t) (o1 o2 : Bool)
    (g : mates_t) (b : Bool) (f : fusion_t) (hfl : g.filter = none) :
    (discordant_mate_fusion v g1 g2 o1 o2 g b f).filter = none := by
  unfold discordant_mate_fusion
  dsimp only
  rw [if_pos hfl, expand_anchor_eq]

/-- The two maps after the aggregation of a single pair of discordant mates with
one gene on each side. -/
theorem aggregate_single_discordant_mate (E : externals) (g : mates_t) (ga gb : gene_t)
    (hsize : g.size = 2) (hg1 : (group_locals E g).genes1 = [ga])
    (hg2 : (group_locals E g).genes2 = [gb]) :
    aggregate E [g] [] =
      ⟨[(make_key (group_locals E g) ga gb,
          discordant_mate_fusion (group_locals E g) ga gb false false g true fusion_t.init)],
        [((ga, gb), [g])]⟩ := by
  have hv : group_locals E g = canonicalize (discordant_mate_locals E g) := by
    unfold group_locals
    rw [if_neg (by omega)]
  have hagg : aggregate E [g] [] = aggregate_group E ⟨[], []⟩ g := rfl
  rw [hagg]
  unfold aggregate_group
  rw [if_neg (by omega), if_pos hsize]
  dsimp only
  rw [← hv, hg1]
  simp only [discordant_mate_gene1_loop, discordant_mate_gene2_loop, hg2, fusions_at,
    gene_pair_push_back, fusions_find, Option.isNone_none]

/-- For `max_mate_gap >= 0` that does not overflow with the coordinates of the
two mates, a pair of discordant mates of the input is consistent with each
fusion that its aggregation created or updated: the fusion has the directions
and the breakpoints of the reordered mates of the second pass. The group is
among the candidates of the gene pair of the fusion, so if the fusion has no
filter after the aggregation and fewer than 1000 unfiltered consistent
candidates come before the group, the group is in `discordant_mate_list` when
`find_fusions` returns. A single unfiltered pair of discordant mates with one
gene per side then yields one fusion, with `discordant_mates = 1`. -/
theorem self_attachment_in_range (E : externals) (max_mate_gap : Int)
    (hgap : 0 ≤ max_mate_gap) :
    (∀ (chimeric_alignments : chimeric_alignments_t) (g : mates_t) (ga gb : gene_t),
      g ∈ chimeric_alignments → g.size = 2 →
      gap_fits max_mate_gap (g.at E.MATE1) = true →
      gap_fits max_mate_gap (g.at E.MATE2) = true →
      ga ∈ (group_locals E g).genes1 → gb ∈ (group_locals E g).genes2 →
      ∃ f c,
        (make_key (group_locals E g) ga gb, f) ∈
          (aggregate E chimeric_alignments []).fusions ∧
        (make_key (group_locals E g) ga gb,
          finish_fusion E max_mate_gap
            (aggregate E chimeric_alignments []).discordant_mates_by_gene_pair f) ∈
          (find_fusions E chimeric_alignments [] max_mate_gap).fusions ∧
        f.direction1 = mate_direction (reorder_mates E g).1 ∧
        f.direction2 = mate_direction (reorder_mates E g).2 ∧
        f.breakpoint1 = mate_breakpoint (reorder_mates E g).1 ∧
        f.breakpoint2 = mate_breakpoint (reorder_mates E g).2 ∧
        discordant_mate_consistent E max_mate_gap f g = true ∧
        gene_pair_find (aggregate E chimeric_alignments []).discordant_mates_by_gene_pair
          (f.gene1, f.gene2) = some c ∧
        g ∈ c ∧
        (f.filter = none → ∀ pre post, c = pre ++ g :: post →
          pre.countP (fun dm =>
            discordant_mate_consistent E max_mate_gap f dm && decide (dm.filter = none)) <
            1000 →
          g ∈ (finish_fusion E max_mate_gap
            (aggregate E chimeric_alignments []).discordant_mates_by_gene_pair
            f).discordant_mate_list)) ∧
      (∀ (g : mates_t) (ga gb : gene_t), g.size = 2 → g.filter = none →
        gap_fits max_mate_gap (g.at E.MATE1) = true →
        gap_fits max_mate_gap (g.at E.MATE2) = true →
        (group_locals E g).genes1 = [ga] → (group_locals E g).genes2 = [gb] →
        ∃ f, (find_fusions E [g] [] max_mate_gap).fusions =
            [(make_key (group_locals E g) ga gb, f)] ∧
          f.discordant_mates = 1 ∧ f.discordant_mate_list = [g] ∧
          (find_fusions E [g] [] max_mate_gap).remaining = 1) := by
  constructor
  · intro l g ga gb hg hsize hf1 hf2 ha hb
    have hv : group_locals E g = canonicalize (discordant_mate_locals E g) := by
      unfold group_locals
      rw [if_neg (by omega)]
    rw [hv] at ha hb ⊢
    obtain ⟨hkey, c, hc, hgc⟩ := aggregate_recorded E l ⟨[], []⟩ g hg hsize ga gb ha hb
    obtain ⟨kf, hkf, hk⟩ := List.mem_map.mp hkey
    obtain ⟨k, f⟩ := kf
    dsimp only at hk
    subst hk
    have hmem : (make_key (canonicalize (discordant_mate_locals E g)) ga gb, f) ∈
        (aggregate E l []).fusions := hkf
    have hfk := (aggregate_key_ordered E l _ hmem).1
    simp only [fusion_t.key, make_key, fusion_key_t.mk.injEq] at hfk
    obtain ⟨k1, k2, -, -, k5, k6, k7, k8⟩ := hfk
    obtain ⟨r1, r2, r3, r4, -, -⟩ := reorder_mates_canonical E g
    have hcons := discordant_mate_self_consistent E max_mate_gap hgap g f hf1 hf2 k7 k8 k5 k6
    have hc' : gene_pair_find (aggregate E l []).discordant_mates_by_gene_pair
        (f.gene1, f.gene2) = some c := by
      rw [k1, k2]
      exact hc
    refine ⟨f, c, hmem, ?_, k7.trans r1, k8.trans r2, k5.trans r3, k6.trans r4, hcons, hc',
      hgc, ?_⟩
    · rw [find_fusions_fusions]
      exact List.mem_map.mpr ⟨_, hmem, rfl⟩
    · intro hfl pre post hsplit hcount
      rw [(finish_fusion_discordant_mates _ _ _ _).2,
        count_discordant_mates_of_find E max_mate_gap _ f c hfl hc', hsplit]
      apply scan_discordant_mates_reaches E max_mate_gap g post pre f hcons
      rw [(aggregate_no_discordant_mates E l _ hmem).1, Nat.zero_add]
      exact hcount
  · intro g ga gb hsize hfl hf1 hf2 hg1 hg2
    have hv : group_locals E g = canonicalize (discordant_mate_locals E g) := by
      unfold group_locals
      rw [if_neg (by omega)]
    have hagg := aggregate_single_discordant_mate E g ga gb hsize hg1 hg2
    generalize hF :
      discordant_mate_fusion (group_locals E g) ga gb false false g true fusion_t.init = F
      at hagg
    have hfusions := find_fusions_fusions E [g] [] max_mate_gap
    rw [hagg] at hfusions
    simp only [List.map_cons, List.map_nil] at hfusions
    have hFfl : F.filter = none := by
      rw [← hF]
      exact discordant_mate_fusion_unfiltered _ _ _ _ _ _ _ _ hfl
    have hFk := discordant_mate_fusion_key (group_locals E g) ga gb false false g true
      fusion_t.init
    rw [hF] at hFk
    simp only [fusion_t.key, make_key, fusion_key_t.mk.injEq] at hFk
    obtain ⟨k1, k2, -, -, k5, k6, k7, k8⟩ := hFk
    have hFl := discordant_mate_fusion_lists (group_locals E g) ga gb false false g true
      fusion_t.init
    rw [hF] at hFl
    obtain ⟨-, -, -, -, l5, l6⟩ := hFl
    have hcons : discordant_mate_consistent E max_mate_gap F g = true := by
      apply discordant_mate_self_consistent E max_mate_gap hgap g F hf1 hf2
      · rw [k7, hv]
      · rw [k8, hv]
      · rw [k5, hv]
      · rw [k6, hv]
    have hfind : gene_pair_find [((ga, gb), [g])] (F.gene1, F.gene2) = some [g] := by
      rw [k1, k2]
      simp [gene_pair_find]
    have hcount := attach_discordant_mate_count F g (reorder_mates E g).1 (reorder_mates E g).2
    rw [l5, if_pos hfl] at hcount
    have hone : (attach_discordant_mate F g (reorder_mates E g).1
        (reorder_mates E g).2).discordant_mates = 1 := hcount
    have hscan : count_discordant_mates E max_mate_gap [((ga, gb), [g])] F =
        (attach_discordant_mate F g (reorder_mates E g).1 (reorder_mates E g).2, false) := by
      rw [count_discordant_mates_of_find E max_mate_gap _ F [g] hFfl hfind]
      unfold scan_discordant_mates
      dsimp only
      rw [if_pos hcons, if_neg (by omega)]
      rfl
    refine ⟨_, hfusions, ?_, ?_, ?_⟩
    · rw [(finish_fusion_discordant_mates _ _ _ _).1, hscan]
      exact hone
    · rw [(finish_fusion_discordant_mates _ _ _ _).2, hscan]
      dsimp only
      rw [attach_discordant_mate_list, l6]
      rfl
    · have hrem : (find_fusions E [g] [] max_mate_gap).remaining =
          ((find_fusions E [g] [] max_mate_gap).fusions.filter
            (fun kf => decide (kf.2.filter = none))).length := by
        unfold find_fusions
        exact predict_all_snd E _
      rw [hrem, hfusions]
      simp [finish_fusion_filter, hFfl]

/-- The pair `sample_dm` supports the fusion of the split read `sample_sr` and
its own fusion when `max_mate_gap` is 1000. -/
theorem self_attachment_in_range_example :
    (0 : Int) ≤ 1000 ∧ sample_dm ∈ [sample_sr, sample_dm] ∧ sample_dm.size = 2 ∧
      gap_fits 1000 (sample_dm.at E0.MATE1) = true ∧
      gap_fits 1000 (sample_dm.at E0.MATE2) = true ∧
      gene_a ∈ (group_locals E0 sample_dm).genes1 ∧
      gene_b ∈ (group_locals E0 sample_dm).genes2 ∧
      (∃ f c,
        (make_key (group_locals E0 sample_dm) gene_a gene_b, f) ∈
          (aggregate E0 [sample_sr, sample_dm] []).fusions ∧
        (make_key (group_locals E0 sample_dm) gene_a gene_b,
          finish_fusion E0 1000
            (aggregate E0 [sample_sr, sample_dm] []).discordant_mates_by_gene_pair f) ∈
          (find_fusions E0 [sample_sr, sample_dm] [] 1000).fusions ∧
        f.direction1 = mate_direction (reorder_mates E0 sample_dm).1 ∧
        f.direction2 = mate_direction (reorder_mates E0 sample_dm).2 ∧
        f.breakpoint1 = mate_breakpoint (reorder_mates E0 sample_dm).1 ∧
        f.breakpoint2 = mate_breakpoint (reorder_mates E0 sample_dm).2 ∧
        discordant_mate_consistent E0 1000 f sample_dm = true ∧
        gene_pair_find (aggregate E0 [sample_sr, sample_dm] []).discordant_mates_by_gene_pair
          (f.gene1, f.gene2) = some c ∧
        sample_dm ∈ c ∧
        (f.filter = none → ∀ pre post, c = pre ++ sample_dm :: post →
          pre.countP (fun dm =>
            discordant_mate_consistent E0 1000 f dm && decide (dm.filter = none)) < 1000 →
          sample_dm ∈ (finish_fusion E0 1000
            (aggregate E0 [sample_sr, sample_dm] []).discordant_mates_by_gene_pair
            f).discordant_mate_list)) ∧
      (find_fusions E0 [sample_dm] [] 1000).fusions.map
          (fun kf => (kf.2.discordant_mates, kf.2.discordant_mate_list)) =
        [(1, [sample_dm])] :=
  ⟨by decide, by decide, by decide, by decide, by decide, by decide, by decide,
    (self_attachment_in_range E0 1000 (by decide)).1 [sample_sr, sample_dm] sample_dm gene_a
      gene_b (by decide) (by decide) (by decide) (by decide) (by decide) (by decide),
    by decide⟩

/-- C23 fails when `max_mate_gap` is 2147483647: for the single unfiltered pair
of discordant mates `sample_dm`, with one gene per side, the aggregation
files one fusion without filter, whose breakpoints 100 and 200 are the inward
coordinates of the two mates. In the second pass the first mate passes the
test of line 387 (100 - 2147483647 does not overflow), but for the second mate
line 388 computes 200 + 2147483647, which overflows `int` and is reduced to
-2147483449, less than the breakpoint 200: the pair is not consistent with its
own fusion and is not attached, `discordant_mates` stays 0. With
`max_mate_gap = 1000` the same pair is attached and counted. -/
theorem C23_max_mate_gap_overflow :
    sample_dm.size = 2 ∧ sample_dm.filter = none ∧
      (group_locals E0 sample_dm).genes1 = [gene_a] ∧
      (group_locals E0 sample_dm).genes2 = [gene_b] ∧
      (aggregate E0 [sample_dm] []).fusions.map
          (fun kf => (kf.2.filter, kf.2.breakpoint1, kf.2.breakpoint2, kf.2.direction1,
            kf.2.direction2)) =
        [(none, 100, 200, DOWNSTREAM, UPSTREAM)] ∧
      (reorder_mates E0 sample_dm).1.end_ = 100 ∧
      (reorder_mates E0 sample_dm).2.start = 200 ∧
      int_wrap ((reorder_mates E0 sample_dm).1.end_ - 2147483647) = -2147483547 ∧
      int_wrap ((reorder_mates E0 sample_dm).2.start + 2147483647) = -2147483449 ∧
      (aggregate E0 [sample_dm] []).fusions.map
          (fun kf => discordant_mate_consistent E0 2147483647 kf.2 sample_dm) = [false] ∧
      (find_fusions E0 [sample_dm] [] 2147483647).fusions.map
          (fun kf => (kf.2.discordant_mates, kf.2.discordant_mate_list)) = [(0, [])] ∧
      (find_fusions E0 [sample_dm] [] 1000).fusions.map
          (fun kf => (kf.2.discordant_mates, kf.2.discordant_mate_list)) =
        [(1, [sample_dm])] := by
  decide

/-! ## C21: the extent of the anchors -/

theorem expand_anchor_anchors (f : fusion_t) (a1 a2 : position_t) :
    (expand_anchor f a1 a2).anchor_start1 = anchor_step f.direction1 f.anchor_start1 a1 ∧
      (expand_anchor f a1 a2).anchor_start2 = anchor_step f.direction2 f.anchor_start2 a2 := by
  unfold expand_anchor anchor_step
  dsimp only
  split_ifs <;> exact ⟨rfl, rfl⟩

theorem split_read_fusion_anchors (v : locals) (g1 g2 : gene_t) (o1 o2 : Bool) (g : mates_t)
    (f : fusion_t) :
    (split_read_fusion v g1 g2 o1 o2 g f).anchor_start1 =
        anchor_step v.direction1 f.anchor_start1 v.anchor_start1 ∧
      (split_read_fusion v g1 g2 o1 o2 g f).anchor_start2 =
        anchor_step v.direction2 f.anchor_start2 v.anchor_start2 := by
  unfold split_read_fusion
  dsimp only
  split_ifs <;> exact expand_anchor_anchors _ _ _

theorem discordant_mate_fusion_anchors (v : locals) (g1 g2 : gene_t) (o1 o2 : Bool)
    (g : mates_t) (b : Bool) (f : fusion_t) :
    (discordant_mate_fusion v g1 g2 o1 o2 g b f).anchor_start1 =
        anchor_step v.direction1 f.anchor_start1 v.anchor_start1 ∧
      (discordant_mate_fusion v g1 g2 o1 o2 g b f).anchor_start2 =
        anchor_step v.direction2 f.anchor_start2 v.anchor_start2 := by
  unfold discordant_mate_fusion
  dsimp only
  split_ifs <;> exact expand_anchor_anchors _ _ _

theorem anchor_step_idem (d : direction_t) (c a : position_t) :
    anchor_step d (anchor_step d c a) a = anchor_step d c a := by
  unfold anchor_step
  split_ifs <;> simp_all

theorem fusions_find_fusions_at (fusions : fusions_t) (key k : fusion_key_t)
    (update : fusion_t → fusion_t) :
    fusions_find (fusions_at fusions key update) k =
      if key = k then some (update ((fusions_find fusions key).getD fusion_t.init))
      else fusions_find fusions k := by
  induction fusions with
  | nil =>
    simp only [fusions_at, fusions_find, Option.getD_none]
  | cons hd tl ih =>
    obtain ⟨k0, f0⟩ := hd
    by_cases h0 : k0 = key
    · subst h0
      by_cases hk : k0 = k
      · simp [fusions_at, fusions_find, hk]
      · simp [fusions_at, fusions_find, hk]
    · have e : fusions_at ((k0, f0) :: tl) key update =
          (k0, f0) :: fusions_at tl key update := by
        simp only [fusions_at, h0, if_false]
      rw [e]
      by_cases hk : key = k
      · subst hk
        simp [fusions_find, h0, ih]
      · by_cases h1 : k0 = k
        · simp [fusions_find, h1, hk]
        · simp [fusions_find, h1, hk, ih]

theorem field_at_fusions_at (field : fusion_t → position_t) (fusions : fusions_t)
    (key k : fusion_key_t) (update : fusion_t → fusion_t) :
    field_at field (fusions_at fusions key update) k =
      if key = k then field (update ((fusions_find fusions key).getD fusion_t.init))
      else field_at field fusions k := by
  unfold field_at
  rw [fusions_find_fusions_at]
  split_ifs <;> rfl

/-! ### The value of a field under a key through the loops of the aggregation -/

theorem split_read_gene2_loop_field (field : fusion_t → position_t)
    (s : position_t → position_t) (hs : ∀ x, s (s x) = s x) (v : locals) (g : mates_t)
    (hu : ∀ gene1 gene2 od1 od2 f,
      field (split_read_fusion v gene1 gene2 od1 od2 g f) = s (field f))
    (gene1 : gene_t) (od1 : Bool) (k : fusion_key_t)
    (genes2 : List gene_t) (od2 : Bool) (fusions : fusions_t) :
    field_at field (split_read_gene2_loop v g gene1 od1 genes2 od2 fusions) k =
      if genes2.any (fun gene2 => decide (make_key v gene1 gene2 = k)) = true then
        s (field_at field fusions k)
      else field_at field fusions k := by
  induction genes2 generalizing od2 fusions with
  | nil => simp [split_read_gene2_loop]
  | cons gene2 rest ih =>
    unfold split_read_gene2_loop
    rw [ih, field_at_fusions_at, List.any_cons]
    by_cases hk : make_key v gene1 gene2 = k
    · rw [if_pos hk, hu]
      have e : field ((fusions_find fusions (make_key v gene1 gene2)).getD fusion_t.init) =
          field_at field fusions k := by
        rw [hk]
        rfl
      rw [e]
      simp [hk, hs]
    · rw [if_neg hk]
      simp [hk]

theorem split_read_gene1_loop_field (field : fusion_t → position_t)
    (s : position_t → position_t) (hs : ∀ x, s (s x) = s x) (v : locals) (g : mates_t)
    (hu : ∀ gene1 gene2 od1 od2 f,
      field (split_read_fusion v gene1 gene2 od1 od2 g f) = s (field f))
    (k : fusion_key_t) (genes1 : List gene_t) (od1 : Bool) (fusions : fusions_t) :
    field_at field (split_read_gene1_loop v g genes1 od1 fusions) k =
      if genes1.any (fun gene1 =>
          v.genes2.any (fun gene2 => decide (make_key v gene1 gene2 = k))) = true then
        s (field_at field fusions k)
      else field_at field fusions k := by
  induction genes1 generalizing od1 fusions with
  | nil => simp [split_read_gene1_loop]
  | cons gene1 rest ih =>
    unfold split_read_gene1_loop
    rw [ih, split_read_gene2_loop_field field s hs v g hu, List.any_cons]
    by_cases h2 : v.genes2.any (fun gene2 => decide (make_key v gene1 gene2 = k)) = true
    · simp [h2, hs]
    · simp [h2]

theorem discordant_mate_gene2_loop_field (field : fusion_t → position_t)
    (s : position_t → position_t) (hs : ∀ x, s (s x) = s x) (v : locals) (g : mates_t)
    (hu : ∀ gene1 gene2 od1 od2 b f,
      field (discordant_mate_fusion v gene1 gene2 od1 od2 g b f) = s (field f))
    (gene1 : gene_t) (od1 : Bool) (k : fusion_key_t)
    (genes2 : List gene_t) (od2 : Bool) (st : aggregation_t) :
    field_at field (discordant_mate_gene2_loop v g gene1 od1 genes2 od2 st).fusions k =
      if genes2.any (fun gene2 => decide (make_key v gene1 gene2 = k)) = true then
        s (field_at field st.fusions k)
      else field_at field st.fusions k := by
  induction genes2 generalizing od2 st with
  | nil => simp [discordant_mate_gene2_loop]
  | cons gene2 rest ih =>
    unfold discordant_mate_gene2_loop
    dsimp only
    rw [ih, field_at_fusions_at, List.any_cons]
    by_cases hk : make_key v gene1 gene2 = k
    · rw [if_pos hk, hu]
      have e : field ((fusions_find st.fusions (make_key v gene1 gene2)).getD fusion_t.init) =
          field_at field st.fusions k := by
        rw [hk]
        rfl
      rw [e]
      simp [hk, hs]
    · rw [if_neg hk]
      simp [hk]

theorem discordant_mate_gene1_loop_field (field : fusion_t → position_t)
    (s : position_t → position_t) (hs : ∀ x, s (s x) = s x) (v : locals) (g : mates_t)
    (hu : ∀ gene1 gene2 od1 od2 b f,
      field (discordant_mate_fusion v gene1 gene2 od1 od2 g b f) = s (field f))
    (k : fusion_key_t) (genes1 : List gene_t) (od1 : Bool) (st : aggregation_t) :
    field_at field (discordant_mate_gene1_loop v g genes1 od1 st).fusions k =
      if genes1.any (fun gene1 =>
          v.genes2.any (fun gene2 => decide (make_key v gene1 gene2 = k))) = true then
        s (field_at field st.fusions k)
      else field_at field st.fusions k := by
  induction genes1 generalizing od1 st with
  | nil => simp [discordant_mate_gene1_loop]
  | cons gene1 rest ih =>
    unfold discordant_mate_gene1_loop
    rw [ih, discordant_mate_gene2_loop_field field s hs v g hu, List.any_cons]
    by_cases h2 : v.genes2.any (fun gene2 => decide (make_key v gene1 gene2 = k)) = true
    · simp [h2, hs]
    · simp [h2]

theorem merged_into_directions (E : externals) (k : fusion_key_t) (g : mates_t)
    (h : merged_into E k g = true) :
    (group_locals E g).direction1 = k.direction1 ∧
      (group_locals E g).direction2 = k.direction2 := by
  unfold merged_into at h
  rw [Bool.and_eq_true, List.any_eq_true] at h
  obtain ⟨-, ga, -, h2⟩ := h
  rw [List.any_eq_true] at h2
  obtain ⟨gb, -, h3⟩ := h2
  rw [decide_eq_true_eq] at h3
  subst h3
  exact ⟨rfl, rfl⟩

theorem merged_into_of_size (E : externals) (k : fusion_key_t) (g : mates_t)
    (h : g.size = 3 ∨ g.size = 2) :
    merged_into E k g =
      (group_locals E g).genes1.any (fun gene1 =>
        (group_locals E g).genes2.any (fun gene2 =>
          decide (make_key (group_locals E g) gene1 gene2 = k))) := by
  unfold merged_into
  rw [decide_eq_true h, Bool.true_and]

theorem merged_into_of_other_size (E : externals) (k : fusion_key_t) (g : mates_t)
    (h : ¬(g.size = 3 ∨ g.size = 2)) : merged_into E k g = false := by
  unfold merged_into
  rw [decide_eq_false h, Bool.false_and]

/-- What the aggregation of one group does to the anchors under a key. -/
theorem aggregate_group_anchors (E : externals) (st : aggregation_t) (g : mates_t)
    (k : fusion_key_t) :
    field_at (fun f => f.anchor_start1) (aggregate_group E st g).fusions k =
        (if merged_into E k g = true then
          anchor_step k.direction1 (field_at (fun f => f.anchor_start1) st.fusions k)
            (group_locals E g).anchor_start1
        else field_at (fun f => f.anchor_start1) st.fusions k) ∧
      field_at (fun f => f.anchor_start2) (aggregate_group E st g).fusions k =
        (if merged_into E k g = true then
          anchor_step k.direction2 (field_at (fun f => f.anchor_start2) st.fusions k)
            (group_locals E g).anchor_start2
        else field_at (fun f => f.anchor_start2) st.fusions k) := by
  have hd := merged_into_directions E k g
  unfold aggregate_group
  by_cases h3 : g.size = 3
  · have hv : group_locals E g = canonicalize (split_read_locals E g) := by
      unfold group_locals
      rw [if_pos h3]
    rw [if_pos h3]
    dsimp only
    rw [← hv,
      split_read_gene1_loop_field (fun f => f.anchor_start1)
        (fun x => anchor_step (group_locals E g).direction1 x (group_locals E g).anchor_start1)
        (fun x => anchor_step_idem _ _ _) (group_locals E g) g
        (fun g1 g2 o1 o2 f => (split_read_fusion_anchors _ g1 g2 o1 o2 g f).1),
      split_read_gene1_loop_field (fun f => f.anchor_start2)
        (fun x => anchor_step (group_locals E g).direction2 x (group_locals E g).anchor_start2)
        (fun x => anchor_step_idem _ _ _) (group_locals E g) g
        (fun g1 g2 o1 o2 f => (split_read_fusion_anchors _ g1 g2 o1 o2 g f).2),
      ← merged_into_of_size E k g (Or.inl h3)]
    by_cases hm : merged_into E k g = true
    · rw [if_pos hm, if_pos hm, if_pos hm, if_pos hm, (hd hm).1, (hd hm).2]
      exact ⟨rfl, rfl⟩
    · rw [if_neg hm, if_neg hm, if_neg hm, if_neg hm]
      exact ⟨rfl, rfl⟩
  · rw [if_neg h3]
    by_cases h2 : g.size = 2
    · have hv : group_locals E g = canonicalize (discordant_mate_locals E g) := by
        unfold group_locals
        rw [if_neg h3]
      rw [if_pos h2]
      dsimp only
      rw [← hv,
        discordant_mate_gene1_loop_field (fun f => f.anchor_start1)
          (fun x => anchor_step (group_locals E g).direction1 x (group_locals E g).anchor_start1)
          (fun x => anchor_step_idem _ _ _) (group_locals E g) g
          (fun g1 g2 o1 o2 b f => (discordant_mate_fusion_anchors _ g1 g2 o1 o2 g b f).1),
        discordant_mate_gene1_loop_field (fun f => f.anchor_start2)
          (fun x => anchor_step (group_locals E g).direction2 x (group_locals E g).anchor_start2)
          (fun x => anchor_step_idem _ _ _) (group_locals E g) g
          (fun g1 g2 o1 o2 b f => (discordant_mate_fusion_anchors _ g1 g2 o1 o2 g b f).2),
        ← merged_into_of_size E k g (Or.inr h2)]
      by_cases hm : merged_into E k g = true
      · rw [if_pos hm, if_pos hm, if_pos hm, if_pos hm, (hd hm).1, (hd hm).2]
        exact ⟨rfl, rfl⟩
      · rw [if_neg hm, if_neg hm, if_neg hm, if_neg hm]
        exact ⟨rfl, rfl⟩
    · rw [if_neg h2, merged_into_of_other_size E k g (by tauto)]
      exact ⟨rfl, rfl⟩

/-- The anchors under a key after the aggregation are the result of the rule of
lines 255-265 applied to the anchors of the groups merged into the key, in the
order of the input. -/
theorem foldl_aggregate_group_anchors (E : externals) (k : fusion_key_t)
    (l : chimeric_alignments_t) (st : aggregation_t) :
    field_at (fun f => f.anchor_start1) (l.foldl (aggregate_group E) st).fusions k =
        (merged_anchors1 E l k).foldl (anchor_step k.direction1)
          (field_at (fun f => f.anchor_start1) st.fusions k) ∧
      field_at (fun f => f.anchor_start2) (l.foldl (aggregate_group E) st).fusions k =
        (merged_anchors2 E l k).foldl (anchor_step k.direction2)
          (field_at (fun f => f.anchor_start2) st.fusions k) := by
  induction l generalizing st with
  | nil => exact ⟨rfl, rfl⟩
  | cons g rest ih =>
    rw [List.foldl_cons, (ih _).1, (ih _).2, (aggregate_group_anchors E st g k).1,
      (aggregate_group_anchors E st g k).2]
    unfold merged_anchors1 merged_anchors2
    by_cases hm : merged_into E k g = true
    · rw [if_pos hm, if_pos hm, List.filter_cons_of_pos hm]
      exact ⟨rfl, rfl⟩
    · rw [if_neg hm, if_neg hm, List.filter_cons_of_neg hm]
      exact ⟨rfl, rfl⟩

/-! ### The rule of lines 255-265 on positive anchors -/

theorem anchor_step_spec (d : direction_t) (c a : position_t) (ha : 0 < a)
    (hc : c = 0 ∨ 0 < c) :
    0 < anchor_step d c a ∧
      (anchor_step d c a = a ∨ (anchor_step d c a = c ∧ 0 < c)) ∧
      (c = 0 → anchor_step d c a = a) ∧
      (d = DOWNSTREAM → anchor_step d c a ≤ a ∧ (0 < c → anchor_step d c a ≤ c)) ∧
      (d = UPSTREAM → a ≤ anchor_step d c a ∧ (0 < c → c ≤ anchor_step d c a)) := by
  unfold anchor_step
  rcases hc with h0 | hpos
  · subst h0
    cases d
    · simp [ha]
    · simp [ha]
  · have hne : c ≠ 0 := ne_of_gt hpos
    cases d
    · by_cases h : a > c
      · simp [h, hne, ha, hpos, le_of_lt h]
      · simp [h, hne, hpos, not_lt.mp h]
    · by_cases h : a < c
      · simp [h, hne, ha, hpos, le_of_lt h]
      · simp [h, hne, hpos, not_lt.mp h]

theorem foldl_anchor_step (d : direction_t) (A : List position_t) (c : position_t)
    (hA : ∀ a ∈ A, 0 < a) (hc : c = 0 ∨ 0 < c) :
    (A.foldl (anchor_step d) c = c ∨ A.foldl (anchor_step d) c ∈ A) ∧
      (c = 0 → A ≠ [] → A.foldl (anchor_step d) c ∈ A) ∧
      (0 < c ∨ A ≠ [] → 0 < A.foldl (anchor_step d) c) ∧
      (d = DOWNSTREAM → (∀ a ∈ A, A.foldl (anchor_step d) c ≤ a) ∧
        (0 < c → A.foldl (anchor_step d) c ≤ c)) ∧
      (d = UPSTREAM → (∀ a ∈ A, a ≤ A.foldl (anchor_step d) c) ∧
        (0 < c → c ≤ A.foldl (anchor_step d) c)) := by
  induction A generalizing c with
  | nil =>
    refine ⟨Or.inl rfl, fun _ h => absurd rfl h, ?_, fun _ => ⟨?_, fun _ => le_refl _⟩,
      fun _ => ⟨?_, fun _ => le_refl _⟩⟩
    · rintro (h | h)
      · exact h
      · exact absurd rfl h
    · intro a ha
      exact absurd ha (List.not_mem_nil _)
    · intro a ha
      exact absurd ha (List.not_mem_nil _)
  | cons a A ih =>
    have ha : 0 < a := hA a (List.mem_cons_self _ _)
    obtain ⟨s1, s2, s3, s4, s5⟩ := anchor_step_spec d c a ha hc
    obtain ⟨i1, -, i3, i4, i5⟩ := ih (anchor_step d c a)
      (fun x hx => hA x (List.mem_cons_of_mem _ hx)) (Or.inr s1)
    rw [List.foldl_cons]
    have hmem : c = 0 → A.foldl (anchor_step d) (anchor_step d c a) ∈ a :: A := by
      intro h0
      rcases i1 with h | h
      · rw [h, s3 h0]
        exact List.mem_cons_self _ _
      · exact List.mem_cons_of_mem _ h
    refine ⟨?_, fun h0 _ => hmem h0, fun _ => i3 (Or.inl s1), ?_, ?_⟩
    · rcases i1 with h | h
      · rcases s2 with h2 | ⟨h2, -⟩
        · right
          rw [h, h2]
          exact List.mem_cons_self _ _
        · left
          rw [h, h2]
      · exact Or.inr (List.mem_cons_of_mem _ h)
    · intro hd
      obtain ⟨j1, j2⟩ := i4 hd
      obtain ⟨t1, t2⟩ := s4 hd
      refine ⟨fun x hx => ?_, fun hpos => le_trans (j2 s1) (t2 hpos)⟩
      rcases List.mem_cons.mp hx with h | h
      · rw [h]
        exact le_trans (j2 s1) t1
      · exact j1 x h
    · intro hd
      obtain ⟨j1, j2⟩ := i5 hd
      obtain ⟨t1, t2⟩ := s5 hd
      refine ⟨fun x hx => ?_, fun hpos => le_trans (t2 hpos) (j2 s1)⟩
      rcases List.mem_cons.mp hx with h | h
      · rw [h]
        exact le_trans t1 (j2 s1)
      · exact j1 x h

/-! ### The keys of the fusion map -/

theorem fusions_at_keys_eq (fusions : fusions_t) (key : fusion_key_t)
    (update : fusion_t → fusion_t) :
    (fusions_at fusions key update).map Prod.fst =
      if key ∈ fusions.map Prod.fst then fusions.map Prod.fst
      else fusions.map Prod.fst ++ [key] := by
  induction fusions with
  | nil => simp [fusions_at]
  | cons hd tl ih =>
    obtain ⟨k0, f0⟩ := hd
    by_cases h0 : k0 = key
    · subst h0
      simp [fusions_at]
    · have h0' : ¬key = k0 := fun h => h0 h.symm
      simp only [fusions_at, h0, if_false, List.map_cons, ih, List.mem_cons, h0', false_or]
      split_ifs <;> rfl

theorem fusions_at_nodup (fusions : fusions_t) (key : fusion_key_t)
    (update : fusion_t → fusion_t) (h : (fusions.map Prod.fst).Nodup) :
    ((fusions_at fusions key update).map Prod.fst).Nodup := by
  rw [fusions_at_keys_eq]
  split_ifs with hk
  · exact h
  · rw [List.nodup_append]
    refine ⟨h, List.nodup_singleton _, ?_⟩
    intro x hx hx'
    rw [List.mem_singleton] at hx'
    exact hk (hx' ▸ hx)

/-- A property of the fusion map that every access `fusions[key]` with an
assignment keeps is kept by the aggregation of a group. -/
theorem aggregate_group_keeps (Q : fusions_t → Prop)
    (hQ : ∀ fusions key update, Q fusions → Q (fusions_at fusions key update))
    (E : externals) (st : aggregation_t) (g : mates_t) (h : Q st.fusions) :
    Q (aggregate_group E st g).fusions := by
  have sr2 : ∀ v gene1 od1 genes2 od2 fusions, Q fusions →
      Q (split_read_gene2_loop v g gene1 od1 genes2 od2 fusions) := by
    intro v gene1 od1 genes2
    induction genes2 with
    | nil => exact fun _ _ h => h
    | cons gene2 rest ih =>
      intro od2 fusions h
      unfold split_read_gene2_loop
      exact ih _ _ (hQ _ _ _ h)
  have sr1 : ∀ v genes1 od1 fusions, Q fusions →
      Q (split_read_gene1_loop v g genes1 od1 fusions) := by
    intro v genes1
    induction genes1 with
    | nil => exact fun _ _ h => h
    | cons gene1 rest ih =>
      intro od1 fusions h
      unfold split_read_gene1_loop
      exact ih _ _ (sr2 _ _ _ _ _ _ h)
  have dm2 : ∀ v gene1 od1 genes2 od2 (st : aggregation_t), Q st.fusions →
      Q (discordant_mate_gene2_loop v g gene1 od1 genes2 od2 st).fusions := by
    intro v gene1 od1 genes2
    induction genes2 with
    | nil => exact fun _ _ h => h
    | cons gene2 rest ih =>
      intro od2 st h
      unfold discordant_mate_gene2_loop
      exact ih _ _ (hQ _ _ _ h)
  have dm1 : ∀ v genes1 od1 (st : aggregation_t), Q st.fusions →
      Q (discordant_mate_gene1_loop v g genes1 od1 st).fusions := by
    intro v genes1
    induction genes1 with
    | nil => exact fun _ _ h => h
    | cons gene1 rest ih =>
      intro od1 st h
      unfold discordant_mate_gene1_loop
      exact ih _ _ (dm2 _ _ _ _ _ _ h)
  unfold aggregate_group
  split_ifs
  · exact sr1 _ _ _ _ h
  · exact dm1 _ _ _ _ h
  · exact h

theorem aggregate_keys_nodup (E : externals) (l : chimeric_alignments_t) :
    ((aggregate E l []).fusions.map Prod.fst).Nodup := by
  have key : ∀ (l : chimeric_alignments_t) (st : aggregation_t),
      (st.fusions.map Prod.fst).Nodup →
      ((l.foldl (aggregate_group E) st).fusions.map Prod.fst).Nodup := by
    intro l
    induction l with
    | nil => exact fun _ h => h
    | cons g rest ih =>
      intro st h
      rw [List.foldl_cons]
      exact ih _ (aggregate_group_keeps (fun fs => (fs.map Prod.fst).Nodup)
        fusions_at_nodup E st g h)
  exact key l _ List.nodup_nil

theorem fusions_find_of_mem (fusions : fusions_t) (h : (fusions.map Prod.fst).Nodup)
    (kf : fusion_key_t × fusion_t) (hkf : kf ∈ fusions) :
    fusions_find fusions kf.1 = some kf.2 := by
  induction fusions with
  | nil => exact absurd hkf (List.not_mem_nil _)
  | cons hd tl ih =>
    obtain ⟨k0, f0⟩ := hd
    rw [List.map_cons, List.nodup_cons] at h
    rcases List.mem_cons.mp hkf with heq | hmem
    · subst heq
      simp [fusions_find]
    · have hne : ¬k0 = kf.1 := by
        intro he
        apply h.1
        rw [he]
        exact List.mem_map.mpr ⟨kf, hmem, rfl⟩
      simp only [fusions_find, hne, if_false]
      exact ih h.2 hmem

/-! ### Positive anchors -/

/-- The variant of `aggregate_forall` that asks for the assignment blocks of the
groups of the input only, each with the size of its branch. -/
theorem aggregate_forall_mem {P : fusion_key_t → fusion_t → Prop} (E : externals)
    (chimeric_alignments : chimeric_alignments_t)
    (hs : ∀ g ∈ chimeric_alignments, g.size = 3 → ∀ gene1 gene2 od1 od2 f,
      (f = fusion_t.init ∨ P (make_key (canonicalize (split_read_locals E g)) gene1 gene2) f) →
      P (make_key (canonicalize (split_read_locals E g)) gene1 gene2)
        (split_read_fusion (canonicalize (split_read_locals E g)) gene1 gene2 od1 od2 g f))
    (hd : ∀ g ∈ chimeric_alignments, g.size ≠ 3 → g.size = 2 → ∀ gene1 gene2 od1 od2 b f,
      (f = fusion_t.init ∨
        P (make_key (canonicalize (discordant_mate_locals E g)) gene1 gene2) f) →
      P (make_key (canonicalize (discordant_mate_locals E g)) gene1 gene2)
        (discordant_mate_fusion (canonicalize (discordant_mate_locals E g)) gene1 gene2 od1 od2
          g b f))
    (st : aggregation_t) (h : ∀ kf ∈ st.fusions, P kf.1 kf.2) :
    ∀ kf ∈ (chimeric_alignments.foldl (aggregate_group E) st).fusions, P kf.1 kf.2 := by
  induction chimeric_alignments generalizing st with
  | nil => exact h
  | cons g rest ih =>
    rw [List.foldl_cons]
    apply ih (fun x hx => hs x (List.mem_cons_of_mem _ hx))
      (fun x hx => hd x (List.mem_cons_of_mem _ hx))
    unfold aggregate_group
    split_ifs with h3 h2
    · exact split_read_gene1_loop_forall _ g (hs g (List.mem_cons_self _ _) h3) _ false
        st.fusions h
    · exact discordant_mate_gene1_loop_forall _ g (hd g (List.mem_cons_self _ _) h3 h2) _ false
        st h
    · exact h

/-- With positive anchors in the input no anchor of a fusion is left at the
sentinel 0 by the aggregation. -/
theorem aggregate_anchors_pos (E : externals) (l : chimeric_alignments_t)
    (hpos : ∀ g ∈ l, g.size = 3 ∨ g.size = 2 →
      0 < (group_locals E g).anchor_start1 ∧ 0 < (group_locals E g).anchor_start2) :
    ∀ kf ∈ (aggregate E l []).fusions, 0 < kf.2.anchor_start1 ∧ 0 < kf.2.anchor_start2 := by
  unfold aggregate
  apply aggregate_forall_mem E l (P := fun _ f => 0 < f.anchor_start1 ∧ 0 < f.anchor_start2)
  · intro g hg h3 gene1 gene2 od1 od2 f hf
    have hv : group_locals E g = canonicalize (split_read_locals E g) := by
      unfold group_locals
      rw [if_pos h3]
    have hp := hpos g hg (Or.inl h3)
    rw [hv] at hp
    obtain ⟨a1, a2⟩ := split_read_fusion_anchors (canonicalize (split_read_locals E g)) gene1
      gene2 od1 od2 g f
    rw [a1, a2]
    rcases hf with rfl | hf
    · exact ⟨(anchor_step_spec _ _ _ hp.1 (Or.inl rfl)).1,
        (anchor_step_spec _ _ _ hp.2 (Or.inl rfl)).1⟩
    · exact ⟨(anchor_step_spec _ _ _ hp.1 (Or.inr hf.1)).1,
        (anchor_step_spec _ _ _ hp.2 (Or.inr hf.2)).1⟩
  · intro g hg h3 h2 gene1 gene2 od1 od2 b f hf
    have hv : group_locals E g = canonicalize (discordant_mate_locals E g) := by
      unfold group_locals
      rw [if_neg h3]
    have hp := hpos g hg (Or.inr h2)
    rw [hv] at hp
    obtain ⟨a1, a2⟩ := discordant_mate_fusion_anchors (canonicalize (discordant_mate_locals E g))
      gene1 gene2 od1 od2 g b f
    rw [a1, a2]
    rcases hf with rfl | hf
    · exact ⟨(anchor_step_spec _ _ _ hp.1 (Or.inl rfl)).1,
        (anchor_step_spec _ _ _ hp.2 (Or.inl rfl)).1⟩
    · exact ⟨(anchor_step_spec _ _ _ hp.1 (Or.inr hf.1)).1,
        (anchor_step_spec _ _ _ hp.2 (Or.inr hf.2)).1⟩
  · intro kf hkf
    exact absurd hkf (List.not_mem_nil _)

/-! ### The anchors in the second pass -/

theorem gene_pair_push_back_forall (Q : mates_t → Prop)
    (idx : discordant_mates_by_gene_pair_t) (p : gene_t × gene_t) (g : mates_t) (hg : Q g)
    (h : ∀ pc ∈ idx, ∀ x ∈ pc.2, Q x) :
    ∀ pc ∈ gene_pair_push_back idx p g, ∀ x ∈ pc.2, Q x := by
  induction idx with
  | nil =>
    intro pc hpc x hx
    simp only [gene_pair_push_back, List.mem_singleton] at hpc
    subst hpc
    rw [List.mem_singleton.mp hx]
    exact hg
  | cons hd tl ih =>
    obtain ⟨k0, l0⟩ := hd
    intro pc hpc x hx
    unfold gene_pair_push_back at hpc
    split_ifs at hpc with hk
    · rcases List.mem_cons.mp hpc with heq | hmem
      · subst heq
        rcases List.mem_append.mp hx with hx | hx
        · exact h (k0, l0) (List.mem_cons_self _ _) x hx
        · rw [List.mem_singleton.mp hx]
          exact hg
      · exact h pc (List.mem_cons_of_mem _ hmem) x hx
    · rcases List.mem_cons.mp hpc with heq | hmem
      · subst heq
        exact h (k0, l0) (List.mem_cons_self _ _) x hx
      · exact ih (fun pc hpc => h pc (List.mem_cons_of_mem _ hpc)) pc hmem x hx

theorem gene_pair_find_mem (idx : discordant_mates_by_gene_pair_t) (p : gene_t × gene_t)
    (c : List mates_t) (h : gene_pair_find idx p = some c) : (p, c) ∈ idx := by
  induction idx with
  | nil => simp [gene_pair_find] at h
  | cons hd tl ih =>
    obtain ⟨k0, l0⟩ := hd
    unfold gene_pair_find at h
    split_ifs at h with hk
    · rw [← hk, ← Option.some.inj h]
      exact List.mem_cons_self _ _
    · exact List.mem_cons_of_mem _ (ih h)

/-- Every group in the table of the discordant mates is a group of size 2 of the
input: a property of these groups holds for all candidates. -/
theorem aggregate_candidates_forall (Q : mates_t → Prop) (E : externals)
    (l : chimeric_alignments_t) (hQ : ∀ g ∈ l, g.size ≠ 3 → g.size = 2 → Q g)
    (st : aggregation_t) (h : ∀ pc ∈ st.discordant_mates_by_gene_pair, ∀ x ∈ pc.2, Q x) :
    ∀ pc ∈ (l.foldl (aggregate_group E) st).discordant_mates_by_gene_pair,
      ∀ x ∈ pc.2, Q x := by
  induction l generalizing st with
  | nil => exact h
  | cons g rest ih =>
    rw [List.foldl_cons]
    apply ih (fun x hx => hQ x (List.mem_cons_of_mem _ hx))
    have dm2 : Q g → ∀ v gene1 od1 genes2 od2 (st : aggregation_t),
        (∀ pc ∈ st.discordant_mates_by_gene_pair, ∀ x ∈ pc.2, Q x) →
        ∀ pc ∈ (discordant_mate_gene2_loop v g gene1 od1 genes2 od2
          st).discordant_mates_by_gene_pair, ∀ x ∈ pc.2, Q x := by
      intro hg v gene1 od1 genes2
      induction genes2 with
      | nil => exact fun _ _ h => h
      | cons gene2 rest ih2 =>
        intro od2 st h
        unfold discordant_mate_gene2_loop
        exact ih2 _ _ (gene_pair_push_back_forall Q _ _ g hg h)
    have dm1 : Q g → ∀ v genes1 od1 (st : aggregation_t),
        (∀ pc ∈ st.discordant_mates_by_gene_pair, ∀ x ∈ pc.2, Q x) →
        ∀ pc ∈ (discordant_mate_gene1_loop v g genes1 od1
          st).discordant_mates_by_gene_pair, ∀ x ∈ pc.2, Q x := by
      intro hg v genes1
      induction genes1 with
      | nil => exact fun _ _ h => h
      | cons gene1 rest ih1 =>
        intro od1 st h
        unfold discordant_mate_gene1_loop
        exact ih1 _ _ (dm2 hg _ _ _ _ _ _ h)
    unfold aggregate_group
    split_ifs with h3 h2
    · exact h
    · exact dm1 (hQ g (List.mem_cons_self _ _) h3 h2) _ _ _ _ h
    · exact h

theorem direction_eq_upstream (d : direction_t) (h : ¬d = DOWNSTREAM) : d = UPSTREAM := by
  cases d
  · rfl
  · exact absurd rfl h

theorem expand_anchor1_to_mate_anchor (f : fusion_t) (m : alignment_t) :
    (expand_anchor1_to_mate f m).anchor_start1 =
      anchor_step f.direction1 f.anchor_start1
        (if f.direction1 = DOWNSTREAM then m.start else m.end_) := by
  unfold expand_anchor1_to_mate anchor_step
  by_cases hd : f.direction1 = DOWNSTREAM
  · simp only [hd, true_and, if_true, reduceCtorEq, false_and, if_false]
    split_ifs <;> rfl
  · have hu := direction_eq_upstream _ hd
    simp only [hu, true_and, reduceCtorEq, false_and, if_false]
    split_ifs <;> rfl

theorem expand_anchor2_to_mate_anchor (f : fusion_t) (m : alignment_t) :
    (expand_anchor2_to_mate f m).anchor_start2 =
      anchor_step f.direction2 f.anchor_start2
        (if f.direction2 = DOWNSTREAM then m.start else m.end_) := by
  unfold expand_anchor2_to_mate anchor_step
  by_cases hd : f.direction2 = DOWNSTREAM
  · simp only [hd, true_and, if_true, reduceCtorEq, false_and, if_false]
    split_ifs <;> rfl
  · have hu := direction_eq_upstream _ hd
    simp only [hu, true_and, reduceCtorEq, false_and, if_false]
    split_ifs <;> rfl

theorem attach_discordant_mate_anchors (f : fusion_t) (dm : mates_t) (m1 m2 : alignment_t) :
    (attach_discordant_mate f dm m1 m2).anchor_start1 =
        anchor_step f.direction1 f.anchor_start1
          (if f.direction1 = DOWNSTREAM then m1.start else m1.end_) ∧
      (attach_discordant_mate f dm m1 m2).anchor_start2 =
        anchor_step f.direction2 f.anchor_start2
          (if f.direction2 = DOWNSTREAM then m2.start else m2.end_) ∧
      (attach_discordant_mate f dm m1 m2).direction1 = f.direction1 ∧
      (attach_discordant_mate f dm m1 m2).direction2 = f.direction2 := by
  obtain ⟨l, n, fl, hp⟩ := push_discordant_mate_frame f dm
  obtain ⟨a, h2⟩ := expand_anchor1_to_mate_frame (push_discordant_mate f dm) m1
  obtain ⟨b, h3⟩ :=
    expand_anchor2_to_mate_frame (expand_anchor1_to_mate (push_discordant_mate f dm) m1) m2
  have e1 : (attach_discordant_mate f dm m1 m2).anchor_start1 =
      (expand_anchor1_to_mate (push_discordant_mate f dm) m1).anchor_start1 := by
    unfold attach_discordant_mate
    rw [h3]
  have e2 : (attach_discordant_mate f dm m1 m2).anchor_start2 =
      anchor_step (expand_anchor1_to_mate (push_discordant_mate f dm) m1).direction2
        (expand_anchor1_to_mate (push_discordant_mate f dm) m1).anchor_start2
        (if (expand_anchor1_to_mate (push_discordant_mate f dm) m1).direction2 = DOWNSTREAM
          then m2.start else m2.end_) := by
    unfold attach_discordant_mate
    exact expand_anchor2_to_mate_anchor _ _
  refine ⟨?_, ?_, ?_, ?_⟩
  · rw [e1, expand_anchor1_to_mate_anchor, hp]
  · rw [e2, h2, hp]
  · obtain ⟨l', n', fl', a', b', h⟩ := attach_discordant_mate_frame f dm m1 m2
    rw [h]
  · obtain ⟨l', n', fl', a', b', h⟩ := attach_discordant_mate_frame f dm m1 m2
    rw [h]

/-- The anchor coordinate that the second pass reads from a mate consistent with
a side is the anchor coordinate of the mate in the aggregation. -/
theorem side_consistent_anchor (d : direction_t) (b : position_t) (n : Nat) (gap : Int)
    (m : alignment_t) (h : side_consistent d b n gap m = true) :
    (if d = DOWNSTREAM then m.start else m.end_) =
      (if m.strand = FORWARD then m.start else m.end_) := by
  unfold side_consistent at h
  rw [decide_eq_true_iff] at h
  rcases h with ⟨hd, hs, -⟩ | ⟨hd, hs, -⟩
  · rw [hd, hs]
    rfl
  · rw [hd, hs]
    rfl

/-- The scan of the second pass moves the anchors of a fusion away from the
breakpoints only, if the anchors of the fusion and of the candidates are
positive. -/
theorem scan_discordant_mates_anchors (E : externals) (max_mate_gap : Int)
    (c : List mates_t)
    (hc : ∀ x ∈ c, 0 < (canonicalize (discordant_mate_locals E x)).anchor_start1 ∧
      0 < (canonicalize (discordant_mate_locals E x)).anchor_start2)
    (f : fusion_t) (hf : 0 < f.anchor_start1 ∧ 0 < f.anchor_start2) :
    (f.direction1 = DOWNSTREAM →
        (scan_discordant_mates E max_mate_gap c f).1.anchor_start1 ≤ f.anchor_start1) ∧
      (f.direction1 = UPSTREAM →
        f.anchor_start1 ≤ (scan_discordant_mates E max_mate_gap c f).1.anchor_start1) ∧
      (f.direction2 = DOWNSTREAM →
        (scan_discordant_mates E max_mate_gap c f).1.anchor_start2 ≤ f.anchor_start2) ∧
      (f.direction2 = UPSTREAM →
        f.anchor_start2 ≤ (scan_discordant_mates E max_mate_gap c f).1.anchor_start2) := by
  induction c generalizing f with
  | nil => exact ⟨fun _ => le_refl _, fun _ => le_refl _, fun _ => le_refl _, fun _ => le_refl _⟩
  | cons dm rest ih =>
    have hrest := fun x hx => hc x (List.mem_cons_of_mem _ hx)
    unfold scan_discordant_mates
    dsimp only
    by_cases hcons : discordant_mate_consistent E max_mate_gap f dm = true
    · rw [if_pos hcons]
      have hcons' := hcons
      unfold discordant_mate_consistent at hcons'
      rw [Bool.and_eq_true] at hcons'
      obtain ⟨-, -, -, -, r5, r6⟩ := reorder_mates_canonical E dm
      have hp := hc dm (List.mem_cons_self _ _)
      rw [r5, r6, ← side_consistent_anchor _ _ _ _ _ hcons'.1,
        ← side_consistent_anchor _ _ _ _ _ hcons'.2] at hp
      obtain ⟨a1, a2, d1, d2⟩ :=
        attach_discordant_mate_anchors f dm (reorder_mates E dm).1 (reorder_mates E dm).2
      obtain ⟨s1, -, -, s4, s5⟩ := anchor_step_spec f.direction1 f.anchor_start1 _ hp.1
        (Or.inr hf.1)
      obtain ⟨t1, -, -, t4, t5⟩ := anchor_step_spec f.direction2 f.anchor_start2 _ hp.2
        (Or.inr hf.2)
      rw [← a1] at s1 s4 s5
      rw [← a2] at t1 t4 t5
      have hstep : (f.direction1 = DOWNSTREAM →
            (attach_discordant_mate f dm (reorder_mates E dm).1
              (reorder_mates E dm).2).anchor_start1 ≤ f.anchor_start1) ∧
          (f.direction1 = UPSTREAM →
            f.anchor_start1 ≤ (attach_discordant_mate f dm (reorder_mates E dm).1
              (reorder_mates E dm).2).anchor_start1) ∧
          (f.direction2 = DOWNSTREAM →
            (attach_discordant_mate f dm (reorder_mates E dm).1
              (reorder_mates E dm).2).anchor_start2 ≤ f.anchor_start2) ∧
          (f.direction2 = UPSTREAM →
            f.anchor_start2 ≤ (attach_discordant_mate f dm (reorder_mates E dm).1
              (reorder_mates E dm).2).anchor_start2) :=
        ⟨fun h => (s4 h).2 hf.1, fun h => (s5 h).2 hf.1, fun h => (t4 h).2 hf.2,
          fun h => (t5 h).2 hf.2⟩
      split_ifs
      · exact hstep
      · obtain ⟨i1, i2, i3, i4⟩ := ih hrest _ ⟨s1, t1⟩
        rw [d1] at i1 i2
        rw [d2] at i3 i4
        exact ⟨fun h => le_trans (i1 h) (hstep.1 h), fun h => le_trans (hstep.2.1 h) (i2 h),
          fun h => le_trans (i3 h) (hstep.2.2.1 h), fun h => le_trans (hstep.2.2.2 h) (i4 h)⟩
    · rw [if_neg hcons]
      exact ih hrest f hf

theorem count_discordant_mates_anchors (E : externals) (max_mate_gap : Int)
    (idx : discordant_mates_by_gene_pair_t)
    (hidx : ∀ pc ∈ idx, ∀ x ∈ pc.2,
      0 < (canonicalize (discordant_mate_locals E x)).anchor_start1 ∧
        0 < (canonicalize (discordant_mate_locals E x)).anchor_start2)
    (f : fusion_t) (hf : 0 < f.anchor_start1 ∧ 0 < f.anchor_start2) :
    (f.direction1 = DOWNSTREAM →
        (count_discordant_mates E max_mate_gap idx f).1.anchor_start1 ≤ f.anchor_start1) ∧
      (f.direction1 = UPSTREAM →
        f.anchor_start1 ≤ (count_discordant_mates E max_mate_gap idx f).1.anchor_start1) ∧
      (f.direction2 = DOWNSTREAM →
        (count_discordant_mates E max_mate_gap idx f).1.anchor_start2 ≤ f.anchor_start2) ∧
      (f.direction2 = UPSTREAM →
        f.anchor_start2 ≤ (count_discordant_mates E max_mate_gap idx f).1.anchor_start2) := by
  have hsame : (f.direction1 = DOWNSTREAM → f.anchor_start1 ≤ f.anchor_start1) ∧
      (f.direction1 = UPSTREAM → f.anchor_start1 ≤ f.anchor_start1) ∧
      (f.direction2 = DOWNSTREAM → f.anchor_start2 ≤ f.anchor_start2) ∧
      (f.direction2 = UPSTREAM → f.anchor_start2 ≤ f.anchor_start2) :=
    ⟨fun _ => le_refl _, fun _ => le_refl _, fun _ => le_refl _, fun _ => le_refl _⟩
  unfold count_discordant_mates
  split_ifs
  · exact hsame
  · cases hfind : gene_pair_find idx (f.gene1, f.gene2) with
    | none => exact hsame
    | some c =>
      exact scan_discordant_mates_anchors E max_mate_gap c
        (hidx _ (gene_pair_find_mem idx _ c hfind)) f hf

theorem finish_fusion_anchors (E : externals) (max_mate_gap : Int)
    (idx : discordant_mates_by_gene_pair_t) (f : fusion_t) :
    (finish_fusion E max_mate_gap idx f).anchor_start1 =
        (count_discordant_mates E max_mate_gap idx f).1.anchor_start1 ∧
      (finish_fusion E max_mate_gap idx f).anchor_start2 =
        (count_discordant_mates E max_mate_gap idx f).1.anchor_start2 := by
  unfold finish_fusion
  obtain ⟨t, ta, sa, s1, s2, p1, p2, h⟩ :=
    predict_fusion_frame E (count_discordant_mates E max_mate_gap idx f).1
  rw [h]
  exact ⟨rfl, rfl⟩

theorem merged_into_size (E : externals) (k : fusion_key_t) (g : mates_t)
    (h : merged_into E k g = true) : g.size = 3 ∨ g.size = 2 := by
  unfold merged_into at h
  rw [Bool.and_eq_true, decide_eq_true_eq] at h
  exact h.1

/-- C21: if the anchor coordinates of all groups of the input are positive, then
after the aggregation `anchor_start1` of every fusion is one of the values
`anchor_start1` of the groups merged into it, the least one if `direction1` is
DOWNSTREAM and the greatest one if it is UPSTREAM, and the same holds for
side 2; the second pass and the predictions leave each anchor where it is or
move it away from the breakpoint: a DOWNSTREAM anchor is not increased, an
UPSTREAM anchor is not decreased. -/
theorem C21_anchor_extent (E : externals) (chimeric_alignments : chimeric_alignments_t)
    (max_mate_gap : Int)
    (hpos : ∀ g ∈ chimeric_alignments, g.size = 3 ∨ g.size = 2 →
      0 < (group_locals E g).anchor_start1 ∧ 0 < (group_locals E g).anchor_start2) :
    ∀ kf ∈ (aggregate E chimeric_alignments []).fusions,
      (kf.2.anchor_start1 ∈ merged_anchors1 E chimeric_alignments kf.1 ∧
        (kf.2.direction1 = DOWNSTREAM →
          ∀ a ∈ merged_anchors1 E chimeric_alignments kf.1, kf.2.anchor_start1 ≤ a) ∧
        (kf.2.direction1 = UPSTREAM →
          ∀ a ∈ merged_anchors1 E chimeric_alignments kf.1, a ≤ kf.2.anchor_start1)) ∧
      (kf.2.anchor_start2 ∈ merged_anchors2 E chimeric_alignments kf.1 ∧
        (kf.2.direction2 = DOWNSTREAM →
          ∀ a ∈ merged_anchors2 E chimeric_alignments kf.1, kf.2.anchor_start2 ≤ a) ∧
        (kf.2.direction2 = UPSTREAM →
          ∀ a ∈ merged_anchors2 E chimeric_alignments kf.1, a ≤ kf.2.anchor_start2)) ∧
      (kf.1, finish_fusion E max_mate_gap
          (aggregate E chimeric_alignments []).discordant_mates_by_gene_pair kf.2) ∈
        (find_fusions E chimeric_alignments [] max_mate_gap).fusions ∧
      (kf.2.direction1 = DOWNSTREAM →
        (finish_fusion E max_mate_gap
          (aggregate E chimeric_alignments []).discordant_mates_by_gene_pair
          kf.2).anchor_start1 ≤ kf.2.anchor_start1) ∧
      (kf.2.direction1 = UPSTREAM →
        kf.2.anchor_start1 ≤ (finish_fusion E max_mate_gap
          (aggregate E chimeric_alignments []).discordant_mates_by_gene_pair
          kf.2).anchor_start1) ∧
      (kf.2.direction2 = DOWNSTREAM →
        (finish_fusion E max_mate_gap
          (aggregate E chimeric_alignments []).discordant_mates_by_gene_pair
          kf.2).anchor_start2 ≤ kf.2.anchor_start2) ∧
      (kf.2.direction2 = UPSTREAM →
        kf.2.anchor_start2 ≤ (finish_fusion E max_mate_gap
          (aggregate E chimeric_alignments []).discordant_mates_by_gene_pair
          kf.2).anchor_start2) := by
  intro kf hkf
  have hfind := fusions_find_of_mem _ (aggregate_keys_nodup E chimeric_alignments) kf hkf
  have hfold := foldl_aggregate_group_anchors E kf.1 chimeric_alignments ⟨[], []⟩
  have hfa1 : field_at (fun f => f.anchor_start1) (aggregate E chimeric_alignments []).fusions
      kf.1 = kf.2.anchor_start1 := by
    unfold field_at
    rw [hfind]
    rfl
  have hfa2 : field_at (fun f => f.anchor_start2) (aggregate E chimeric_alignments []).fusions
      kf.1 = kf.2.anchor_start2 := by
    unfold field_at
    rw [hfind]
    rfl
  have h1 : kf.2.anchor_start1 =
      (merged_anchors1 E chimeric_alignments kf.1).foldl (anchor_step kf.1.direction1) 0 :=
    hfa1.symm.trans hfold.1
  have h2 : kf.2.anchor_start2 =
      (merged_anchors2 E chimeric_alignments kf.1).foldl (anchor_step kf.1.direction2) 0 :=
    hfa2.symm.trans hfold.2
  have hk := (aggregate_key_ordered E chimeric_alignments kf hkf).1
  have hd1 : kf.2.direction1 = kf.1.direction1 := by
    rw [← hk]
    rfl
  have hd2 : kf.2.direction2 = kf.1.direction2 := by
    rw [← hk]
    rfl
  have hposf := aggregate_anchors_pos E chimeric_alignments hpos kf hkf
  have hA1 : ∀ a ∈ merged_anchors1 E chimeric_alignments kf.1, 0 < a := by
    intro a ha
    unfold merged_anchors1 at ha
    obtain ⟨g, hg, rfl⟩ := List.mem_map.mp ha
    rw [List.mem_filter] at hg
    exact (hpos g hg.1 (merged_into_size E kf.1 g hg.2)).1
  have hA2 : ∀ a ∈ merged_anchors2 E chimeric_alignments kf.1, 0 < a := by
    intro a ha
    unfold merged_anchors2 at ha
    obtain ⟨g, hg, rfl⟩ := List.mem_map.mp ha
    rw [List.mem_filter] at hg
    exact (hpos g hg.1 (merged_into_size E kf.1 g hg.2)).2
  have hne1 : merged_anchors1 E chimeric_alignments kf.1 ≠ [] := by
    intro he
    rw [he] at h1
    exact absurd hposf.1 (by rw [h1]; exact lt_irrefl _)
  have hne2 : merged_anchors2 E chimeric_alignments kf.1 ≠ [] := by
    intro he
    rw [he] at h2
    exact absurd hposf.2 (by rw [h2]; exact lt_irrefl _)
  obtain ⟨-, m1, -, lo1, up1⟩ := foldl_anchor_step kf.1.direction1 _ 0 hA1 (Or.inl rfl)
  obtain ⟨-, m2, -, lo2, up2⟩ := foldl_anchor_step kf.1.direction2 _ 0 hA2 (Or.inl rfl)
  rw [← h1] at m1 lo1 up1
  rw [← h2] at m2 lo2 up2
  rw [← hd1] at lo1 up1
  rw [← hd2] at lo2 up2
  have hidx := aggregate_candidates_forall
    (fun x => 0 < (canonicalize (discordant_mate_locals E x)).anchor_start1 ∧
      0 < (canonicalize (discordant_mate_locals E x)).anchor_start2) E chimeric_alignments
    (fun g hg h3 h2 => by
      have hp := hpos g hg (Or.inr h2)
      unfold group_locals at hp
      rw [if_neg h3] at hp
      exact hp)
    ⟨[], []⟩ (fun pc hpc => absurd hpc (List.not_mem_nil _))
  obtain ⟨c1, c2, c3, c4⟩ := count_discordant_mates_anchors E max_mate_gap
    (aggregate E chimeric_alignments []).discordant_mates_by_gene_pair hidx kf.2 hposf
  obtain ⟨e1, e2⟩ := finish_fusion_anchors E max_mate_gap
    (aggregate E chimeric_alignments []).discordant_mates_by_gene_pair kf.2
  rw [← e1] at c1 c2
  rw [← e2] at c3 c4
  refine ⟨⟨m1 rfl hne1, fun h => (lo1 h).1, fun h => (up1 h).1⟩,
    ⟨m2 rfl hne2, fun h => (lo2 h).1, fun h => (up2 h).1⟩, ?_, c1, c2, c3, c4⟩
  rw [find_fusions_fusions]
  exact List.mem_map.mpr ⟨kf, hkf, rfl⟩

/-- The statement of C21 at two split reads with the anchors (10, 240) and
(5, 260) and a pair of discordant mates with the anchors (1, 300): after the
aggregation the fusion of the split reads has the anchors 5 and 260, and the
second pass moves them to 1 and 300. -/
theorem C21_anchor_extent_witness :
    (∀ g ∈ sample_anchor_input, g.size = 3 ∨ g.size = 2 →
        0 < (group_locals E0 g).anchor_start1 ∧ 0 < (group_locals E0 g).anchor_start2) ∧
      sample_anchor_entry ∈ (aggregate E0 sample_anchor_input []).fusions ∧
      sample_anchor_entry.2.direction1 = DOWNSTREAM ∧
      sample_anchor_entry.2.direction2 = UPSTREAM ∧
      merged_anchors1 E0 sample_anchor_input sample_anchor_entry.1 = [10, 5] ∧
      merged_anchors2 E0 sample_anchor_input sample_anchor_entry.1 = [240, 260] ∧
      sample_anchor_entry.2.anchor_start1 = 5 ∧
      sample_anchor_entry.2.anchor_start2 = 260 ∧
      (finish_fusion E0 1000
        (aggregate E0 sample_anchor_input []).discordant_mates_by_gene_pair
        sample_anchor_entry.2).anchor_start1 = 1 ∧
      (finish_fusion E0 1000
        (aggregate E0 sample_anchor_input []).discordant_mates_by_gene_pair
        sample_anchor_entry.2).anchor_start2 = 300 ∧
      (sample_anchor_entry.2.anchor_start1 ∈
          merged_anchors1 E0 sample_anchor_input sample_anchor_entry.1 ∧
        (sample_anchor_entry.2.direction1 = DOWNSTREAM →
          ∀ a ∈ merged_anchors1 E0 sample_anchor_input sample_anchor_entry.1,
            sample_anchor_entry.2.anchor_start1 ≤ a) ∧
        (sample_anchor_entry.2.direction1 = UPSTREAM →
          ∀ a ∈ merged_anchors1 E0 sample_anchor_input sample_anchor_entry.1,
            a ≤ sample_anchor_entry.2.anchor_start1)) :=
  ⟨by decide, by decide, by decide, by decide, by decide, by decide, by decide, by decide,
    by decide, by decide,
    (C21_anchor_extent E0 sample_anchor_input 1000 (by decide) sample_anchor_entry
      (by decide)).1⟩

end Arriba
